import Mathlib

/-!
# StdConcurrentDataTransfer: gather / scatter coupling of two namespaces

Shallow embedding of `plugins/ConcurrentCoupler/StdConcurrentDataTransfer.cxx`.

Conventions of the embedding.

* A `vector<T>` or a raw `CFreal*` buffer of known size is a `List`.  Field values
  (`CFreal`) are only ever copied by the code under study, never combined
  arithmetically, so the element type is an arbitrary type `α`.
* Counts, ranks, strides and global ids (`int` / `CFuint`) are natural numbers,
  with one exception: the displacement code of `gatherData` (lines 238-240 and
  270-278) mixes `vector<int>` with a `CFuint` running total, so there `int` is
  a 32-bit two's complement integer, `CFuint` an unsigned integer of `w` bits
  (its typedef is a build option declared outside this file, so the width is a
  parameter of the definitions), and every conversion is written out.
* A failed `cf_assert`, a division by zero and an access outside a buffer end
  the run: the operations that can fail return `Except Fault _`, the fault
  naming the source line of the assertion.  The `NotImplementedException` of
  `execute` is recorded in the outcome of `execute`.
* An MPI collective over a group is modelled by its result on all the
  contributions (`MPI_MAX` is the pointwise maximum, `MPI_Bcast` copies the
  root buffer).
-/

namespace StdConcurrentDataTransfer

/-- Ways in which a run of the command stops before its end. -/
inductive Fault where
  /-- a `cf_assert` that does not hold, identified by its source line -/
  | assertion (line : Nat)
  /-- an integer division whose divisor is zero -/
  | divisionByZero
  /-- a read or a write outside the bounds of a buffer -/
  | outOfBounds
  /-- a `NoSuchValueException` that no handler catches -/
  | noSuchValue
  /-- an `int` addition whose result leaves the range of `int` -/
  | intOverflow
  deriving DecidableEq, Repr

deriving instance DecidableEq for Except

/-! ## Sequences of single writes (proof device shared by gather and scatter) -/

/-- Apply a sequence of writes `(index, value)` to a buffer, in order; `none`
as soon as an index lies outside the buffer. -/
def applyWrites {α : Type} : List (Nat × α) → List α → Option (List α)
  | [], a => some a
  | w :: ws, a => if w.1 < a.length then applyWrites ws (a.set w.1 w.2) else none

/-- The value of the last write to index `j` in a sequence of writes, if any. -/
def lastWrite {α : Type} : List (Nat × α) → Nat → Option α
  | [], _ => none
  | w :: ws, j =>
    match lastWrite ws j with
    | some v => some v
    | none => if w.1 = j then some w.2 else none

/-! ## gatherData -/

/-- Largest value of an `int` (32 bits). -/
def INT_MAX : Int := 2147483647

/-- Conversion of an unsigned value to `int` (32 bits, two's complement), as in
`displs[r] = totRecvcount`: the value modulo `2^32`, read in the range
`[-2^31, 2^31)`. -/
def toInt (n : Nat) : Int := (((n + 2147483648) % 4294967296 : Nat) : Int) - 2147483648

/-- Conversion of an `int` to a `CFuint` of `w` bits, as in
`totRecvcount += recvcounts[r]`: the value modulo `2^w`. -/
def toCFuint (w : Nat) (i : Int) : Nat := (i % (2 ^ w : Int)).toNat

/-- The call `std::accumulate(first, last, 0)` over a `vector<int>`, started
from the running sum `acc`: the initial value is an `int`, so every partial sum
is formed in `int`; a partial sum outside the range of `int` is a signed
overflow and ends the run. -/
def accumulate : List Int → Int → Except Fault Int
  | [], acc => .ok acc
  | c :: cs, acc =>
    if -2147483648 ≤ acc + c ∧ acc + c ≤ INT_MAX then accumulate cs (acc + c)
    else .error .intOverflow

/-- The displacement loop of `gatherData` (lines 272-277), started at rank `r`
with the running total `tot`, for a `CFuint` of `w` bits: `displs[r]` is
assigned only when `recvcounts[r] > 0`, the `CFuint` total being converted to
`int`; the total is advanced in `CFuint`, modulo `2^w`. -/
def gatherDisplsLoop (w : Nat) : List Int → Nat → List Int → Nat → List Int × Nat
  | [], _, displs, tot => (displs, tot)
  | c :: cs, r, displs, tot =>
    gatherDisplsLoop w cs (r + 1) (if c > 0 then displs.set r (toInt tot) else displs)
      ((tot + toCFuint w c) % 2 ^ w)

/-- Lines 238-240 and 270-277 of `gatherData`: `recvcounts` and `displs` are
`vector<int>`, `displs` starts as `nbRanks` zeros, `displs[0] = 0`,
`CFuint totRecvcount = recvcounts[0]`, then the loop over `r >= 1`.
Returns `(displs, totRecvcount)`; reading `recvcounts[0]` of an empty vector is
a fault. -/
def gatherDispls (w : Nat) (recvcounts : List Int) : Except Fault (List Int × Nat) :=
  match recvcounts with
  | [] => .error .outOfBounds
  | c0 :: cs =>
    .ok (gatherDisplsLoop w cs 1 ((List.replicate recvcounts.length 0).set 0 0)
      (toCFuint w c0))

/-- Lines 270-278 of `gatherData`: the displacements and the total, followed
by the assertion `totRecvcount == std::accumulate(recvcounts.begin(),
recvcounts.end(), 0)`, whose right-hand side is an `int` converted to `CFuint`
for the comparison. -/
def gatherLayout (w : Nat) (recvcounts : List Int) : Except Fault (List Int × Nat) :=
  match gatherDispls w recvcounts with
  | .error e => .error e
  | .ok (displs, totRecvcount) =>
    match accumulate recvcounts 0 with
    | .error e => .error e
    | .ok s =>
      if totRecvcount = toCFuint w s then .ok (displs, totRecvcount)
      else .error (.assertion 278)

/-- The reorder loop on the root (lines 306-310):
`for (is = 0; is < totRecvcount; ++is) sarray[recvIDs[is]] = recvbuf[is];`
with its two bound assertions.  The first argument is the number of iterations
still to run, the second the loop variable `is`. -/
def gatherRootLoop {α : Type} (recvIDs : List Nat) (recvbuf : List α) :
    Nat → Nat → List α → Except Fault (List α)
  | 0, _, sarray => .ok sarray
  | n + 1, is, sarray =>
    match recvIDs[is]? with
    | none => .error (.assertion 307)
    | some g =>
      match recvbuf[is]? with
      | none => .error (.assertion 308)
      | some v =>
        if g < sarray.length then gatherRootLoop recvIDs recvbuf n (is + 1) (sarray.set g v)
        else .error .outOfBounds

/-- The root branch of `gatherData` (lines 302-311): the assertion
`dtt->arraySize == totRecvcount`, then the reorder loop over the gathered
buffers. -/
def gatherRoot {α : Type} (sarray : List α) (recvIDs : List Nat) (recvbuf : List α)
    (totRecvcount : Nat) : Except Fault (List α) :=
  if sarray.length = totRecvcount then gatherRootLoop recvIDs recvbuf totRecvcount 0 sarray
  else .error (.assertion 304)

/-- Id buffer that is parallel to the data buffer, one entry per scalar: for
each contributed DOF with global id `g`, in arrival order, the `s` array
indices `g*s + c`, `c < s`. -/
def scalarIDs (s : Nat) (gs : List Nat) : List Nat :=
  gs.flatMap (fun g => (List.range s).map (fun c => g * s + c))

/-- Data buffer of a gather: for each contributed DOF with global id `g`, in
arrival order, its `s` values `senderValue g c`, `c < s`. -/
def gatherValues {α : Type} (s : Nat) (gs : List Nat) (senderValue : Nat → Nat → α) : List α :=
  gs.flatMap (fun g => (List.range s).map (senderValue g))

/-- Modelled from the spec: the sender loop `fillSendDataGather` is a template
of the class header, which is not part of the sources at hand.  Section 4.2:
"for each locally-owned DOF with global id `g`, emit `sendStride` values [...]
and emit `g` itself", "the k-th scalar and the k-th id describe the same
element".  Id buffer parallel to the data buffer in which each of the `s`
scalars of a DOF carries the global id `g` of the DOF itself. -/
def repeatedIDs (s : Nat) (gs : List Nat) : List Nat :=
  gs.flatMap (fun g => List.replicate s g)

/-! ## scatterData -/

/-- The lookup `_global2localIDs.find(key, found)` of the `CFMap` from global to
local ids, the map being the list of its `(global id, local id)` entries:
`some localID` when `found`, `none` otherwise.  For a key that occurs in more
than one entry the first entry is taken. -/
def findLocalID (global2localIDs : List (Nat × Nat)) (key : Nat) : Option Nat :=
  global2localIDs.lookup key

/-- Modelled from the spec: `fillMapGlobalToLocal` is a template defined in the
header of the class, which is not part of the sources at hand.  Section 4.3:
"each receiver constructs `globalToLocal` from its DOF handle (one entry per
local DOF, mapping global id → local index)".  The handle is given by the list
of the global ids of its DOFs, in local order. -/
def fillMapGlobalToLocal (dofs : List Nat) : List (Nat × Nat) :=
  dofs.enum.map (fun e => (e.2, e.1))

/-- Root side, lines 419-422: copy `sendSize` values from `dataToSend`, at the
running cursor `counter`, into the scratch buffer `sendbuf`.  First argument:
iterations still to run; second: the loop variable `s`.  Returns the advanced
cursor and the buffer. -/
def scatterFillData {α : Type} (dataToSend : List α) :
    Nat → Nat → Nat → List α → Except Fault (Nat × List α)
  | 0, _, counter, sendbuf => .ok (counter, sendbuf)
  | n + 1, s, counter, sendbuf =>
    if s < sendbuf.length then
      match dataToSend[counter]? with
      | none => .error .outOfBounds
      | some v => scatterFillData dataToSend n (s + 1) (counter + 1) (sendbuf.set s v)
    else .error (.assertion 420)

/-- Root side, lines 429-433 (`State`) and 438-442 (`Node`): copy `sendIDSize`
global ids from the DOF handle selected by the connectivity type, at the
running cursor `countID`, into `sendIDs`.  `dofs` lists the global ids
`dofs[i]->getGlobalID()` of that handle. -/
def scatterFillIDs (dofs : List Nat) :
    Nat → Nat → Nat → List Nat → Except Fault (Nat × List Nat)
  | 0, _, countID, sendIDs => .ok (countID, sendIDs)
  | n + 1, s, countID, sendIDs =>
    match dofs[countID]? with
    | none => .error (.assertion 430)
    | some g =>
      if s < sendIDs.length then
        scatterFillIDs dofs n (s + 1) (countID + 1) (sendIDs.set s g)
      else .error (.assertion 431)

/-- Effect of `MPI_Bcast` of the first `n` entries of the root buffer on the
buffer of another rank: the first `n` entries are overwritten. -/
def bcast {β : Type} (rootBuf : List β) (n : Nat) (localBuf : List β) : Except Fault (List β) :=
  if n ≤ rootBuf.length ∧ n ≤ localBuf.length then .ok (rootBuf.take n ++ localBuf.drop n)
  else .error .outOfBounds

/-- The call `sendToRecvTrans->transform(state, tState)` with `tState` wrapping
the `recvStride` entries of the receiving array that start at `startR`
(lines 479-480): entry `startR + c` receives component `c` of the transformed
state. -/
def writeBlock {α : Type} (arr : List α) (startR recvStride : Nat) (tState : Nat → α) : List α :=
  (List.range recvStride).foldl (fun a c => a.set (startR + c) (tState c)) arr

/-- Receiver side, lines 468-482: for each received global id look up the
local id; when found, the `sendStride` values at `id*stride` of the received
data go through the transformer into the block of the receiving array that
starts at `localID*recvStride`.  The transformer is a function from the send
state to the components of the receive state; wrapping a state that reaches
outside the received data or outside the receiving array is a fault. -/
def scatterRecvLoop {α : Type} (transform : List α → Nat → α)
    (global2localIDs : List (Nat × Nat)) (sendStride recvStride stride : Nat)
    (sendbuf : List α) (sendIDs : List Nat) :
    Nat → Nat → List α → Except Fault (List α)
  | 0, _, dataToRecv => .ok dataToRecv
  | n + 1, id, dataToRecv =>
    match sendIDs[id]? with
    | none => .error .outOfBounds
    | some g =>
      match findLocalID global2localIDs g with
      | none =>
        scatterRecvLoop transform global2localIDs sendStride recvStride stride sendbuf sendIDs
          n (id + 1) dataToRecv
      | some localID =>
        let startR := localID * recvStride
        let startS := id * stride
        if stride = sendStride then
          if startS + sendStride ≤ sendbuf.length ∧ startR + recvStride ≤ dataToRecv.length then
            scatterRecvLoop transform global2localIDs sendStride recvStride stride sendbuf sendIDs
              n (id + 1)
              (writeBlock dataToRecv startR recvStride
                (transform ((sendbuf.drop startS).take sendStride)))
          else .error .outOfBounds
        else .error (.assertion 475)

/-- The data of one scatter plan as seen by the root (the single rank of the
sending namespace) and by one other rank of the transfer group. -/
structure ScatterPlan (α : Type) where
  /-- The vector `sendcounts`, as filled on the root and broadcast (lines 364-401) -/
  sendcounts : List Nat
  /-- The vector `sendIDcounts`, as filled on the root and broadcast -/
  sendIDcounts : List Nat
  /-- The array `dtt->array` on the root -/
  dataToSend : List α
  /-- global ids of the DOF handle of the root that the connectivity type selects
  (`nspSend_states` for `"State"`, `nspSend_nodes` for `"Node"`), in handle order -/
  dofs : List Nat
  /-- The field `dtt->sendStride` -/
  sendStride : Nat
  /-- The field `dtt->recvStride` -/
  recvStride : Nat
  /-- the variable transformer of the plan -/
  transform : List α → Nat → α
  /-- The map `_global2localIDs` on the receiving rank -/
  global2localIDs : List (Nat × Nat)

/-- The scratch variables that live across the iterations of the loop of lines
410-484: the two cursors and the scratch buffers of the root, and the scratch
buffers of the other rank. -/
structure ScatterState (α : Type) where
  counter : Nat
  countID : Nat
  /-- The buffer `sendbuf` on the root -/
  sendbuf : List α
  /-- The buffer `sendIDs` on the root -/
  sendIDs : List Nat
  /-- The buffer `sendbuf` on the non-root rank -/
  recvbuf : List α
  /-- The buffer `sendIDs` on the non-root rank -/
  recvIDs : List Nat

/-- Lines 411-414: the sizes of round `r` and `stride = sendSize/sendIDSize`
with the assertion `stride >= 1`. -/
def scatterStride (sendcounts sendIDcounts : List Nat) (r : Nat) :
    Except Fault (Nat × Nat × Nat) :=
  match sendcounts[r]?, sendIDcounts[r]? with
  | some sendSize, some sendIDSize =>
    if sendIDSize = 0 then .error .divisionByZero
    else if sendSize / sendIDSize ≥ 1 then .ok (sendSize, sendIDSize, sendSize / sendIDSize)
    else .error (.assertion 414)
  | _, _ => .error .outOfBounds

/-- Round `r` on the root (lines 411-444): fill the two scratch buffers. -/
def scatterRootStep {α : Type} (p : ScatterPlan α) (r : Nat) (st : ScatterState α) :
    Except Fault (ScatterState α) :=
  match scatterStride p.sendcounts p.sendIDcounts r with
  | .error e => .error e
  | .ok (sendSize, sendIDSize, _) =>
    match scatterFillData p.dataToSend sendSize 0 st.counter st.sendbuf with
    | .error e => .error e
    | .ok (counter, sendbuf) =>
      match scatterFillIDs p.dofs sendIDSize 0 st.countID st.sendIDs with
      | .error e => .error e
      | .ok (countID, sendIDs) =>
        .ok { st with counter := counter, countID := countID,
                      sendbuf := sendbuf, sendIDs := sendIDs }

/-- Round `r` on a rank other than the root (lines 411-414 and 446-483): the
broadcast of the two buffers, then the filter into the receiving array
`dataToRecv` (`dtt->array` on that rank). -/
def scatterRecvStep {α : Type} (p : ScatterPlan α) (r : Nat) (st : ScatterState α)
    (dataToRecv : List α) : Except Fault (ScatterState α × List α) :=
  match scatterStride p.sendcounts p.sendIDcounts r with
  | .error e => .error e
  | .ok (sendSize, sendIDSize, stride) =>
    match bcast st.sendbuf sendSize st.recvbuf with
    | .error e => .error e
    | .ok recvbuf =>
      match bcast st.sendIDs sendIDSize st.recvIDs with
      | .error e => .error e
      | .ok recvIDs =>
        match scatterRecvLoop p.transform p.global2localIDs p.sendStride p.recvStride
            stride recvbuf recvIDs sendIDSize 0 dataToRecv with
        | .error e => .error e
        | .ok dataToRecv2 => .ok ({ st with recvbuf := recvbuf, recvIDs := recvIDs }, dataToRecv2)

/-- The loop `for (r = 0; r < nbRanks; ++r)` of lines 410-484; `rs` lists the
rounds still to run. -/
def scatterLoop {α : Type} (p : ScatterPlan α) :
    List Nat → ScatterState α → List α → Except Fault (ScatterState α × List α)
  | [], st, dataToRecv => .ok (st, dataToRecv)
  | r :: rs, st, dataToRecv =>
    match scatterRootStep p r st with
    | .error e => .error e
    | .ok st1 =>
      match scatterRecvStep p r st1 dataToRecv with
      | .error e => .error e
      | .ok (st2, dataToRecv2) => scatterLoop p rs st2 dataToRecv2

/-- Lines 403-409: the scratch buffers are created with the sizes
`sendcounts[nbRanks-1]` and `sendIDcounts[nbRanks-1]` (value-initialised),
both asserted non-empty, and the cursors start at zero. -/
def scatterInit {α : Type} [Inhabited α] (p : ScatterPlan α) : Except Fault (ScatterState α) :=
  let nbRanks := p.sendcounts.length
  if nbRanks = 0 then .error (.assertion 338)
  else
    match p.sendcounts[nbRanks - 1]?, p.sendIDcounts[nbRanks - 1]? with
    | some n, some m =>
      if n = 0 then .error (.assertion 405)
      else if m = 0 then .error (.assertion 406)
      else .ok { counter := 0, countID := 0,
                 sendbuf := List.replicate n default, sendIDs := List.replicate m 0,
                 recvbuf := List.replicate n default, recvIDs := List.replicate m 0 }
    | _, _ => .error .outOfBounds

/-- Lines 403-484 of `scatterData`, seen from a rank other than the root:
the array `dtt->array` of that rank after the call, `dataToRecv` being the
array before the call. -/
def scatterData {α : Type} [Inhabited α] (p : ScatterPlan α) (dataToRecv : List α) :
    Except Fault (List α) :=
  match scatterInit p with
  | .error e => .error e
  | .ok st0 =>
    match scatterLoop p (List.range p.sendcounts.length) st0 dataToRecv with
    | .error e => .error e
    | .ok res => .ok res.2

/-- The loop `for (r = 0; r < nbRanks; ++r)` of lines 410-484 as the root runs
it: only the branch `grank == root` of each round changes its variables. -/
def scatterRootLoop {α : Type} (p : ScatterPlan α) :
    List Nat → ScatterState α → Except Fault (ScatterState α)
  | [], st => .ok st
  | r :: rs, st =>
    match scatterRootStep p r st with
    | .error e => .error e
    | .ok st1 => scatterRootLoop p rs st1

/-- Lines 403-484 of `scatterData` on the root: the creation of the scratch
buffers, then the loop over the ranks. -/
def scatterRoot {α : Type} [Inhabited α] (p : ScatterPlan α) : Except Fault (ScatterState α) :=
  match scatterInit p with
  | .error e => .error e
  | .ok st0 => scatterRootLoop p (List.range p.sendcounts.length) st0

/-- Number of global ids broadcast by a scatter: the sum of `sendIDcounts`
over the `nbRanks` rounds. -/
def ScatterPlan.nbIDs {α : Type} (p : ScatterPlan α) : Nat :=
  ((List.range p.sendcounts.length).map (fun r => p.sendIDcounts.getD r 0)).sum

/-- The global ids broadcast by a scatter: the first `nbIDs` ids of the DOF
handle of the root. -/
def ScatterPlan.broadcastIDs {α : Type} (p : ScatterPlan α) : List Nat :=
  p.dofs.take p.nbIDs

/-- Modelled from the spec: the identity transformer (class
`IdentityVarSetTransformer`, not part of the sources at hand).  Section 8:
"`Identity` transformer with `sendStride == recvStride` yields plain copy
semantics": component `c` of the result is component `c` of the state. -/
def identityTransform {α : Type} [Inhabited α] (state : List α) (c : Nat) : α :=
  state.getD c default

/-- The scenario "scatter 1→3, identity transformer, stride 2" of section 8,
seen by the receiver whose DOF handle holds the global ids `recvDofs`: the
sender holds the globals 0..5, the values of global `g` being
`(10 g, 10 g + 1)`, and each of the three rounds carries two ids. -/
def scatterExample (recvDofs : List Nat) : ScatterPlan Int :=
  { sendcounts := [4, 4, 4], sendIDcounts := [2, 2, 2],
    dataToSend := [0, 1, 10, 11, 20, 21, 30, 31, 40, 41, 50, 51],
    dofs := [0, 1, 2, 3, 4, 5], sendStride := 2, recvStride := 2,
    transform := identityTransform, global2localIDs := fillMapGlobalToLocal recvDofs }

/-- A scatter plan of the root with the given counts, for the examples: twenty
values `0, ..., 19` in `dtt->array` and ten DOFs with the global ids
`0, ..., 9`, strides 2, identity transformer. -/
def rootExample (sendcounts sendIDcounts : List Nat) : ScatterPlan Int :=
  { sendcounts := sendcounts, sendIDcounts := sendIDcounts,
    dataToSend := (List.range 20).map (fun v => (v : Int)),
    dofs := List.range 10, sendStride := 2, recvStride := 2,
    transform := identityTransform, global2localIDs := [] }

/-! ## The map from global to local ids across calls of scatterData -/

/-- What lines 343-362 of `scatterData` read of a plan on the calling rank:
whether the rank belongs to the receiving namespace, the connectivity type of
the plan, and the global ids of the DOF handle `dtt->dofsName` of the plan on
this rank. -/
structure RecvSide where
  inRecv : Bool
  connType : String
  dofs : List Nat
  deriving DecidableEq, Repr

/-- Lines 343-362 of `scatterData`: on a rank of the receiving namespace, when
the member `_global2localIDs` of the command is empty, `fillMapGlobalToLocal`
is called for the handle of the plan (once for `"State"`, once for `"Node"`).
Returns the map after these lines and the number of calls of
`fillMapGlobalToLocal`. -/
def scatterMapBuild (pl : RecvSide) (global2localIDs : List (Nat × Nat)) :
    List (Nat × Nat) × Nat :=
  if pl.inRecv then
    if global2localIDs.length = 0 then
      let afterState :=
        if pl.connType = "State" then (global2localIDs ++ fillMapGlobalToLocal pl.dofs, 1)
        else (global2localIDs, 0)
      if pl.connType = "Node" then
        (afterState.1 ++ fillMapGlobalToLocal pl.dofs, afterState.2 + 1)
      else afterState
    else (global2localIDs, 0)
  else (global2localIDs, 0)

/-- One call of `scatterData` as far as the map is concerned: the index of the
plan, the number of calls of `fillMapGlobalToLocal` made by the call, and the
map with which the rest of the call runs. -/
structure MapRun where
  plan : Nat
  builds : Nat
  mapUsed : List (Nat × Nat)
  deriving DecidableEq, Repr

/-- A sequence of calls `scatterData(i)` on one rank, `calls` listing the plan
indices in the order of the calls (each `execute` calls the scatter plans in
configuration order); the member `_global2localIDs` is carried from call to
call. -/
def scatterMapRuns (plans : List RecvSide) :
    List Nat → List (Nat × Nat) → List MapRun
  | [], _ => []
  | i :: calls, global2localIDs =>
    match plans[i]? with
    | none => scatterMapRuns plans calls global2localIDs
    | some pl =>
      ⟨i, (scatterMapBuild pl global2localIDs).2, (scatterMapBuild pl global2localIDs).1⟩ ::
        scatterMapRuns plans calls (scatterMapBuild pl global2localIDs).1

/-- Number of calls of `fillMapGlobalToLocal` made for plan `i` in a record of
calls. -/
def buildCount (runs : List MapRun) (i : Nat) : Nat :=
  ((runs.filter (fun run => run.plan == i)).map MapRun.builds).sum

/-! ## configure -/

/-- The factory call `getProvider(name)` of lines 124-125 and 132-133: the
provider registered under `name`, or a `NoSuchValueException` when there is
none.  `registered` lists the names under which a provider of
`VarSetTransformer` is registered; a provider is identified by its name. -/
def getProvider (registered : List String) (name : String) : Except Fault String :=
  if name ∈ registered then .ok name else .error .noSuchValue

/-- The body of the loop of lines 120-139 for one entry: the provider of the
configured name, or after a `NoSuchValueException` the entry is overwritten
with `"Identity"` and the provider of that name is fetched (outside any
handler).  Returns the name left in `_sendToRecvVecTransStr[i]`, which is the
name of the provider that creates `_sendToRecvVecTrans[i]`. -/
def resolveTransformer (registered : List String) (name : String) : Except Fault String :=
  match getProvider registered name with
  | .ok _ => .ok name
  | .error _ =>
    match getProvider registered "Identity" with
    | .ok _ => .ok "Identity"
    | .error e => .error e

/-- The loop of lines 120-139 over the entries of `_sendToRecvVecTransStr`. -/
def resolveTransformers (registered : List String) : List String → Except Fault (List String)
  | [] => .ok []
  | name :: rest =>
    match resolveTransformer registered name with
    | .error e => .error e
    | .ok resolved =>
      match resolveTransformers registered rest with
      | .error e => .error e
      | .ok resolvedRest => .ok (resolved :: resolvedRest)

/-- Lines 115-139 of `configure`: an empty list of transformer names is resized
to one `"Identity"` per entry of `SocketsSendRecv`, then every entry is
resolved.  Returns the final content of `_sendToRecvVecTransStr`. -/
def configureTransformers (registered : List String) (nbSocketsSendRecv : Nat)
    (sendToRecvVecTransStr : List String) : Except Fault (List String) :=
  resolveTransformers registered
    (if sendToRecvVecTransStr.length = 0 then List.replicate nbSocketsSendRecv "Identity"
     else sendToRecvVecTransStr)

/-- The command `configure` (lines 99-140): the check of the two sizes, with
its assertion, then the resolution of the transformers.  The assertions of
lines 136 and 138 concern the provider that the factory has returned and the
transformer that it creates; they hold whenever a provider is returned. -/
def configure (registered socketsSendRecv socketsConnType sendToRecvVecTransStr : List String) :
    Except Fault (List String) :=
  if socketsConnType.length ≠ socketsSendRecv.length then .error (.assertion 105)
  else configureTransformers registered socketsSendRecv.length sendToRecvVecTransStr

/-! ## execute -/

/-- What `execute` reads of plan `i`: whether this rank is an active rank of the
plan (`isActiveRank(_isTransferRank[i])`) and the two group sizes stored in the
`DataToTrasfer` record of the plan. -/
structure PlanInfo where
  active : Bool
  nbRanksSend : Nat
  nbRanksRecv : Nat
  deriving DecidableEq, Repr

/-- The calls made by `execute`, each with the index of its plan. -/
inductive Event where
  | createTransferGroup (i : Nat)
  | addDataToTransfer (i : Nat)
  | gatherData (i : Nat)
  | scatterData (i : Nat)
  | barrier (i : Nat)
  deriving DecidableEq, Repr

/-- Outcome of one call of `execute`: the calls made, in order, and the index
of the plan at which `NotImplementedException` was thrown, if it was. -/
structure ExecResult where
  trace : List Event
  raisedAt : Option Nat
  deriving DecidableEq, Repr

/-- The first loop of `execute` (lines 167-172), run when `_createGroup` holds. -/
def executeSetup : List PlanInfo → Nat → List Event
  | [], _ => []
  | p :: ps, i =>
    (if p.active then [Event.createTransferGroup i, Event.addDataToTransfer i]
     else [Event.createTransferGroup i]) ++ executeSetup ps (i + 1)

/-- The second loop of `execute` (lines 176-203): the three-way dispatch on
`(nbRanksSend, nbRanksRecv)` for an active rank, then the barrier.  `i` is the
index of the first plan of the list, `tr` the calls made so far. -/
def executeLoop : List PlanInfo → Nat → List Event → ExecResult
  | [], _, tr => { trace := tr, raisedAt := none }
  | p :: ps, i, tr =>
    if p.active then
      if p.nbRanksSend > 1 ∧ p.nbRanksRecv = 1 then
        executeLoop ps (i + 1) (tr ++ [Event.gatherData i, Event.barrier i])
      else if p.nbRanksSend = 1 ∧ p.nbRanksRecv > 1 then
        executeLoop ps (i + 1) (tr ++ [Event.scatterData i, Event.barrier i])
      else if p.nbRanksSend > 1 ∧ p.nbRanksRecv > 1 then
        { trace := tr, raisedAt := some i }
      else executeLoop ps (i + 1) (tr ++ [Event.barrier i])
    else executeLoop ps (i + 1) (tr ++ [Event.barrier i])

/-- The command `execute` (lines 157-206) on the configured plans;
`createGroup` is the latch `_createGroup` at entry. -/
def execute (createGroup : Bool) (plans : List PlanInfo) : ExecResult :=
  executeLoop plans 0 (if createGroup then executeSetup plans 0 else [])

/-- A rank takes part in plan `p` and the plan is many-to-many. -/
def PlanInfo.manyToMany (p : PlanInfo) : Prop :=
  p.active = true ∧ p.nbRanksSend > 1 ∧ p.nbRanksRecv > 1

instance (p : PlanInfo) : Decidable p.manyToMany := by
  unfold PlanInfo.manyToMany; infer_instance

/-! ## createTransferGroup -/

/-- The rank groups read by `createTransferGroup`: the world ranks of the
coupling namespace in group order (`nspGroup.globalRanks`) and the world ranks
of the sending and of the receiving namespace. -/
structure Groups where
  coupling : List Nat
  send : List Nat
  recv : List Nat

/-- Lines 691-699 on the rank at position `nspRank` of the coupling group: a
vector of `nspRanksSize` zeros in which the own position is set to 1 when the
rank belongs to the sending or to the receiving namespace. -/
def localTransferFlags (g : Groups) (nspRank : Nat) : List Nat :=
  let isTransferRank := List.replicate g.coupling.length 0
  match g.coupling[nspRank]? with
  | some rank => if rank ∈ g.send ∨ rank ∈ g.recv then isTransferRank.set nspRank 1
                 else isTransferRank
  | none => isTransferRank

/-- Result of `MPI_Allreduce(..., n, MPI_MAX, comm)` on vectors of length `n`:
entry `k` is the maximum of the entries `k` of all contributions. -/
def allreduceMax (contribs : List (List Nat)) (n : Nat) : List Nat :=
  (List.range n).map (fun k => (contribs.map (fun v => v.getD k 0)).foldl max 0)

/-- The command `createTransferGroup` (lines 685-714) on the rank at position
`nspRank` of the coupling group: returns `_isTransferRank[idx]` and the list
`ranks` handed to `createGroup`. -/
def createTransferGroup (g : Groups) (nspRank : Nat) : Except Fault (List Nat × List Nat) :=
  let nspRanksSize := g.coupling.length
  if nspRank < nspRanksSize then
    let isTransferRank :=
      allreduceMax ((List.range nspRanksSize).map (localTransferFlags g)) nspRanksSize
    let ranks := (List.range nspRanksSize).filter (fun rk => isTransferRank.getD rk 0 == 1)
    if ranks.length > 0 then .ok (isTransferRank, ranks) else .error (.assertion 710)
  else .error (.assertion 689)

/-! ## addDataToTransfer -/

/-- What the data storage of a namespace holds under a socket name: a dense
array of reals (`checkData(name)`), a global DOF handle (`checkData(name_local)`
and `checkData(name_global)`) of `size` elements of `width` components each, or
nothing. -/
inductive Socket where
  | dense (arraySize : Nat)
  | globalHandle (size : Nat) (width : Nat)
  | absent
  deriving DecidableEq, Repr

/-- The fields of `DataToTrasfer` set by `addDataToTransfer` that the claims
are about; `dofsSize` is the number of DOFs of the handle named `dofsName`. -/
structure DataToTrasfer where
  arraySize : Nat
  dofsSize : Nat
  sendStride : Nat
  recvStride : Nat
  deriving DecidableEq, Repr

/-- The size `dofsSize` of lines 610-620 (and 572-582): the size of the states
handle for `"State"`, of the nodes handle for `"Node"`, zero otherwise. -/
def connDofsSize (connType : String) (nbStates nbNodes : Nat) : Nat :=
  let dofsSize := 0
  let dofsSize := if connType = "State" then nbStates else dofsSize
  if connType = "Node" then nbNodes else dofsSize

/-- Resolution of one socket (lines 606-641, and symmetrically 568-598):
returns `(arraySize, dofsSize, stride)`, or `none` when the storage holds
neither kind of socket.  `l` is the line of the assertion `arraySize > 0` of
the dense branch, `l2` that of the handle branch.  For a handle, `array[0]` is
read, which is outside an empty handle. -/
def resolveSocket (connType : String) (nbStates nbNodes : Nat) (l l2 : Nat) :
    Socket → Except Fault (Option (Nat × Nat × Nat))
  | .dense arraySize =>
    let dofsSize := connDofsSize connType nbStates nbNodes
    if arraySize = 0 then .error (.assertion l)
    else if dofsSize = 0 then .error .divisionByZero
    else .ok (some (arraySize, dofsSize, arraySize / dofsSize))
  | .globalHandle size width =>
    if size = 0 then .error .outOfBounds
    else if size * width = 0 then .error (.assertion l2)
    else .ok (some (size * width, size, width))
  | .absent => .ok none

/-- What `addDataToTransfer` finds on the calling rank. -/
structure RankSockets where
  /-- The test `isRankInGroup(rank, nspSend)` -/
  inSend : Bool
  /-- The test `isRankInGroup(rank, nspRecv)` -/
  inRecv : Bool
  sendSocket : Socket
  recvSocket : Socket
  /-- sizes of the states and nodes handles of the sending namespace -/
  sendStates : Nat
  sendNodes : Nat
  /-- sizes of the states and nodes handles of the receiving namespace -/
  recvStates : Nat
  recvNodes : Nat

/-- The command `addDataToTransfer` (lines 561-657) on one rank.  `others`
holds the vectors `sendRecvStridesIn` of the other ranks of the transfer group,
which enter through the `MPI_MAX` reduction of lines 648-651.  The receive part
runs after the send part and overwrites `array`, `arraySize` and `dofsName`. -/
def addDataToTransfer (connType : String) (me : RankSockets) (others : List (Nat × Nat)) :
    Except Fault DataToTrasfer :=
  match (if me.inSend then
      resolveSocket connType me.sendStates me.sendNodes 586 596 me.sendSocket
    else .ok none) with
  | .error e => .error e
  | .ok sendPart =>
    match (if me.inRecv then
        resolveSocket connType me.recvStates me.recvNodes 624 639 me.recvSocket
      else .ok none) with
    | .error e => .error e
    | .ok recvPart =>
      let strideIn0 := match sendPart with
        | some (_, _, stride) => stride
        | none => 0
      let strideIn1 := match recvPart with
        | some (_, _, stride) => stride
        | none => 0
      let sizes := match recvPart, sendPart with
        | some (a, d, _), _ => (a, d)
        | none, some (a, d, _) => (a, d)
        | none, none => (0, 0)
      let sendStride := (others.map Prod.fst).foldl max strideIn0
      let recvStride := (others.map Prod.snd).foldl max strideIn1
      if sendStride = 0 then .error (.assertion 655)
      else if recvStride = 0 then .error (.assertion 656)
      else .ok { arraySize := sizes.1, dofsSize := sizes.2,
                 sendStride := sendStride, recvStride := recvStride }

/-! ## getRootProcess -/

/-- Lines 498-506 of `getRootProcess` on the rank at position `grank` of the
group `nspCoupling` (`group` lists the world ranks of that group, `nsp` those
of the namespace): `sendroot` is the rank in the group when the rank belongs
to the namespace, and stays -1 otherwise. -/
def sendRoot (group nsp : List Nat) (grank : Nat) : Int :=
  match group[grank]? with
  | some rank => if rank ∈ nsp then (grank : Int) else -1
  | none => -1

/-- The function `getRootProcess` (lines 492-514) called on the rank at
position `grank` of the group: `MPI_Allreduce` with `MPI_MAX` combines the own
`sendroot` with the `sendroot` of every other rank of the group, then
`root >= 0` is asserted. -/
def getRootProcess (group nsp : List Nat) (grank : Nat) : Except Fault Int :=
  let sendroot := sendRoot group nsp grank
  let others := ((List.range group.length).filter (fun k => k != grank)).map
    (sendRoot group nsp)
  let root := others.foldl max sendroot
  if root ≥ 0 then .ok root else .error (.assertion 512)

/-! ## Notions used in the statements and proofs -/

/-- No plan before position `k` of the list is many-to-many for this rank. -/
def noneBefore (ps : List PlanInfo) (k : Nat) : Prop :=
  ∀ q ∈ ps.take k, ¬ q.manyToMany

instance (ps : List PlanInfo) (k : Nat) : Decidable (noneBefore ps k) := by
  unfold noneBefore; infer_instance

/-- The plan index an event belongs to. -/
def Event.plan : Event → Nat
  | .createTransferGroup i => i
  | .addDataToTransfer i => i
  | .gatherData i => i
  | .scatterData i => i
  | .barrier i => i

/-- The event is a call of a transfer engine or a barrier (not a setup call). -/
def Event.isTransfer : Event → Bool
  | .gatherData _ => true
  | .scatterData _ => true
  | .barrier _ => true
  | _ => false

/-- The calls that plan `p`, at index `i`, adds to the trace when it does not
throw. -/
def planCalls (p : PlanInfo) (i : Nat) : List Event :=
  if p.active = true ∧ p.nbRanksSend > 1 ∧ p.nbRanksRecv = 1 then
    [Event.gatherData i, Event.barrier i]
  else if p.active = true ∧ p.nbRanksSend = 1 ∧ p.nbRanksRecv > 1 then
    [Event.scatterData i, Event.barrier i]
  else [Event.barrier i]

/-- The rank at position `rk` of the coupling group belongs to the sending or
to the receiving namespace. -/
def Groups.isTransferPos (g : Groups) (rk : Nat) : Prop :=
  ∃ w, g.coupling[rk]? = some w ∧ (w ∈ g.send ∨ w ∈ g.recv)

/-- The single writes of one call of the transformer into the block that
starts at `startR`. -/
def blockWrites {α : Type} (startR recvStride : Nat) (tState : Nat → α) : List (Nat × α) :=
  (List.range recvStride).map (fun c => (startR + c, tState c))

/-- The writes that the receiver filter makes for the received ids at the
positions `lo <= k < hi` of the id buffer. -/
def recvWriteSpec {α : Type} (transform : List α → Nat → α) (g2l : List (Nat × Nat))
    (sendStride recvStride : Nat) (sendbuf : List α) (sendIDs : List Nat) (lo hi : Nat)
    (w : Nat × α) : Prop :=
  ∃ k g l c, lo ≤ k ∧ k < hi ∧ sendIDs[k]? = some g ∧ findLocalID g2l g = some l ∧
    c < recvStride ∧
    w = (l * recvStride + c, transform ((sendbuf.drop (k * sendStride)).take sendStride) c)

/-- Index `i` lies in the block of the receiving array that belongs to the
global id at position `pos` of the DOF handle of the root. -/
def ScatterPlan.blockAt {α : Type} (p : ScatterPlan α) (pos i : Nat) : Prop :=
  ∃ g l c, p.dofs[pos]? = some g ∧ findLocalID p.global2localIDs g = some l ∧
    c < p.recvStride ∧ i = l * p.recvStride + c

/-- The write `w` stores a component of the transformed values of the DOF at
position `pos` of the handle of the root into the block of its local id. -/
def ScatterPlan.writeAt {α : Type} (p : ScatterPlan α) (pos : Nat) (w : Nat × α) : Prop :=
  ∃ g l c, p.dofs[pos]? = some g ∧ findLocalID p.global2localIDs g = some l ∧
    c < p.recvStride ∧
    w = (l * p.recvStride + c,
      p.transform ((p.dataToSend.drop (pos * p.sendStride)).take p.sendStride) c)

/-- The rank at position `k` of the group belongs to the namespace. -/
def inNamespace (group nsp : List Nat) (k : Nat) : Prop :=
  ∃ w, group[k]? = some w ∧ w ∈ nsp

/-- The conditions on the counts of round `r` of a scatter: a positive number
of ids, at least as many values as ids, and neither count above the count of
the last rank, which sizes the scratch buffers. -/
def ScatterPlan.roundOK {α : Type} (p : ScatterPlan α) (r : Nat) : Prop :=
  0 < p.sendIDcounts.getD r 0 ∧
  p.sendIDcounts.getD r 0 ≤ p.sendcounts.getD r 0 ∧
  p.sendcounts.getD r 0 ≤ p.sendcounts.getD (p.sendcounts.length - 1) 0 ∧
  p.sendIDcounts.getD r 0 ≤ p.sendIDcounts.getD (p.sendcounts.length - 1) 0

instance {α : Type} (p : ScatterPlan α) (r : Nat) : Decidable (p.roundOK r) := by
  unfold ScatterPlan.roundOK; infer_instance

/-- The state of the root at the start of round `a` of the scatter loop: the
cursors are the sums of the counts of the rounds before `a`, and the scratch
buffers have the sizes given by the counts of the last rank. -/
def RootInv {α : Type} (p : ScatterPlan α) (a : Nat) (st : ScatterState α) : Prop :=
  st.counter = (p.sendcounts.take a).sum ∧
  st.countID = (p.sendIDcounts.take a).sum ∧
  st.sendbuf.length = p.sendcounts.getD (p.sendcounts.length - 1) 0 ∧
  st.sendIDs.length = p.sendIDcounts.getD (p.sendcounts.length - 1) 0

/-! # Theorems -/

section Writes

variable {α : Type}

theorem applyWrites_length {ws : List (Nat × α)} {a r : List α}
    (h : applyWrites ws a = some r) : r.length = a.length := by
  induction ws generalizing a with
  | nil => simp [applyWrites] at h; simp [← h]
  | cons w ws ih =>
    simp only [applyWrites] at h
    split at h
    · simpa using ih h
    · simp at h

theorem applyWrites_bound {ws : List (Nat × α)} {a r : List α}
    (h : applyWrites ws a = some r) : ∀ w ∈ ws, w.1 < a.length := by
  induction ws generalizing a with
  | nil => simp
  | cons w ws ih =>
    simp only [applyWrites] at h
    split at h
    · intro x hx
      rcases List.mem_cons.1 hx with rfl | hx
      · assumption
      · simpa using ih h x hx
    · simp at h

theorem applyWrites_total {ws : List (Nat × α)} {a : List α}
    (h : ∀ w ∈ ws, w.1 < a.length) : ∃ r, applyWrites ws a = some r := by
  induction ws generalizing a with
  | nil => exact ⟨a, rfl⟩
  | cons w ws ih =>
    have hw : w.1 < a.length := h w (List.mem_cons_self _ _)
    simp only [applyWrites, hw, if_true]
    apply ih
    intro x hx
    simpa using h x (List.mem_cons_of_mem _ hx)

theorem applyWrites_append {ws1 ws2 : List (Nat × α)} {a : List α} :
    applyWrites (ws1 ++ ws2) a = (applyWrites ws1 a).bind (applyWrites ws2) := by
  induction ws1 generalizing a with
  | nil => simp [applyWrites]
  | cons w ws ih =>
    simp only [List.cons_append, applyWrites]
    split
    · exact ih
    · simp

theorem lastWrite_append {ws1 ws2 : List (Nat × α)} {j : Nat} :
    lastWrite (ws1 ++ ws2) j =
      match lastWrite ws2 j with
      | some v => some v
      | none => lastWrite ws1 j := by
  induction ws1 with
  | nil => simp [lastWrite]; cases lastWrite ws2 j <;> rfl
  | cons w ws ih =>
    rw [List.cons_append, lastWrite, ih, lastWrite]
    cases lastWrite ws2 j <;> rfl

theorem lastWrite_eq_none {ws : List (Nat × α)} {j : Nat} :
    lastWrite ws j = none ↔ ∀ w ∈ ws, w.1 ≠ j := by
  induction ws with
  | nil => simp [lastWrite]
  | cons w ws ih =>
    rw [lastWrite]
    cases h : lastWrite ws j with
    | some v =>
      constructor
      · intro h0
        cases h0
      · intro hall
        exact absurd (ih.2 (fun x hx => hall x (List.mem_cons_of_mem _ hx))) (by simp [h])
    | none =>
      have h1 := ih.1 h
      constructor
      · intro h0 x hx
        rcases List.mem_cons.1 hx with rfl | hx
        · intro hj
          simp [hj] at h0
        · exact h1 x hx
      · intro hall
        have := hall w (List.mem_cons_self _ _)
        simp [this]

/-- After a sequence of writes, an entry holds the value of the last write to
it, or its initial value when it was never written. -/
theorem applyWrites_getElem? {ws : List (Nat × α)} {a r : List α}
    (h : applyWrites ws a = some r) (j : Nat) :
    r[j]? = match lastWrite ws j with
      | some v => some v
      | none => a[j]? := by
  induction ws generalizing a with
  | nil => simp [applyWrites] at h; simp [lastWrite, h]
  | cons w ws ih =>
    simp only [applyWrites] at h
    split at h
    · rename_i hw
      rw [ih h]
      simp only [lastWrite]
      cases lastWrite ws j with
      | some v => rfl
      | none =>
        by_cases hj : w.1 = j
        · subst hj; simp [hw]
        · simp [hj, List.getElem?_set]
    · simp at h

/-- Replaying a sequence of writes on its own result changes nothing. -/
theorem applyWrites_idem {ws : List (Nat × α)} {a r : List α}
    (h : applyWrites ws a = some r) : applyWrites ws r = some r := by
  have hb := applyWrites_bound h
  have hlen := applyWrites_length h
  obtain ⟨r2, h2⟩ := @applyWrites_total _ ws r (by simpa [hlen] using hb)
  rw [h2]
  congr 1
  apply List.ext_getElem?
  intro j
  rw [applyWrites_getElem? h2 j, applyWrites_getElem? h j]
  cases lastWrite ws j <;> rfl

end Writes

section Gather

variable {α : Type}

theorem lastWrite_of_mem_nodup {ws : List (Nat × α)} (hnd : (ws.map Prod.fst).Nodup)
    {i : Nat} {v : α} (hmem : (i, v) ∈ ws) : lastWrite ws i = some v := by
  induction ws with
  | nil => simp at hmem
  | cons w ws ih =>
    rw [List.map_cons, List.nodup_cons] at hnd
    rw [lastWrite]
    rcases List.mem_cons.1 hmem with h | h
    · have hnone : lastWrite ws i = none := by
        rw [lastWrite_eq_none]
        intro x hx hxi
        apply hnd.1
        rw [← h]
        simp only
        rw [← hxi]
        exact List.mem_map_of_mem _ hx
      rw [hnone, ← h]
      simp
    · rw [ih hnd.2 h]

/-- The reorder loop of the root succeeds exactly when the gathered buffers are
long enough and every id is inside the array; it then performs the writes
`(recvIDs[k], recvbuf[k])` for `is <= k < is + n`, in this order. -/
theorem gatherRootLoop_ok_iff (ids : List Nat) (buf : List α) (n is : Nat) (arr r : List α) :
    gatherRootLoop ids buf n is arr = .ok r ↔
      n ≤ ids.length - is ∧ n ≤ buf.length - is ∧
        applyWrites (((ids.zip buf).drop is).take n) arr = some r := by
  induction n generalizing is arr with
  | zero => simp [gatherRootLoop, applyWrites]
  | succ n ih =>
    rw [gatherRootLoop]
    cases hg : ids[is]? with
    | none =>
      have : ids.length ≤ is := List.getElem?_eq_none_iff.1 hg
      simp only [reduceCtorEq, false_iff, not_and]
      intro h
      omega
    | some g =>
      have hi : is < ids.length := (List.getElem?_eq_some_iff.1 hg).1
      cases hv : buf[is]? with
      | none =>
        have : buf.length ≤ is := List.getElem?_eq_none_iff.1 hv
        simp only [reduceCtorEq, false_iff, not_and]
        intro _ h
        omega
      | some v =>
        have hb : is < buf.length := (List.getElem?_eq_some_iff.1 hv).1
        have hz : is < (ids.zip buf).length := by simp; omega
        have hzz : (ids.zip buf)[is] = (g, v) := by
          have h1 := (List.getElem?_eq_some_iff.1 hg).2
          have h2 := (List.getElem?_eq_some_iff.1 hv).2
          simp [List.getElem_zip, h1, h2]
        have hd : ((ids.zip buf).drop is).take (n + 1) =
            (g, v) :: ((ids.zip buf).drop (is + 1)).take n := by
          rw [List.drop_eq_getElem_cons hz, List.take_succ_cons, hzz]
        rw [hd, applyWrites]
        by_cases hlt : g < arr.length
        · simp only [hlt, if_true]
          rw [ih]
          constructor
          · rintro ⟨h1, h2, h3⟩
            exact ⟨by omega, by omega, h3⟩
          · rintro ⟨h1, h2, h3⟩
            exact ⟨by omega, by omega, h3⟩
        · simp [hlt]

/-- Outcome of the reorder loop of the root on buffers that are long enough and
hold only ids inside the array: the loop ends normally, keeps the size of the
array, and every entry holds the value gathered with the last id equal to its
index, or its former value when no gathered id equals its index. -/
theorem gatherRootLoop_spec (ids : List Nat) (buf : List α) (n : Nat) (arr : List α)
    (h1 : n ≤ ids.length) (h2 : n ≤ buf.length) (hb : ∀ g ∈ ids.take n, g < arr.length) :
    ∃ res, gatherRootLoop ids buf n 0 arr = .ok res ∧ res.length = arr.length ∧
      ∀ j, res[j]? = match lastWrite ((ids.zip buf).take n) j with
        | some v => some v
        | none => arr[j]? := by
  have hw : ∀ w ∈ (ids.zip buf).take n, w.1 < arr.length := by
    intro w hw
    apply hb
    have hz : w ∈ (ids.take n).zip (buf.take n) := by
      have := hw
      rw [List.zip, List.take_zipWith] at this
      exact this
    exact (List.of_mem_zip (a := w.1) (b := w.2) hz).1
  obtain ⟨res, hres⟩ := applyWrites_total hw
  refine ⟨res, ?_, applyWrites_length hres, applyWrites_getElem? hres⟩
  rw [gatherRootLoop_ok_iff]
  exact ⟨by omega, by omega, by simpa using hres⟩

end Gather

section GatherClaims

variable {α : Type}

theorem lastWrite_of_forall {ws : List (Nat × α)} {i : Nat} {v : α}
    (hex : ∃ w ∈ ws, w.1 = i) (hall : ∀ w ∈ ws, w.1 = i → w.2 = v) :
    lastWrite ws i = some v := by
  induction ws with
  | nil => simp at hex
  | cons w ws ih =>
    rw [lastWrite]
    by_cases hin : ∃ x ∈ ws, x.1 = i
    · rw [ih hin (fun x hx => hall x (List.mem_cons_of_mem _ hx))]
    · have hnone : lastWrite ws i = none := by
        rw [lastWrite_eq_none]
        intro x hx hxi
        exact hin ⟨x, hx, hxi⟩
      rw [hnone]
      obtain ⟨x, hx, hxi⟩ := hex
      rcases List.mem_cons.1 hx with rfl | hx
      · simp [hxi, hall x (List.mem_cons_self _ _) hxi]
      · exact absurd ⟨x, hx, hxi⟩ hin

theorem zip_flatMap_same {γ β δ : Type} (l : List γ) (f : γ → List β) (g : γ → List δ)
    (h : ∀ x ∈ l, (f x).length = (g x).length) :
    (l.flatMap f).zip (l.flatMap g) = l.flatMap (fun x => (f x).zip (g x)) := by
  induction l with
  | nil => simp
  | cons x xs ih =>
    simp only [List.flatMap_cons]
    rw [List.zip_append (h x (List.mem_cons_self _ _)),
      ih (fun y hy => h y (List.mem_cons_of_mem _ hy))]

theorem length_flatMap_const {γ β : Type} (l : List γ) (f : γ → List β) (s : Nat)
    (h : ∀ x ∈ l, (f x).length = s) : (l.flatMap f).length = l.length * s := by
  induction l with
  | nil => simp
  | cons x xs ih =>
    simp only [List.flatMap_cons, List.length_append, List.length_cons]
    rw [h x (List.mem_cons_self _ _), ih (fun y hy => h y (List.mem_cons_of_mem _ hy))]
    ring

theorem stride_index_inj {s g c g2 c2 : Nat} (hc : c < s) (hc2 : c2 < s)
    (h : g * s + c = g2 * s + c2) : g = g2 ∧ c = c2 := by
  have hs : 0 < s := by omega
  have h1 : (g * s + c) / s = g := by
    rw [Nat.add_comm, Nat.add_mul_div_right _ _ hs, Nat.div_eq_of_lt hc]; simp
  have h2 : (g2 * s + c2) / s = g2 := by
    rw [Nat.add_comm, Nat.add_mul_div_right _ _ hs, Nat.div_eq_of_lt hc2]; simp
  have hg : g = g2 := by rw [← h1, ← h2, h]
  subst hg
  exact ⟨rfl, by omega⟩

theorem toInt_of_le (n : Nat) (h : (n : Int) ≤ INT_MAX) : toInt n = n := by
  unfold INT_MAX at h
  unfold toInt
  omega

theorem two_pow_ge (w : Nat) (hw : 32 ≤ w) : 4294967296 ≤ 2 ^ w := by
  have := Nat.pow_le_pow_right (show 0 < 2 by decide) hw
  simpa using this

theorem toCFuint_of_range (w : Nat) (hw : 32 ≤ w) (i : Int) (h0 : 0 ≤ i) (h1 : i ≤ INT_MAX) :
    toCFuint w i = i.toNat := by
  unfold INT_MAX at h1
  unfold toCFuint
  have h2 := two_pow_ge w hw
  have h3 : i < (2 ^ w : Int) := by
    have : ((2 ^ w : Nat) : Int) = (2 ^ w : Int) := by push_cast; rfl
    rw [← this]
    omega
  rw [Int.emod_eq_of_lt h0 h3]

theorem gatherDisplsLoop_step (w : Nat) (hw : 32 ≤ w) (c : Int) (cs : List Int) (r : Nat)
    (displs : List Int) (tot : Nat) (h0 : 0 ≤ c) (h1 : (tot : Int) + c ≤ INT_MAX) :
    gatherDisplsLoop w (c :: cs) r displs tot =
      gatherDisplsLoop w cs (r + 1) (if c > 0 then displs.set r (tot : Int) else displs)
        (tot + c.toNat) := by
  have hc : c ≤ INT_MAX := by omega
  have ht : (tot : Int) ≤ INT_MAX := by omega
  rw [gatherDisplsLoop, toInt_of_le tot ht, toCFuint_of_range w hw c h0 hc]
  have h2 := two_pow_ge w hw
  unfold INT_MAX at h1
  rw [Nat.mod_eq_of_lt (by omega)]

theorem gatherDisplsLoop_spec (w : Nat) (hw : 32 ≤ w) (cs : List Int) (r : Nat)
    (displs : List Int) (tot : Nat) (hlen : r + cs.length ≤ displs.length)
    (hpos : ∀ c ∈ cs, 0 ≤ c) (hb : (tot : Int) + cs.sum ≤ INT_MAX) :
    ((gatherDisplsLoop w cs r displs tot).2 : Int) = tot + cs.sum ∧
    (gatherDisplsLoop w cs r displs tot).1.length = displs.length ∧
    ∀ k, (gatherDisplsLoop w cs r displs tot).1[k]? =
      if r ≤ k ∧ k < r + cs.length ∧ 0 < cs.getD (k - r) 0
      then some ((tot : Int) + (cs.take (k - r)).sum) else displs[k]? := by
  induction cs generalizing r displs tot with
  | nil => simp [gatherDisplsLoop]
  | cons c cs ih =>
    simp only [List.length_cons] at hlen
    have hc0 : 0 ≤ c := hpos c (by simp)
    have hcs : ∀ x ∈ cs, 0 ≤ x := fun x hx => hpos x (by simp [hx])
    have hs0 : 0 ≤ cs.sum := List.sum_nonneg hcs
    simp only [List.sum_cons] at hb
    rw [gatherDisplsLoop_step w hw c cs r displs tot hc0 (by omega)]
    have hl : (if c > 0 then displs.set r (tot : Int) else displs).length = displs.length := by
      split <;> simp
    have hcast : ((tot + c.toNat : Nat) : Int) = (tot : Int) + c := by
      push_cast
      rw [Int.toNat_of_nonneg hc0]
    obtain ⟨h1, h2, h3⟩ := ih (r + 1) (if c > 0 then displs.set r (tot : Int) else displs)
      (tot + c.toNat) (by rw [hl]; omega) hcs (by rw [hcast]; omega)
    refine ⟨by rw [h1, hcast]; simp; ring, by rw [h2, hl], ?_⟩
    intro k
    rw [h3, hcast]
    rcases Nat.lt_trichotomy k r with hk | hk | hk
    · have e1 : ¬ (r + 1 ≤ k ∧ k < r + 1 + cs.length ∧ 0 < cs.getD (k - (r + 1)) 0) := by omega
      have e2 : ¬ (r ≤ k ∧ k < r + (cs.length + 1) ∧ 0 < (c :: cs).getD (k - r) 0) := by omega
      rw [if_neg e1, List.length_cons, if_neg e2]
      split
      · rw [List.getElem?_set]
        have : ¬ r = k := by omega
        simp [this]
      · rfl
    · subst hk
      have e1 : ¬ (k + 1 ≤ k ∧ k < k + 1 + cs.length ∧ 0 < cs.getD (k - (k + 1)) 0) := by omega
      rw [if_neg e1]
      by_cases hc : c > 0
      · simp [hc, List.getElem?_set]
        omega
      · simp [hc]
    · obtain ⟨m, rfl⟩ : ∃ m, k = r + 1 + m := ⟨k - (r + 1), by omega⟩
      have e3 : r + 1 + m - (r + 1) = m := by omega
      have e4 : r + 1 + m - r = m + 1 := by omega
      have e5 : (if c > 0 then displs.set r (tot : Int) else displs)[r + 1 + m]? =
          displs[r + 1 + m]? := by
        split
        · rw [List.getElem?_set]
          have : ¬ r = r + 1 + m := by omega
          simp [this]
        · rfl
      rw [e3, e4, e5]
      simp only [List.length_cons, List.getD_cons_succ, List.take_succ_cons, List.sum_cons]
      have e6 : (r + 1 ≤ r + 1 + m ∧ r + 1 + m < r + 1 + cs.length ∧ 0 < cs.getD m 0) ↔
          (r ≤ r + 1 + m ∧ r + 1 + m < r + (cs.length + 1) ∧ 0 < cs.getD m 0) := by
        constructor <;> rintro ⟨_, _, h⟩ <;> exact ⟨by omega, by omega, h⟩
      rw [if_congr e6 rfl rfl, Int.add_assoc (tot : Int) c]

theorem accumulate_spec (l : List Int) (acc : Int) (hpos : ∀ c ∈ l, 0 ≤ c) (h0 : 0 ≤ acc)
    (hb : acc + l.sum ≤ INT_MAX) : accumulate l acc = .ok (acc + l.sum) := by
  induction l generalizing acc with
  | nil => simp [accumulate]
  | cons c cs ih =>
    have hc0 : 0 ≤ c := hpos c (by simp)
    have hcs : ∀ x ∈ cs, 0 ≤ x := fun x hx => hpos x (by simp [hx])
    have hs0 : 0 ≤ cs.sum := List.sum_nonneg hcs
    simp only [List.sum_cons] at hb ⊢
    rw [accumulate, if_pos ⟨by omega, by omega⟩, ih (acc + c) hcs (by omega) (by omega)]
    rw [Int.add_assoc]

/-- The displacements computed by `gatherData` for non-negative counts whose
sum is in the range of `int`. -/
theorem gatherDispls_range (w : Nat) (hw : 32 ≤ w) (recvcounts : List Int)
    (hne : recvcounts ≠ []) (hpos : ∀ c ∈ recvcounts, 0 ≤ c)
    (hsum : recvcounts.sum ≤ INT_MAX) :
    ∃ displs tot, gatherDispls w recvcounts = .ok (displs, tot) ∧
      (tot : Int) = recvcounts.sum ∧
      displs.length = recvcounts.length ∧
      ∀ r, r < recvcounts.length →
        displs[r]? = some (if 0 < recvcounts.getD r 0 then (recvcounts.take r).sum else 0) := by
  cases recvcounts with
  | nil => exact absurd rfl hne
  | cons c0 cs =>
    have hc0 : 0 ≤ c0 := hpos c0 (by simp)
    have hcs : ∀ x ∈ cs, 0 ≤ x := fun x hx => hpos x (by simp [hx])
    have hs0 : 0 ≤ cs.sum := List.sum_nonneg hcs
    simp only [List.sum_cons] at hsum
    have hconv : toCFuint w c0 = c0.toNat := toCFuint_of_range w hw c0 hc0 (by omega)
    have hcast : ((c0.toNat : Nat) : Int) = c0 := Int.toNat_of_nonneg hc0
    obtain ⟨h1, h2, h3⟩ := gatherDisplsLoop_spec w hw cs 1
      ((List.replicate (c0 :: cs).length 0).set 0 0) c0.toNat (by simp; omega) hcs
      (by rw [hcast]; exact hsum)
    refine ⟨(gatherDisplsLoop w cs 1 ((List.replicate (c0 :: cs).length 0).set 0 0) c0.toNat).1,
      (gatherDisplsLoop w cs 1 ((List.replicate (c0 :: cs).length 0).set 0 0) c0.toNat).2,
      ?_, ?_, ?_, ?_⟩
    · simp only [gatherDispls, hconv]
    · rw [h1, hcast, List.sum_cons]
    · rw [h2]; simp
    · intro r hr
      rw [h3, hcast]
      have hd : ((List.replicate (c0 :: cs).length (0 : Int)).set 0 0)[r]? = some 0 := by
        rw [List.getElem?_eq_some_iff]
        refine ⟨by simpa using hr, ?_⟩
        rw [List.getElem_set]
        split <;> simp
      rw [hd]
      cases r with
      | zero => simp
      | succ m =>
        simp only [List.length_cons] at hr
        simp only [Nat.add_sub_cancel, List.getD_cons_succ, List.take_succ_cons, List.sum_cons]
        by_cases hc : 0 < cs.getD m 0
        · have : 1 ≤ m + 1 ∧ m + 1 < 1 + cs.length ∧ 0 < cs.getD m 0 := ⟨by omega, by omega, hc⟩
          rw [if_pos this, if_pos hc]
        · have : ¬ (1 ≤ m + 1 ∧ m + 1 < 1 + cs.length ∧ 0 < cs.getD m 0) := fun h => hc h.2.2
          rw [if_neg this, if_neg hc]

end GatherClaims

section GatherResults

variable {α : Type}

theorem mem_gather_writes {s : Nat} {gs : List Nat} {senderValue : Nat → Nat → α}
    {w : Nat × α} :
    w ∈ (scalarIDs s gs).zip (gatherValues s gs senderValue) ↔
      ∃ g ∈ gs, ∃ c, c < s ∧ w = (g * s + c, senderValue g c) := by
  unfold scalarIDs gatherValues
  rw [zip_flatMap_same _ _ _ (by intro x _; simp)]
  simp only [List.mem_flatMap, List.zip_map', List.mem_map, List.mem_range]
  constructor
  · rintro ⟨g, hg, c, hc, rfl⟩
    exact ⟨g, hg, c, hc, rfl⟩
  · rintro ⟨g, hg, c, hc, rfl⟩
    exact ⟨g, hg, c, hc, rfl⟩

/-- C1, counterexample.  The scenario "gather 2→1, stride 3" (ids 0, 1 on the
first sender, id 2 on the second, counts 6 and 3, displacements 0 and 6).
When every scalar carries the global id of its DOF, the reorder loop stores
each scalar at index `g` (no multiplication by the stride) and the array ends
as `(12, 22, 32, 0, 0, 0, 0, 0, 0)`.  When each sender provides one id per
stride-sized block, its ids land at the displacements 0 and 6 of the gathered
id buffer and the six other entries are not ids of any sender: whatever they
hold, the array does not end as `(10, 11, 12, 20, 21, 22, 30, 31, 32)`, since
index 2 is written with 30 after 12 has been stored. -/
theorem gather_stride3_block_ids_counterexample :
    gatherRoot (List.replicate 9 (0 : Int)) (repeatedIDs 3 [0, 1, 2])
        [10, 11, 12, 20, 21, 22, 30, 31, 32] 9 = .ok [12, 22, 32, 0, 0, 0, 0, 0, 0] ∧
    ¬ ∃ x1 x2 x3 x4 y1 y2 : Nat,
      gatherRoot (List.replicate 9 (0 : Int)) [0, 1, x1, x2, x3, x4, 2, y1, y2]
        [10, 11, 12, 20, 21, 22, 30, 31, 32] 9 = .ok [10, 11, 12, 20, 21, 22, 30, 31, 32] := by
  refine ⟨by decide, ?_⟩
  rintro ⟨x1, x2, x3, x4, y1, y2, h⟩
  unfold gatherRoot at h
  rw [if_pos (by decide)] at h
  obtain ⟨_, _, hw⟩ := (gatherRootLoop_ok_iff _ _ _ _ _ _).1 h
  have h2 := applyWrites_getElem? hw 2
  simp only [List.zip_cons_cons, List.zip_nil_right, List.drop_zero, List.take_succ_cons,
    List.take_zero, lastWrite] at h2
  by_cases hy2 : y2 = 2
  · simp [hy2] at h2
  · by_cases hy1 : y1 = 2
    · simp [hy2, hy1] at h2
    · simp [hy2, hy1] at h2

/-- C1, amended.  The reorder loop of the root uses each gathered id as the
array index of the scalar gathered at the same position.  When the id buffer
holds, for component `c` of the DOF with global id `g`, the index `g*s + c`
(one id per data scalar) and these indices lie inside the array, the loop ends
normally, `array[g*s + c] = senderValue(g, c)` for every contributed `g` and
every `c < s`, and every position that is not of this form is unchanged. -/
theorem gather_root_scalar_ids (s : Nat) (gs : List Nat) (senderValue : Nat → Nat → α)
    (arr : List α) (hin : ∀ g ∈ gs, g * s + s ≤ arr.length) :
    ∃ res, gatherRootLoop (scalarIDs s gs) (gatherValues s gs senderValue)
        (gs.length * s) 0 arr = .ok res ∧
      res.length = arr.length ∧
      (∀ g ∈ gs, ∀ c, c < s → res[g * s + c]? = some (senderValue g c)) ∧
      (∀ j, (∀ g ∈ gs, ∀ c, c < s → j ≠ g * s + c) → res[j]? = arr[j]?) := by
  have hl1 : (scalarIDs s gs).length = gs.length * s :=
    length_flatMap_const _ _ _ (by intro x _; simp)
  have hl2 : (gatherValues s gs senderValue).length = gs.length * s :=
    length_flatMap_const _ _ _ (by intro x _; simp)
  have hb : ∀ g ∈ (scalarIDs s gs).take (gs.length * s), g < arr.length := by
    intro i hi
    have hi2 := List.mem_of_mem_take hi
    simp only [scalarIDs, List.mem_flatMap, List.mem_map, List.mem_range] at hi2
    obtain ⟨g, hg, c, hc, rfl⟩ := hi2
    have := hin g hg
    omega
  obtain ⟨res, hres, hlen, hget⟩ := gatherRootLoop_spec (scalarIDs s gs)
    (gatherValues s gs senderValue) (gs.length * s) arr (by omega) (by omega) hb
  have htake : ((scalarIDs s gs).zip (gatherValues s gs senderValue)).take (gs.length * s) =
      (scalarIDs s gs).zip (gatherValues s gs senderValue) := by
    apply List.take_of_length_le
    simp [hl1, hl2]
  rw [htake] at hget
  refine ⟨res, hres, hlen, ?_, ?_⟩
  · intro g hg c hc
    rw [hget]
    have hlast : lastWrite ((scalarIDs s gs).zip (gatherValues s gs senderValue)) (g * s + c) =
        some (senderValue g c) := by
      apply lastWrite_of_forall
      · exact ⟨(g * s + c, senderValue g c), mem_gather_writes.2 ⟨g, hg, c, hc, rfl⟩, rfl⟩
      · intro w hw hwi
        obtain ⟨g2, _, c2, hc2, rfl⟩ := mem_gather_writes.1 hw
        obtain ⟨rfl, rfl⟩ := stride_index_inj hc2 hc hwi
        rfl
    rw [hlast]
  · intro j hj
    rw [hget]
    have hnone : lastWrite ((scalarIDs s gs).zip (gatherValues s gs senderValue)) j = none := by
      rw [lastWrite_eq_none]
      intro w hw hwi
      obtain ⟨g2, hg2, c2, hc2, rfl⟩ := mem_gather_writes.1 hw
      exact hj g2 hg2 c2 hc2 hwi.symm
    rw [hnone]

/-- Witness of C1, amended: the scenario "gather 2→1, stride 3" with one index
per data scalar. -/
theorem gather_root_scalar_ids_witness :
    ∃ res, gatherRootLoop (scalarIDs 3 [0, 1, 2])
        (gatherValues 3 [0, 1, 2] (fun g c => ((g + 1) * 10 + c : Nat)))
        ([0, 1, 2].length * 3) 0 (List.replicate 9 0) = .ok res ∧
      res.length = (List.replicate 9 0).length ∧
      (∀ g ∈ [0, 1, 2], ∀ c, c < 3 → res[g * 3 + c]? = some ((g + 1) * 10 + c)) ∧
      (∀ j, (∀ g ∈ [0, 1, 2], ∀ c, c < 3 → j ≠ g * 3 + c) →
        res[j]? = (List.replicate 9 0)[j]?) :=
  gather_root_scalar_ids 3 [0, 1, 2] (fun g c => (g + 1) * 10 + c) (List.replicate 9 0)
    (by decide)

/-- C5, counterexample.  With `recvcounts = (6, 3, 0)` (two senders and the
receiver root, whose own count is zero) the code leaves `displs[2] = 0`,
whereas the exclusive sum of the counts before rank 2 is 9, for a `CFuint` of
32 and of 64 bits.  With `recvcounts = (1500000000, 1500000000, 7)` the sum of
the counts before rank 2 is 3000000000, outside the range of `int`, and
`displs[2]` is stored as -1294967296. -/
theorem gatherDispls_zero_count_counterexample :
    gatherDispls 32 [6, 3, 0] = .ok ([0, 6, 0], 9) ∧
    gatherDispls 64 [6, 3, 0] = .ok ([0, 6, 0], 9) ∧
    ([0, 6, 0] : List Int)[2]? ≠ some ((([6, 3, 0] : List Int).take 2).sum) ∧
    gatherDispls 32 [1500000000, 1500000000, 7] =
      .ok ([0, 1500000000, -1294967296], 3000000007) ∧
    gatherDispls 64 [1500000000, 1500000000, 7] =
      .ok ([0, 1500000000, -1294967296], 3000000007) ∧
    ([0, 1500000000, -1294967296] : List Int)[2]? ≠
      some ((([1500000000, 1500000000, 7] : List Int).take 2).sum) := by
  decide

/-- C5, amended.  For every non-empty vector of non-negative counts whose sum
is at most `INT_MAX`, and a `CFuint` of at least 32 bits, the displacement
loop ends with `totRecvcount` equal to the sum of the counts and, for every
rank `r`, `displs[r]` equal to the sum of the counts of the ranks before `r`
when `recvcounts[r] > 0`, and equal to 0 when `recvcounts[r] = 0`. -/
theorem gatherDispls_guarded (w : Nat) (hw : 32 ≤ w) (recvcounts : List Int)
    (hne : recvcounts ≠ []) (hpos : ∀ c ∈ recvcounts, 0 ≤ c)
    (hsum : recvcounts.sum ≤ INT_MAX) :
    ∃ displs tot, gatherDispls w recvcounts = .ok (displs, tot) ∧
      (tot : Int) = recvcounts.sum ∧
      displs.length = recvcounts.length ∧
      ∀ r, r < recvcounts.length →
        displs[r]? = some (if 0 < recvcounts.getD r 0 then (recvcounts.take r).sum else 0) :=
  gatherDispls_range w hw recvcounts hne hpos hsum

/-- Witness of C5, amended: two senders followed by a rank with count zero,
with a `CFuint` of 32 bits. -/
theorem gatherDispls_guarded_witness :
    ∃ displs tot, gatherDispls 32 [6, 3, 0] = .ok (displs, tot) ∧
      (tot : Int) = ([6, 3, 0] : List Int).sum ∧
      displs.length = ([6, 3, 0] : List Int).length ∧
      ∀ r, r < ([6, 3, 0] : List Int).length →
        displs[r]? = some (if 0 < ([6, 3, 0] : List Int).getD r 0
          then (([6, 3, 0] : List Int).take r).sum else 0) :=
  gatherDispls_guarded 32 (by decide) [6, 3, 0] (by decide) (by decide) (by decide)

end GatherResults

section GatherStrideOne

theorem gatherRoot_distinct {α : Type} (n : Nat) (arr : List α) (recvIDs : List Nat)
    (recvbuf : List α) (harr : arr.length = n) (hids : recvIDs.length = n)
    (hbuf : recvbuf.length = n) (hdist : recvIDs.Nodup) (hlt : ∀ g ∈ recvIDs, g < n) :
    ∃ res, gatherRoot arr recvIDs recvbuf n = .ok res ∧ res.length = n ∧
      ∀ (k g : Nat) (v : α), recvIDs[k]? = some g → recvbuf[k]? = some v →
        res[g]? = some v := by
  obtain ⟨res, hres, hlen, hget⟩ := gatherRootLoop_spec recvIDs recvbuf n arr (by omega)
    (by omega) (fun g hg => by rw [harr]; exact hlt g (List.mem_of_mem_take hg))
  refine ⟨res, ?_, by omega, ?_⟩
  · simp only [gatherRoot, harr, if_true]
    exact hres
  · intro k g v hg hv
    have htake : (recvIDs.zip recvbuf).take n = recvIDs.zip recvbuf := by
      apply List.take_of_length_le
      simp [hids, hbuf]
    rw [hget, htake]
    have hmem : (g, v) ∈ recvIDs.zip recvbuf :=
      List.getElem?_mem (List.getElem?_zip_eq_some.2 ⟨hg, hv⟩)
    have hnd : ((recvIDs.zip recvbuf).map Prod.fst).Nodup := by
      rw [List.map_fst_zip _ _ (by omega)]
      exact hdist
    rw [lastWrite_of_mem_nodup hnd hmem]

/-- C8.  Gather with stride 1: when `totRecvcount = arraySize = n` and the
gathered ids are pairwise distinct indices below `n`, the root branch ends
normally and `array[recvIDs[k]] = recvbuf[k]` for every `k < n`, whatever the
order of the gathered ids; and when every gathered value equals its global id
(four senders owning `4k .. 4k+3`, array of 16, any arrival order) the array
ends as `0, 1, ..., 15`. -/
theorem gather_stride_one :
    (∀ (α : Type) (n : Nat) (arr : List α) (recvIDs : List Nat) (recvbuf : List α),
      arr.length = n → recvIDs.length = n → recvbuf.length = n → recvIDs.Nodup →
      (∀ g ∈ recvIDs, g < n) →
      ∃ res, gatherRoot arr recvIDs recvbuf n = .ok res ∧
        ∀ (k g : Nat) (v : α), recvIDs[k]? = some g → recvbuf[k]? = some v →
          res[g]? = some v) ∧
    (∀ (arr ids : List Nat), arr.length = 16 → ids.length = 16 → ids.Nodup →
      (∀ g ∈ ids, g < 16) → gatherRoot arr ids ids 16 = .ok (List.range 16)) := by
  constructor
  · intro α n arr recvIDs recvbuf harr hids hbuf hdist hlt
    obtain ⟨res, h1, _, h3⟩ := gatherRoot_distinct n arr recvIDs recvbuf harr hids hbuf hdist hlt
    exact ⟨res, h1, h3⟩
  · intro arr ids harr hids hdist hlt
    obtain ⟨res, h1, h2, h3⟩ := gatherRoot_distinct 16 arr ids ids harr hids hids hdist hlt
    rw [h1]
    congr 1
    have hsub : ids ⊆ List.range 16 := fun g hg => List.mem_range.2 (hlt g hg)
    have hperm : ids.Perm (List.range 16) :=
      (List.subperm_of_subset hdist hsub).perm_of_length_le (by simp [hids])
    apply List.ext_getElem?
    intro j
    by_cases hj : j < 16
    · have hmem : j ∈ ids := hperm.mem_iff.2 (List.mem_range.2 hj)
      obtain ⟨k, hk⟩ := List.mem_iff_getElem?.1 hmem
      rw [h3 k j j hk hk, List.getElem?_range hj]
    · rw [List.getElem?_eq_none (by omega), List.getElem?_eq_none (by simp; omega)]

/-- Witness of C8: the senders arrive in the order 2, 0, 3, 1. -/
theorem gather_stride_one_witness :
    (∃ res, gatherRoot (List.replicate 16 (0 : Int))
        [8, 9, 10, 11, 0, 1, 2, 3, 12, 13, 14, 15, 4, 5, 6, 7]
        [8, 9, 10, 11, 0, 1, 2, 3, 12, 13, 14, 15, 4, 5, 6, 7] 16 = .ok res ∧
      ∀ (k g : Nat) (v : Int),
        [8, 9, 10, 11, 0, 1, 2, 3, 12, 13, 14, 15, 4, 5, 6, 7][k]? = some g →
        ([8, 9, 10, 11, 0, 1, 2, 3, 12, 13, 14, 15, 4, 5, 6, 7] : List Int)[k]? = some v →
        res[g]? = some v) ∧
    gatherRoot (List.replicate 16 0) [8, 9, 10, 11, 0, 1, 2, 3, 12, 13, 14, 15, 4, 5, 6, 7]
      [8, 9, 10, 11, 0, 1, 2, 3, 12, 13, 14, 15, 4, 5, 6, 7] 16 = .ok (List.range 16) :=
  ⟨gather_stride_one.1 Int 16 (List.replicate 16 0)
      [8, 9, 10, 11, 0, 1, 2, 3, 12, 13, 14, 15, 4, 5, 6, 7]
      [8, 9, 10, 11, 0, 1, 2, 3, 12, 13, 14, 15, 4, 5, 6, 7]
      (by decide) (by decide) (by decide) (by decide) (by decide),
   gather_stride_one.2 (List.replicate 16 0)
      [8, 9, 10, 11, 0, 1, 2, 3, 12, 13, 14, 15, 4, 5, 6, 7]
      (by decide) (by decide) (by decide) (by decide)⟩

end GatherStrideOne

section Execute

theorem noneBefore_iff {ps : List PlanInfo} {k : Nat} :
    noneBefore ps k ↔ ∀ j q, j < k → ps[j]? = some q → ¬ q.manyToMany := by
  unfold noneBefore
  constructor
  · intro h j q hj hq
    apply h q
    apply List.getElem?_mem (n := j)
    rw [List.getElem?_take]
    simp [hj, hq]
  · intro h q hq
    obtain ⟨j, hj⟩ := List.mem_iff_getElem?.1 hq
    rw [List.getElem?_take] at hj
    split at hj
    · rename_i hlt
      exact h j q hlt hj
    · cases hj

theorem noneBefore_cons_succ {p : PlanInfo} {ps : List PlanInfo} {k : Nat} :
    noneBefore (p :: ps) (k + 1) ↔ ¬ p.manyToMany ∧ noneBefore ps k := by
  unfold noneBefore
  rw [List.take_succ_cons, List.forall_mem_cons]

theorem executeLoop_raisedAt (ps : List PlanInfo) (i : Nat) (tr : List Event) (m : Nat) :
    (executeLoop ps i tr).raisedAt = some m ↔
      ∃ k p, m = i + k ∧ ps[k]? = some p ∧ p.manyToMany ∧ noneBefore ps k := by
  induction ps generalizing i tr with
  | nil => simp [executeLoop]
  | cons p ps ih =>
    have hstep : ∀ tr2, ¬ p.manyToMany →
        ((executeLoop ps (i + 1) tr2).raisedAt = some m ↔
          ∃ k q, m = i + k ∧ (p :: ps)[k]? = some q ∧ q.manyToMany ∧ noneBefore (p :: ps) k) := by
      intro tr2 hp
      rw [ih]
      constructor
      · rintro ⟨k, q, rfl, hq, hm, hn⟩
        exact ⟨k + 1, q, by omega, by simpa using hq, hm, noneBefore_cons_succ.2 ⟨hp, hn⟩⟩
      · rintro ⟨k, q, rfl, hq, hm, hn⟩
        cases k with
        | zero => simp at hq; subst hq; exact absurd hm hp
        | succ k =>
          exact ⟨k, q, by omega, by simpa using hq, hm, (noneBefore_cons_succ.1 hn).2⟩
    rw [executeLoop]
    by_cases ha : p.active = true
    · simp only [ha, if_true]
      by_cases h1 : p.nbRanksSend > 1 ∧ p.nbRanksRecv = 1
      · rw [if_pos h1]
        exact hstep _ (fun h => by unfold PlanInfo.manyToMany at h; omega)
      · rw [if_neg h1]
        by_cases h2 : p.nbRanksSend = 1 ∧ p.nbRanksRecv > 1
        · rw [if_pos h2]
          exact hstep _ (fun h => by unfold PlanInfo.manyToMany at h; omega)
        · rw [if_neg h2]
          by_cases h3 : p.nbRanksSend > 1 ∧ p.nbRanksRecv > 1
          · rw [if_pos h3]
            simp only [Option.some.injEq]
            constructor
            · intro h
              exact ⟨0, p, by omega, by simp, ⟨ha, h3.1, h3.2⟩,
                noneBefore_iff.2 (fun j q hj => by omega)⟩
            · rintro ⟨k, q, rfl, hq, hm, hn⟩
              cases k with
              | zero => rfl
              | succ k =>
                exact absurd ⟨ha, h3.1, h3.2⟩ (noneBefore_iff.1 hn 0 p (by omega) (by simp))
          · rw [if_neg h3]
            exact hstep _ (fun h => h3 ⟨h.2.1, h.2.2⟩)
    · simp only [ha]
      exact hstep _ (fun h => ha h.1)

theorem executeLoop_cons (p : PlanInfo) (ps : List PlanInfo) (i : Nat) (tr : List Event) :
    executeLoop (p :: ps) i tr =
      if p.manyToMany then { trace := tr, raisedAt := some i }
      else executeLoop ps (i + 1) (tr ++ planCalls p i) := by
  rw [executeLoop]
  unfold PlanInfo.manyToMany planCalls
  by_cases ha : p.active = true
  · by_cases h1 : p.nbRanksSend > 1 ∧ p.nbRanksRecv = 1
    · have : ¬ (p.nbRanksSend > 1 ∧ p.nbRanksRecv > 1) := by omega
      simp [ha, h1, this]
    · by_cases h2 : p.nbRanksSend = 1 ∧ p.nbRanksRecv > 1
      · have : ¬ (p.nbRanksSend > 1 ∧ p.nbRanksRecv > 1) := by omega
        simp [ha, h1, h2, this]
      · by_cases h3 : p.nbRanksSend > 1 ∧ p.nbRanksRecv > 1
        · have e1 : ¬ p.nbRanksRecv = 1 := by omega
          have e2 : ¬ p.nbRanksSend = 1 := by omega
          simp [ha, h3, e1, e2]
        · simp [ha, h1, h2, h3]
  · simp [ha]

/-- Membership in the trace of the dispatch loop: the calls made before the
loop, and the calls of each plan reached without exception. -/
theorem executeLoop_trace (ps : List PlanInfo) (i : Nat) (tr : List Event) (ev : Event) :
    ev ∈ (executeLoop ps i tr).trace ↔
      ev ∈ tr ∨ ∃ k p, ps[k]? = some p ∧ noneBefore ps (k + 1) ∧ ev ∈ planCalls p (i + k) := by
  induction ps generalizing i tr with
  | nil => simp [executeLoop]
  | cons p ps ih =>
    rw [executeLoop_cons]
    by_cases hp : p.manyToMany
    · rw [if_pos hp]
      constructor
      · exact Or.inl
      · rintro (h | ⟨k, q, _, hn, _⟩)
        · exact h
        · exact absurd hp (noneBefore_iff.1 hn 0 p (by omega) (by simp))
    · rw [if_neg hp, ih, List.mem_append]
      constructor
      · rintro ((h | h) | ⟨k, q, hq, hn, hev⟩)
        · exact Or.inl h
        · exact Or.inr ⟨0, p, by simp,
            noneBefore_cons_succ.2 ⟨hp, noneBefore_iff.2 (fun j q hj => by omega)⟩, h⟩
        · refine Or.inr ⟨k + 1, q, by simpa using hq, noneBefore_cons_succ.2 ⟨hp, hn⟩, ?_⟩
          have : i + (k + 1) = i + 1 + k := by omega
          rw [this]; exact hev
      · rintro (h | ⟨k, q, hq, hn, hev⟩)
        · exact Or.inl (Or.inl h)
        · cases k with
          | zero =>
            simp at hq; subst hq
            exact Or.inl (Or.inr hev)
          | succ k =>
            refine Or.inr ⟨k, q, by simpa using hq, (noneBefore_cons_succ.1 hn).2, ?_⟩
            have : i + 1 + k = i + (k + 1) := by omega
            rw [this]; exact hev

theorem executeSetup_not_transfer (ps : List PlanInfo) (i : Nat) (ev : Event)
    (h : ev ∈ executeSetup ps i) : ev.isTransfer = false := by
  induction ps generalizing i with
  | nil => simp [executeSetup] at h
  | cons p ps ih =>
    rw [executeSetup] at h
    rcases List.mem_append.1 h with h | h
    · split at h
      · simp at h
        rcases h with rfl | rfl <;> rfl
      · simp at h
        subst h; rfl
    · exact ih _ h

theorem planCalls_plan (p : PlanInfo) (n : Nat) (ev : Event) (h : ev ∈ planCalls p n) :
    ev.plan = n := by
  unfold planCalls at h
  split at h
  · simp at h; rcases h with rfl | rfl <;> rfl
  · split at h
    · simp at h; rcases h with rfl | rfl <;> rfl
    · simp at h; subst h; rfl

theorem scatterData_mem_planCalls (p : PlanInfo) (n j : Nat) :
    Event.scatterData j ∈ planCalls p n ↔
      j = n ∧ p.active = true ∧ p.nbRanksSend = 1 ∧ p.nbRanksRecv > 1 := by
  unfold planCalls
  split
  · rename_i h
    simp only [List.mem_cons, reduceCtorEq, List.mem_singleton, or_self, List.not_mem_nil,
      false_iff]
    omega
  · split
    · rename_i h
      simp only [List.mem_cons, Event.scatterData.injEq, List.mem_singleton, reduceCtorEq,
        or_false, List.not_mem_nil]
      tauto
    · rename_i h1 h2
      simp only [List.mem_singleton, reduceCtorEq, false_iff]
      tauto

theorem gatherData_mem_planCalls (p : PlanInfo) (n j : Nat) :
    Event.gatherData j ∈ planCalls p n ↔
      j = n ∧ p.active = true ∧ p.nbRanksSend > 1 ∧ p.nbRanksRecv = 1 := by
  unfold planCalls
  split
  · rename_i h
    simp only [List.mem_cons, Event.gatherData.injEq, List.mem_singleton, reduceCtorEq,
      or_false, List.not_mem_nil]
    tauto
  · split
    · rename_i h1 h2
      simp only [List.mem_cons, reduceCtorEq, List.mem_singleton, or_self, List.not_mem_nil,
        false_iff]
      tauto
    · rename_i h1 h2
      simp only [List.mem_singleton, reduceCtorEq, false_iff]
      tauto

theorem execute_trace (createGroup : Bool) (plans : List PlanInfo) (ev : Event)
    (hev : ev.isTransfer = true) :
    ev ∈ (execute createGroup plans).trace ↔
      ∃ k p, plans[k]? = some p ∧ noneBefore plans (k + 1) ∧ ev ∈ planCalls p k := by
  unfold execute
  rw [executeLoop_trace]
  simp only [Nat.zero_add]
  constructor
  · rintro (h | h)
    · split at h
      · have := executeSetup_not_transfer _ _ _ h
        rw [hev] at this
        cases this
      · simp at h
    · exact h
  · exact Or.inr

/-- C3, counterexample.  A single plan with one sending and one receiving rank,
on a participating rank: `execute` calls neither engine, only the barrier. -/
theorem execute_one_to_one_counterexample :
    execute false [⟨true, 1, 1⟩] = { trace := [Event.barrier 0], raisedAt := none } ∧
    Event.scatterData 0 ∉ (execute false [⟨true, 1, 1⟩]).trace ∧
    Event.scatterData 0 ∉ (execute true [⟨true, 1, 1⟩]).trace := by
  decide

/-- C3, amended.  `execute` calls `scatterData` for plan `i` exactly when the
rank participates in the plan, `nbRanksSend == 1`, `nbRanksRecv > 1` and no
earlier plan has thrown; for a plan with `nbRanksSend == 1` and
`nbRanksRecv == 1` on a participating rank neither `scatterData` nor
`gatherData` is called and nothing is thrown at that plan. -/
theorem execute_scatter_dispatch (createGroup : Bool) (plans : List PlanInfo) (i : Nat) :
    (Event.scatterData i ∈ (execute createGroup plans).trace ↔
      ∃ p, plans[i]? = some p ∧ p.active = true ∧ p.nbRanksSend = 1 ∧ p.nbRanksRecv > 1 ∧
        noneBefore plans i) ∧
    (∀ p, plans[i]? = some p → p.active = true → p.nbRanksSend = 1 → p.nbRanksRecv = 1 →
      Event.scatterData i ∉ (execute createGroup plans).trace ∧
      Event.gatherData i ∉ (execute createGroup plans).trace ∧
      (execute createGroup plans).raisedAt ≠ some i) := by
  have hs : Event.scatterData i ∈ (execute createGroup plans).trace ↔
      ∃ p, plans[i]? = some p ∧ p.active = true ∧ p.nbRanksSend = 1 ∧ p.nbRanksRecv > 1 ∧
        noneBefore plans i := by
    rw [execute_trace createGroup plans (Event.scatterData i) rfl]
    constructor
    · rintro ⟨k, p, hp, hn, hmem⟩
      obtain ⟨rfl, ha, h1, h2⟩ := (scatterData_mem_planCalls _ _ _).1 hmem
      exact ⟨p, hp, ha, h1, h2,
        noneBefore_iff.2 (fun j q hj hq => noneBefore_iff.1 hn j q (by omega) hq)⟩
    · rintro ⟨p, hp, ha, h1, h2, hn⟩
      refine ⟨i, p, hp, ?_, (scatterData_mem_planCalls _ _ _).2 ⟨rfl, ha, h1, h2⟩⟩
      rw [noneBefore_iff]
      intro j q hj hq
      by_cases hji : j < i
      · exact noneBefore_iff.1 hn j q hji hq
      · have : j = i := by omega
        subst this
        rw [hp] at hq
        cases hq
        intro hm
        unfold PlanInfo.manyToMany at hm
        omega
  refine ⟨hs, ?_⟩
  intro p hp ha h1 h2
  refine ⟨?_, ?_, ?_⟩
  · rw [hs]
    rintro ⟨q, hq, _, _, h3, _⟩
    rw [hp] at hq
    cases hq
    omega
  · rw [execute_trace createGroup plans (Event.gatherData i) rfl]
    rintro ⟨k, q, hq, _, hmem⟩
    obtain ⟨rfl, _, h3, _⟩ := (gatherData_mem_planCalls _ _ _).1 hmem
    rw [hp] at hq
    cases hq
    omega
  · unfold execute
    rw [Ne, executeLoop_raisedAt]
    rintro ⟨k, q, hk, hq, hm, _⟩
    have : k = i := by omega
    subst this
    rw [hp] at hq
    cases hq
    unfold PlanInfo.manyToMany at hm
    omega

/-- Witness of C3, amended: a one-to-one plan between a gather and a scatter
plan. -/
theorem execute_scatter_dispatch_witness :
    Event.scatterData 1 ∉ (execute true [⟨true, 2, 1⟩, ⟨true, 1, 1⟩, ⟨true, 1, 3⟩]).trace ∧
    Event.gatherData 1 ∉ (execute true [⟨true, 2, 1⟩, ⟨true, 1, 1⟩, ⟨true, 1, 3⟩]).trace ∧
    (execute true [⟨true, 2, 1⟩, ⟨true, 1, 1⟩, ⟨true, 1, 3⟩]).raisedAt ≠ some 1 :=
  (execute_scatter_dispatch true [⟨true, 2, 1⟩, ⟨true, 1, 1⟩, ⟨true, 1, 3⟩] 1).2
    ⟨true, 1, 1⟩ rfl rfl rfl rfl

/-- C4.  `execute` throws `NotImplementedException` at plan `i` exactly when
plan `i` is the first plan, in configuration order, in which this rank
participates and for which `nbRanksSend > 1` and `nbRanksRecv > 1`; when it
throws at plan `i`, every call of `gatherData`, `scatterData` or of the barrier
made by this `execute` belongs to a plan before `i`. -/
theorem execute_not_implemented (createGroup : Bool) (plans : List PlanInfo) (i : Nat) :
    ((execute createGroup plans).raisedAt = some i ↔
      ∃ p, plans[i]? = some p ∧ p.manyToMany ∧ noneBefore plans i) ∧
    ((execute createGroup plans).raisedAt = some i →
      ∀ ev ∈ (execute createGroup plans).trace, ev.isTransfer = true → ev.plan < i) := by
  have hr : (execute createGroup plans).raisedAt = some i ↔
      ∃ p, plans[i]? = some p ∧ p.manyToMany ∧ noneBefore plans i := by
    unfold execute
    rw [executeLoop_raisedAt]
    constructor
    · rintro ⟨k, p, hk, hp, hm, hn⟩
      have : k = i := by omega
      subst this
      exact ⟨p, hp, hm, hn⟩
    · rintro ⟨p, hp, hm, hn⟩
      exact ⟨i, p, by omega, hp, hm, hn⟩
  refine ⟨hr, ?_⟩
  intro hraise ev hev htr
  obtain ⟨p, hp, hm, _⟩ := hr.1 hraise
  obtain ⟨k, q, hq, hn, hmem⟩ := (execute_trace _ _ _ htr).1 hev
  rw [planCalls_plan _ _ _ hmem]
  by_contra hlt
  exact noneBefore_iff.1 hn i p (by omega) hp hm

/-- Witness of C4: the fourth plan is the first many-to-many plan of an active
rank; the run stops there, after the gather of plan 0 and three barriers. -/
theorem execute_not_implemented_witness :
    (execute true [⟨true, 2, 1⟩, ⟨true, 1, 1⟩, ⟨false, 2, 2⟩, ⟨true, 2, 2⟩,
      ⟨true, 1, 2⟩]).raisedAt = some 3 ∧
    ∀ ev ∈ (execute true [⟨true, 2, 1⟩, ⟨true, 1, 1⟩, ⟨false, 2, 2⟩, ⟨true, 2, 2⟩,
      ⟨true, 1, 2⟩]).trace, ev.isTransfer = true → ev.plan < 3 :=
  ⟨by decide,
   (execute_not_implemented true [⟨true, 2, 1⟩, ⟨true, 1, 1⟩, ⟨false, 2, 2⟩, ⟨true, 2, 2⟩,
      ⟨true, 1, 2⟩] 3).2 (by decide)⟩

end Execute

section TransferGroup

theorem foldl_max_ge (l : List Nat) (a : Nat) : a ≤ l.foldl max a := by
  induction l generalizing a with
  | nil => simp
  | cons x xs ih => exact le_trans (le_max_left a x) (ih (max a x))

theorem foldl_max_mem_le (l : List Nat) (a x : Nat) (hx : x ∈ l) : x ≤ l.foldl max a := by
  induction l generalizing a with
  | nil => simp at hx
  | cons y ys ih =>
    rcases List.mem_cons.1 hx with rfl | h
    · exact le_trans (le_max_right a x) (foldl_max_ge ys (max a x))
    · exact ih (max a y) h

theorem foldl_max_le (l : List Nat) (a b : Nat) (ha : a ≤ b) (hl : ∀ x ∈ l, x ≤ b) :
    l.foldl max a ≤ b := by
  induction l generalizing a with
  | nil => simpa using ha
  | cons y ys ih =>
    exact ih (max a y) (max_le ha (hl y (List.mem_cons_self _ _)))
      (fun x hx => hl x (List.mem_cons_of_mem _ hx))

theorem foldl_max_eq_self (l : List Nat) (a : Nat) (hl : ∀ x ∈ l, x ≤ a) :
    l.foldl max a = a :=
  le_antisymm (foldl_max_le l a a le_rfl hl) (foldl_max_ge l a)

theorem localTransferFlags_getD (g : Groups) (r k : Nat) :
    ((localTransferFlags g r).getD k 0 = 1 ↔ k = r ∧ g.isTransferPos r) ∧
    (localTransferFlags g r).getD k 0 ≤ 1 := by
  unfold localTransferFlags Groups.isTransferPos
  cases hc : g.coupling[r]? with
  | none => simp [List.getD_eq_getElem?_getD, List.getElem?_replicate]; split <;> simp
  | some w =>
    have hr : r < g.coupling.length := (List.getElem?_eq_some_iff.1 hc).1
    by_cases hm : w ∈ g.send ∨ w ∈ g.recv
    · simp only [hm, if_true, Option.some.injEq, exists_eq_left', and_true]
      rw [List.getD_eq_getElem?_getD, List.getElem?_set]
      by_cases hk : r = k
      · subst hk; simp [hr]
      · simp only [hk, if_false, List.getElem?_replicate]
        split <;> simp <;> omega
    · simp only [hm, if_false, Option.some.injEq, exists_eq_left', and_false, iff_false]
      rw [List.getD_eq_getElem?_getD, List.getElem?_replicate]
      split <;> simp

theorem allreduce_flags (g : Groups) (k : Nat) (hk : k < g.coupling.length) :
    (allreduceMax ((List.range g.coupling.length).map (localTransferFlags g))
      g.coupling.length).getD k 0 =
      ((List.range g.coupling.length).map (fun r => (localTransferFlags g r).getD k 0)).foldl
        max 0 := by
  unfold allreduceMax
  rw [List.getD_eq_getElem?_getD, List.getElem?_map, List.getElem?_range hk]
  simp [List.map_map, Function.comp_def]

theorem allreduce_flags_eq_one (g : Groups) (k : Nat) (hk : k < g.coupling.length) :
    (allreduceMax ((List.range g.coupling.length).map (localTransferFlags g))
      g.coupling.length).getD k 0 = 1 ↔ g.isTransferPos k := by
  rw [allreduce_flags g k hk]
  constructor
  · intro h
    by_contra hn
    have hz : ((List.range g.coupling.length).map
        (fun r => (localTransferFlags g r).getD k 0)).foldl max 0 ≤ 0 := by
      apply foldl_max_le _ _ _ le_rfl
      intro x hx
      obtain ⟨r, _, rfl⟩ := List.mem_map.1 hx
      have h1 := (localTransferFlags_getD g r k).1
      have h2 := (localTransferFlags_getD g r k).2
      by_contra hpos
      have : (localTransferFlags g r).getD k 0 = 1 := by omega
      obtain ⟨rfl, hm⟩ := h1.1 this
      exact hn hm
    omega
  · intro hm
    apply le_antisymm
    · apply foldl_max_le _ _ _ (by omega)
      intro x hx
      obtain ⟨r, _, rfl⟩ := List.mem_map.1 hx
      exact (localTransferFlags_getD g r k).2
    · apply foldl_max_mem_le
      rw [List.mem_map]
      exact ⟨k, List.mem_range.2 hk, ((localTransferFlags_getD g k k).1).2 ⟨rfl, hm⟩⟩

/-- C9.  On every rank of the coupling group, the list that
`createTransferGroup` hands to `createGroup` contains position `rk` exactly
when the rank at position `rk` of the coupling group belongs to `nspSend` or to
`nspRecv`; it is strictly increasing, the same on every rank of the coupling
group, and consists of the positions flagged with 1 in `_isTransferRank[idx]`.
The list is produced as soon as one rank of the coupling group belongs to one
of the two namespaces. -/
theorem createTransferGroup_ranks (g : Groups) (nspRank : Nat)
    (hrank : nspRank < g.coupling.length) :
    (∀ flags ranks, createTransferGroup g nspRank = .ok (flags, ranks) →
      (∀ rk, rk ∈ ranks ↔ ∃ w, g.coupling[rk]? = some w ∧ (w ∈ g.send ∨ w ∈ g.recv)) ∧
      ranks.Pairwise (fun a b => a < b) ∧
      (∀ other, other < g.coupling.length →
        createTransferGroup g other = .ok (flags, ranks)) ∧
      (∀ rk, rk ∈ ranks ↔ flags[rk]? = some 1) ∧
      flags.length = g.coupling.length) ∧
    ((∃ (rk w : Nat), g.coupling[rk]? = some w ∧ (w ∈ g.send ∨ w ∈ g.recv)) →
      ∃ flags ranks, createTransferGroup g nspRank = .ok (flags, ranks)) := by
  have hmem : ∀ rk, rk ∈ (List.range g.coupling.length).filter (fun rk =>
      (allreduceMax ((List.range g.coupling.length).map (localTransferFlags g))
        g.coupling.length).getD rk 0 == 1) ↔ g.isTransferPos rk := by
    intro rk
    rw [List.mem_filter, List.mem_range]
    constructor
    · rintro ⟨hlt, h⟩
      exact (allreduce_flags_eq_one g rk hlt).1 (by simpa using h)
    · intro h
      have hlt : rk < g.coupling.length := by
        obtain ⟨w, hw, _⟩ := h
        exact (List.getElem?_eq_some_iff.1 hw).1
      exact ⟨hlt, by simpa using (allreduce_flags_eq_one g rk hlt).2 h⟩
  have hflen : (allreduceMax ((List.range g.coupling.length).map (localTransferFlags g))
      g.coupling.length).length = g.coupling.length := by
    simp [allreduceMax]
  constructor
  · intro flags ranks h
    unfold createTransferGroup at h
    simp only [hrank, if_true] at h
    split at h
    · rename_i hpos
      simp only [Except.ok.injEq, Prod.mk.injEq] at h
      obtain ⟨rfl, rfl⟩ := h
      refine ⟨hmem, ?_, ?_, ?_, hflen⟩
      · exact (List.pairwise_lt_range _).sublist (List.filter_sublist _)
      · intro other hother
        unfold createTransferGroup
        simp only [hother, if_true]
        rw [if_pos hpos]
      · intro rk
        rw [hmem]
        constructor
        · intro hm
          have hlt : rk < g.coupling.length := by
            obtain ⟨w, hw, _⟩ := hm
            exact (List.getElem?_eq_some_iff.1 hw).1
          have := (allreduce_flags_eq_one g rk hlt).2 hm
          rw [List.getD_eq_getElem?_getD] at this
          rw [List.getElem?_eq_getElem (by rw [hflen]; exact hlt)] at this ⊢
          simpa using this
        · intro h1
          have hlt : rk < g.coupling.length := by
            rw [← hflen]; exact (List.getElem?_eq_some_iff.1 h1).1
          apply (allreduce_flags_eq_one g rk hlt).1
          rw [List.getD_eq_getElem?_getD, h1]
          rfl
    · cases h
  · rintro ⟨rk, hm⟩
    have hin := (hmem rk).2 hm
    unfold createTransferGroup
    simp only [hrank, if_true]
    rw [if_pos (List.length_pos_of_mem hin)]
    exact ⟨_, _, rfl⟩

/-- Witness of C9: a coupling group of the world ranks 5, 6, 7, 8 of which 6
sends and 8 receives; every rank of the group obtains the list `1, 3`. -/
theorem createTransferGroup_ranks_witness :
    createTransferGroup ⟨[5, 6, 7, 8], [6], [8, 9]⟩ 2 = .ok ([0, 1, 0, 1], [1, 3]) ∧
    (∀ other, other < 4 →
      createTransferGroup ⟨[5, 6, 7, 8], [6], [8, 9]⟩ other = .ok ([0, 1, 0, 1], [1, 3])) ∧
    ∃ flags ranks, createTransferGroup ⟨[5, 6, 7, 8], [6], [8, 9]⟩ 2 = .ok (flags, ranks) :=
  ⟨by decide,
   ((createTransferGroup_ranks ⟨[5, 6, 7, 8], [6], [8, 9]⟩ 2 (by decide)).1
      [0, 1, 0, 1] [1, 3] (by decide)).2.2.1,
   (createTransferGroup_ranks ⟨[5, 6, 7, 8], [6], [8, 9]⟩ 2 (by decide)).2
      ⟨1, 6, by decide, by decide⟩⟩

end TransferGroup

section AddData

theorem resolveSocket_dense {connType : String} {nbStates nbNodes l l2 a : Nat}
    {r : Option (Nat × Nat × Nat)}
    (h : resolveSocket connType nbStates nbNodes l l2 (.dense a) = .ok r) :
    r = some (a, connDofsSize connType nbStates nbNodes,
      a / connDofsSize connType nbStates nbNodes) := by
  simp only [resolveSocket] at h
  split at h
  · cases h
  · split at h
    · cases h
    · cases h; rfl

theorem resolveSocket_handle {connType : String} {nbStates nbNodes l l2 size width : Nat}
    {r : Option (Nat × Nat × Nat)}
    (h : resolveSocket connType nbStates nbNodes l l2 (.globalHandle size width) = .ok r) :
    r = some (size * width, size, width) := by
  simp only [resolveSocket] at h
  split at h
  · cases h
  · split at h
    · cases h
    · cases h; rfl

/-- What `addDataToTransfer` records on a receiving rank whose receive socket
resolves to `(a, d, st)`: the size `a`, the DOF count `d`, and as `recvStride`
the maximum of `st` and of the strides contributed by the other ranks. -/
theorem addDataToTransfer_recv {connType : String} {me : RankSockets}
    {others : List (Nat × Nat)} {dtt : DataToTrasfer} {a d st : Nat}
    (h : addDataToTransfer connType me others = .ok dtt) (hrecv : me.inRecv = true)
    (hres : resolveSocket connType me.recvStates me.recvNodes 624 639 me.recvSocket =
      .ok (some (a, d, st))) :
    dtt.arraySize = a ∧ dtt.dofsSize = d ∧
      dtt.recvStride = (others.map Prod.snd).foldl max st := by
  unfold addDataToTransfer at h
  simp only [hrecv, if_true, hres] at h
  split at h
  · cases h
  · split at h
    · cases h
    · split at h
      · cases h
      · cases h
        exact ⟨rfl, rfl, rfl⟩

/-- C10, counterexample.  A receiving rank whose dense socket has 7 entries
for 2 states: the recorded `arraySize` is 7, the stride is `7/2 = 3`, and
`2 * 3 = 6`.  And a receiving rank whose global handle has 3 elements of width
4 while another rank of the group contributes the stride 5: `arraySize` is 12
and `3 * 5 = 15`. -/
theorem addDataToTransfer_arraySize_counterexample :
    (addDataToTransfer "State" ⟨false, true, .absent, .dense 7, 0, 0, 2, 0⟩ [(4, 0)] =
        .ok ⟨7, 2, 4, 3⟩ ∧ 7 ≠ 2 * 3) ∧
    (addDataToTransfer "State" ⟨false, true, .absent, .globalHandle 3 4, 0, 0, 3, 0⟩
        [(4, 0), (0, 5)] = .ok ⟨12, 3, 4, 5⟩ ∧ 12 ≠ 3 * 5) := by
  decide

/-- C10, amended.  On a receiving rank for which `addDataToTransfer` ends
normally and no other rank of the transfer group contributes a receive stride
larger than the one found on this rank: when the receive socket is a dense
array whose size is a multiple of the number of DOFs of the receiving handle,
and when it is the global DOF handle itself, the recorded `arraySize` equals
the number of DOFs of the receiving handle times `recvStride`. -/
theorem addDataToTransfer_arraySize (connType : String) (me : RankSockets)
    (others : List (Nat × Nat)) (dtt : DataToTrasfer)
    (h : addDataToTransfer connType me others = .ok dtt) (hrecv : me.inRecv = true) :
    (∀ a, me.recvSocket = .dense a →
      connDofsSize connType me.recvStates me.recvNodes ∣ a →
      (∀ o ∈ others, o.2 ≤ a / connDofsSize connType me.recvStates me.recvNodes) →
      dtt.dofsSize = connDofsSize connType me.recvStates me.recvNodes ∧
      dtt.recvStride = a / connDofsSize connType me.recvStates me.recvNodes ∧
      dtt.arraySize = dtt.dofsSize * dtt.recvStride) ∧
    (∀ size width, me.recvSocket = .globalHandle size width →
      (∀ o ∈ others, o.2 ≤ width) →
      dtt.dofsSize = size ∧ dtt.recvStride = width ∧
      dtt.arraySize = dtt.dofsSize * dtt.recvStride) := by
  have hres : ∃ r, resolveSocket connType me.recvStates me.recvNodes 624 639 me.recvSocket =
      .ok r := by
    unfold addDataToTransfer at h
    simp only [hrecv, if_true] at h
    cases hr : resolveSocket connType me.recvStates me.recvNodes 624 639 me.recvSocket with
    | ok r => exact ⟨r, rfl⟩
    | error e =>
      rw [hr] at h
      split at h
      · cases h
      · cases h
  obtain ⟨r, hr⟩ := hres
  constructor
  · intro a hsock hdvd hmax
    rw [hsock] at hr
    have := resolveSocket_dense hr
    subst this
    rw [← hsock] at hr
    obtain ⟨h1, h2, h3⟩ := addDataToTransfer_recv h hrecv hr
    rw [foldl_max_eq_self _ _ (by
      intro x hx
      obtain ⟨o, ho, rfl⟩ := List.mem_map.1 hx
      exact hmax o ho)] at h3
    refine ⟨h2, h3, ?_⟩
    rw [h1, h2, h3, Nat.mul_div_cancel' hdvd]
  · intro size width hsock hmax
    rw [hsock] at hr
    have := resolveSocket_handle hr
    subst this
    rw [← hsock] at hr
    obtain ⟨h1, h2, h3⟩ := addDataToTransfer_recv h hrecv hr
    rw [foldl_max_eq_self _ _ (by
      intro x hx
      obtain ⟨o, ho, rfl⟩ := List.mem_map.1 hx
      exact hmax o ho)] at h3
    exact ⟨h2, h3, by rw [h1, h2, h3]⟩

/-- Witness of C10, amended: a dense receive socket of 8 entries for 2 states,
with a sender of stride 4 in the group. -/
theorem addDataToTransfer_arraySize_witness :
    addDataToTransfer "State" ⟨false, true, .absent, .dense 8, 0, 0, 2, 0⟩ [(4, 0)] =
      .ok ⟨8, 2, 4, 4⟩ ∧
    (⟨8, 2, 4, 4⟩ : DataToTrasfer).dofsSize = connDofsSize "State" 2 0 ∧
    (⟨8, 2, 4, 4⟩ : DataToTrasfer).recvStride = 8 / connDofsSize "State" 2 0 ∧
    (⟨8, 2, 4, 4⟩ : DataToTrasfer).arraySize =
      (⟨8, 2, 4, 4⟩ : DataToTrasfer).dofsSize * (⟨8, 2, 4, 4⟩ : DataToTrasfer).recvStride :=
  ⟨by decide,
   (addDataToTransfer_arraySize "State" ⟨false, true, .absent, .dense 8, 0, 0, 2, 0⟩ [(4, 0)]
    ⟨8, 2, 4, 4⟩ (by decide) rfl).1 8 rfl (by decide) (by decide)⟩

end AddData

section ScatterWrites

variable {α : Type}

theorem foldl_set_writes (cs : List Nat) (startR : Nat) (f : Nat → α) (arr : List α)
    (h : ∀ c ∈ cs, startR + c < arr.length) :
    applyWrites (cs.map (fun c => (startR + c, f c))) arr =
      some (cs.foldl (fun a c => a.set (startR + c) (f c)) arr) := by
  induction cs generalizing arr with
  | nil => rfl
  | cons c cs ih =>
    have hc := h c (List.mem_cons_self _ _)
    simp only [List.map_cons, applyWrites, hc, if_true, List.foldl_cons]
    apply ih
    intro x hx
    simpa using h x (List.mem_cons_of_mem _ hx)

theorem writeBlock_writes (arr : List α) (startR recvStride : Nat) (f : Nat → α)
    (h : startR + recvStride ≤ arr.length) :
    applyWrites (blockWrites startR recvStride f) arr =
      some (writeBlock arr startR recvStride f) := by
  unfold blockWrites writeBlock
  apply foldl_set_writes
  intro c hc
  have := List.mem_range.1 hc
  omega

theorem writeBlock_length (arr : List α) (startR recvStride : Nat) (f : Nat → α) :
    (writeBlock arr startR recvStride f).length = arr.length := by
  unfold writeBlock
  generalize List.range recvStride = cs
  induction cs generalizing arr with
  | nil => rfl
  | cons c cs ih => simp [List.foldl_cons, ih]

/-- The receiver filter amounts to a sequence of single writes that depends on
the received buffers and on the size of the receiving array, not on its
content. -/
theorem scatterRecvLoop_writes (tr : List α → Nat → α) (g2l : List (Nat × Nat))
    (sS rS stride : Nat) (sbuf : List α) (sids : List Nat) (n id : Nat) (arr r : List α)
    (h : scatterRecvLoop tr g2l sS rS stride sbuf sids n id arr = .ok r) :
    ∃ W : List (Nat × α), applyWrites W arr = some r ∧
      (∀ arr2 : List α, arr2.length = arr.length →
        ∃ r2, scatterRecvLoop tr g2l sS rS stride sbuf sids n id arr2 = .ok r2 ∧
          applyWrites W arr2 = some r2) ∧
      (∀ w, w ∈ W ↔ recvWriteSpec tr g2l sS rS sbuf sids id (id + n) w) := by
  induction n generalizing id arr with
  | zero =>
    simp only [scatterRecvLoop, Except.ok.injEq] at h
    subst h
    refine ⟨[], rfl, fun arr2 _ => ⟨arr2, rfl, rfl⟩, ?_⟩
    intro w
    simp only [List.not_mem_nil, false_iff]
    rintro ⟨k, _, _, _, h1, h2, _⟩
    omega
  | succ n ih =>
    rw [scatterRecvLoop] at h
    cases hg : sids[id]? with
    | none => simp [hg] at h
    | some g =>
      simp only [hg] at h
      cases hl : findLocalID g2l g with
      | none =>
        simp only [hl] at h
        obtain ⟨W, hW, hind, hchar⟩ := ih (id + 1) arr h
        refine ⟨W, hW, ?_, ?_⟩
        · intro arr2 hlen
          obtain ⟨r2, h1, h2⟩ := hind arr2 hlen
          refine ⟨r2, ?_, h2⟩
          rw [scatterRecvLoop]
          simp only [hg, hl]
          exact h1
        · intro w
          rw [hchar]
          constructor
          · rintro ⟨k, g2, l, c, h1, h2, h3⟩
            exact ⟨k, g2, l, c, by omega, by omega, h3⟩
          · rintro ⟨k, g2, l, c, h1, h2, h3, h4, h5⟩
            by_cases hk : k = id
            · subst hk
              rw [hg] at h3
              cases h3
              rw [hl] at h4
              cases h4
            · exact ⟨k, g2, l, c, by omega, by omega, h3, h4, h5⟩
      | some l =>
        simp only [hl] at h
        by_cases hst : stride = sS
        · have hst2 := hst.symm
          subst hst2
          simp only [if_true] at h
          by_cases hbd : id * sS + sS ≤ sbuf.length ∧ l * rS + rS ≤ arr.length
          · simp only [hbd, and_self, if_true] at h
            obtain ⟨W, hW, hind, hchar⟩ := ih (id + 1) _ h
            refine ⟨blockWrites (l * rS) rS (tr ((sbuf.drop (id * sS)).take sS)) ++ W, ?_, ?_, ?_⟩
            · rw [applyWrites_append, writeBlock_writes _ _ _ _ hbd.2]
              exact hW
            · intro arr2 hlen
              obtain ⟨r2, h1, h2⟩ := hind (writeBlock arr2 (l * rS) rS
                (tr ((sbuf.drop (id * sS)).take sS)))
                (by rw [writeBlock_length, writeBlock_length, hlen])
              refine ⟨r2, ?_, ?_⟩
              · rw [scatterRecvLoop]
                simp only [hg, hl, if_true]
                rw [if_pos ⟨hbd.1, by rw [hlen]; exact hbd.2⟩]
                exact h1
              · rw [applyWrites_append, writeBlock_writes _ _ _ _ (by rw [hlen]; exact hbd.2)]
                exact h2
            · intro w
              rw [List.mem_append, hchar]
              constructor
              · rintro (hb | ⟨k, g2, l2, c, h1, h2, h3⟩)
                · simp only [blockWrites, List.mem_map, List.mem_range] at hb
                  obtain ⟨c, hc, rfl⟩ := hb
                  exact ⟨id, g, l, c, le_rfl, by omega, hg, hl, hc, rfl⟩
                · exact ⟨k, g2, l2, c, by omega, by omega, h3⟩
              · rintro ⟨k, g2, l2, c, h1, h2, h3, h4, h5, h6⟩
                by_cases hk : k = id
                · subst hk
                  rw [hg] at h3
                  cases h3
                  rw [hl] at h4
                  cases h4
                  left
                  simp only [blockWrites, List.mem_map, List.mem_range]
                  exact ⟨c, h5, h6.symm⟩
                · exact Or.inr ⟨k, g2, l2, c, by omega, by omega, h3, h4, h5, h6⟩
          · simp [hbd] at h
        · simp [hst] at h

end ScatterWrites

section ScatterRound

variable {α : Type}

theorem scatterFillData_spec (data : List α) (n s counter : Nat) (buf : List α) (c2 : Nat)
    (buf2 : List α) (h : scatterFillData data n s counter buf = .ok (c2, buf2)) :
    c2 = counter + n ∧ buf2.length = buf.length ∧
      ∀ j, buf2[j]? = if s ≤ j ∧ j < s + n then data[counter + (j - s)]? else buf[j]? := by
  induction n generalizing s counter buf with
  | zero =>
    simp only [scatterFillData, Except.ok.injEq, Prod.mk.injEq] at h
    obtain ⟨rfl, rfl⟩ := h
    refine ⟨rfl, rfl, fun j => ?_⟩
    have : ¬ (s ≤ j ∧ j < s + 0) := by omega
    rw [if_neg this]
  | succ n ih =>
    rw [scatterFillData] at h
    by_cases hs : s < buf.length
    · simp only [hs, if_true] at h
      cases hv : data[counter]? with
      | none => simp [hv] at h
      | some v =>
        simp only [hv] at h
        obtain ⟨h1, h2, h3⟩ := ih (s + 1) (counter + 1) (buf.set s v) h
        refine ⟨by omega, by simpa using h2, fun j => ?_⟩
        rw [h3]
        rcases Nat.lt_trichotomy j s with hj | hj | hj
        · have e1 : ¬ (s + 1 ≤ j ∧ j < s + 1 + n) := by omega
          have e2 : ¬ (s ≤ j ∧ j < s + (n + 1)) := by omega
          rw [if_neg e1, if_neg e2, List.getElem?_set]
          have : ¬ s = j := by omega
          simp [this]
        · subst hj
          have e1 : ¬ (j + 1 ≤ j ∧ j < j + 1 + n) := by omega
          have e2 : j ≤ j ∧ j < j + (n + 1) := by omega
          rw [if_neg e1, if_pos e2, List.getElem?_set]
          simp [hs, hv]
        · by_cases hjn : j < s + 1 + n
          · have e1 : s + 1 ≤ j ∧ j < s + 1 + n := by omega
            have e2 : s ≤ j ∧ j < s + (n + 1) := by omega
            rw [if_pos e1, if_pos e2]
            congr 1
            omega
          · have e1 : ¬ (s + 1 ≤ j ∧ j < s + 1 + n) := by omega
            have e2 : ¬ (s ≤ j ∧ j < s + (n + 1)) := by omega
            rw [if_neg e1, if_neg e2, List.getElem?_set]
            have : ¬ s = j := by omega
            simp [this]
    · simp [hs] at h

theorem scatterFillIDs_spec (dofs : List Nat) (n s countID : Nat) (buf : List Nat) (c2 : Nat)
    (buf2 : List Nat) (h : scatterFillIDs dofs n s countID buf = .ok (c2, buf2)) :
    c2 = countID + n ∧ buf2.length = buf.length ∧
      ∀ j, buf2[j]? = if s ≤ j ∧ j < s + n then dofs[countID + (j - s)]? else buf[j]? := by
  induction n generalizing s countID buf with
  | zero =>
    simp only [scatterFillIDs, Except.ok.injEq, Prod.mk.injEq] at h
    obtain ⟨rfl, rfl⟩ := h
    refine ⟨rfl, rfl, fun j => ?_⟩
    have : ¬ (s ≤ j ∧ j < s + 0) := by omega
    rw [if_neg this]
  | succ n ih =>
    rw [scatterFillIDs] at h
    cases hv : dofs[countID]? with
    | none => simp [hv] at h
    | some v =>
      simp only [hv] at h
      by_cases hs : s < buf.length
      · simp only [hs, if_true] at h
        obtain ⟨h1, h2, h3⟩ := ih (s + 1) (countID + 1) (buf.set s v) h
        refine ⟨by omega, by simpa using h2, fun j => ?_⟩
        rw [h3]
        rcases Nat.lt_trichotomy j s with hj | hj | hj
        · have e1 : ¬ (s + 1 ≤ j ∧ j < s + 1 + n) := by omega
          have e2 : ¬ (s ≤ j ∧ j < s + (n + 1)) := by omega
          rw [if_neg e1, if_neg e2, List.getElem?_set]
          have : ¬ s = j := by omega
          simp [this]
        · subst hj
          have e1 : ¬ (j + 1 ≤ j ∧ j < j + 1 + n) := by omega
          have e2 : j ≤ j ∧ j < j + (n + 1) := by omega
          rw [if_neg e1, if_pos e2, List.getElem?_set]
          simp [hs, hv]
        · by_cases hjn : j < s + 1 + n
          · have e1 : s + 1 ≤ j ∧ j < s + 1 + n := by omega
            have e2 : s ≤ j ∧ j < s + (n + 1) := by omega
            rw [if_pos e1, if_pos e2]
            congr 1
            omega
          · have e1 : ¬ (s + 1 ≤ j ∧ j < s + 1 + n) := by omega
            have e2 : ¬ (s ≤ j ∧ j < s + (n + 1)) := by omega
            rw [if_neg e1, if_neg e2, List.getElem?_set]
            have : ¬ s = j := by omega
            simp [this]
      · simp [hs] at h

theorem bcast_spec {β : Type} (rootBuf : List β) (n : Nat) (localBuf b : List β)
    (h : bcast rootBuf n localBuf = .ok b) :
    b.length = localBuf.length ∧ ∀ j, j < n → b[j]? = rootBuf[j]? := by
  unfold bcast at h
  split at h
  · rename_i hn
    simp only [Except.ok.injEq] at h
    subst h
    constructor
    · simp only [List.length_append, List.length_take, List.length_drop]
      omega
    · intro j hj
      rw [List.getElem?_append_left (by simp; omega), List.getElem?_take]
      simp [hj]
  · cases h

theorem drop_take_congr (l1 l2 : List α) (a b m : Nat)
    (h : ∀ j, j < m → l1[a + j]? = l2[b + j]?) :
    (l1.drop a).take m = (l2.drop b).take m := by
  apply List.ext_getElem?
  intro j
  rw [List.getElem?_take, List.getElem?_take]
  by_cases hj : j < m
  · simp only [hj, if_true, List.getElem?_drop]
    exact h j hj
  · simp [hj]

theorem scatterStride_ok {sendcounts sendIDcounts : List Nat} {r sc ic stride : Nat}
    (h : scatterStride sendcounts sendIDcounts r = .ok (sc, ic, stride)) :
    sendcounts[r]? = some sc ∧ sendIDcounts[r]? = some ic := by
  unfold scatterStride at h
  split at h
  · rename_i a b ha hb
    split at h
    · cases h
    · split at h
      · simp only [Except.ok.injEq, Prod.mk.injEq] at h
        obtain ⟨rfl, rfl, _⟩ := h
        exact ⟨ha, hb⟩
      · cases h
  · cases h

theorem mul_add_lt_mul {k ic sS j : Nat} (hk : k < ic) (hj : j < sS) :
    k * sS + j < ic * sS := by
  have := Nat.mul_le_mul_right sS (Nat.succ_le_of_lt hk)
  rw [Nat.succ_mul] at this
  omega

end ScatterRound

section ScatterLoop

variable {α : Type}

/-- One round of the scatter loop: what the two cursors become and which
writes reach the receiving array. -/
theorem scatterRound_writes (p : ScatterPlan α) (r : Nat) (st st1 st2 : ScatterState α)
    (arr arr1 : List α) (h1 : scatterRootStep p r st = .ok st1)
    (h2 : scatterRecvStep p r st1 arr = .ok (st2, arr1)) :
    ∃ (W : List (Nat × α)) (sc ic : Nat),
      p.sendcounts[r]? = some sc ∧ p.sendIDcounts[r]? = some ic ∧
      applyWrites W arr = some arr1 ∧
      (∀ arr2 : List α, arr2.length = arr.length →
        ∃ r2, scatterRecvStep p r st1 arr2 = .ok (st2, r2) ∧ applyWrites W arr2 = some r2) ∧
      st2.countID = st.countID + ic ∧ st2.counter = st.counter + sc ∧
      (∀ w ∈ W, ∃ pos, st.countID ≤ pos ∧ pos < st.countID + ic ∧ p.blockAt pos w.1) ∧
      (sc = ic * p.sendStride → st.counter = st.countID * p.sendStride →
        ∀ w, w ∈ W ↔ ∃ pos, st.countID ≤ pos ∧ pos < st.countID + ic ∧ p.writeAt pos w) := by
  unfold scatterRootStep at h1
  cases hs : scatterStride p.sendcounts p.sendIDcounts r with
  | error e => rw [hs] at h1; cases h1
  | ok t =>
    obtain ⟨sc, ic, stride⟩ := t
    obtain ⟨hsc, hic⟩ := scatterStride_ok hs
    rw [hs] at h1
    simp only at h1
    cases hfd : scatterFillData p.dataToSend sc 0 st.counter st.sendbuf with
    | error e => rw [hfd] at h1; cases h1
    | ok t1 =>
      obtain ⟨c1, sb1⟩ := t1
      rw [hfd] at h1
      simp only at h1
      cases hfi : scatterFillIDs p.dofs ic 0 st.countID st.sendIDs with
      | error e => rw [hfi] at h1; cases h1
      | ok t2 =>
        obtain ⟨c2, si1⟩ := t2
        rw [hfi] at h1
        simp only [Except.ok.injEq] at h1
        subst h1
        obtain ⟨hc1, _, hsb⟩ := scatterFillData_spec _ _ _ _ _ _ _ hfd
        obtain ⟨hc2, _, hsi⟩ := scatterFillIDs_spec _ _ _ _ _ _ _ hfi
        unfold scatterRecvStep at h2
        rw [hs] at h2
        simp only at h2
        cases hb1 : bcast sb1 sc st.recvbuf with
        | error e => rw [hb1] at h2; cases h2
        | ok rb =>
          rw [hb1] at h2
          simp only at h2
          cases hb2 : bcast si1 ic st.recvIDs with
          | error e => rw [hb2] at h2; cases h2
          | ok ri =>
            rw [hb2] at h2
            simp only at h2
            cases hloop : scatterRecvLoop p.transform p.global2localIDs p.sendStride
                p.recvStride stride rb ri ic 0 arr with
            | error e => rw [hloop] at h2; cases h2
            | ok res =>
              rw [hloop] at h2
              simp only [Except.ok.injEq, Prod.mk.injEq] at h2
              obtain ⟨rfl, rfl⟩ := h2
              obtain ⟨W, hW, hind, hchar⟩ := scatterRecvLoop_writes _ _ _ _ _ _ _ _ _ _ _ hloop
              have hrb : ∀ j, j < sc → rb[j]? = p.dataToSend[st.counter + j]? := by
                intro j hj
                rw [(bcast_spec _ _ _ _ hb1).2 j hj, hsb j,
                  if_pos (by omega : 0 ≤ j ∧ j < 0 + sc)]
                simp
              have hri : ∀ k, k < ic → ri[k]? = p.dofs[st.countID + k]? := by
                intro k hk
                rw [(bcast_spec _ _ _ _ hb2).2 k hk, hsi k,
                  if_pos (by omega : 0 ≤ k ∧ k < 0 + ic)]
                simp
              refine ⟨W, sc, ic, hsc, hic, hW, ?_, hc2, hc1, ?_, ?_⟩
              · intro arr2 hlen
                obtain ⟨r2, hr2, hw2⟩ := hind arr2 hlen
                refine ⟨r2, ?_, hw2⟩
                unfold scatterRecvStep
                rw [hs]
                simp only
                rw [hb1]
                simp only
                rw [hb2]
                simp only
                rw [hr2]
              · intro w hw
                obtain ⟨k, g, l, c, _, hk, hg, hl, hc, hweq⟩ := (hchar w).1 hw
                refine ⟨st.countID + k, by omega, by omega, g, l, c, ?_, hl, hc, ?_⟩
                · rw [← hri k (by omega)]; exact hg
                · rw [hweq]
              · intro hcount hinv w
                have hdata : ∀ k, k < ic →
                    (rb.drop (k * p.sendStride)).take p.sendStride =
                    (p.dataToSend.drop ((st.countID + k) * p.sendStride)).take p.sendStride := by
                  intro k hk
                  apply drop_take_congr
                  intro j hj
                  rw [hrb _ (by rw [hcount]; exact mul_add_lt_mul hk hj), hinv]
                  congr 1
                  rw [Nat.add_mul]
                  omega
                rw [hchar]
                constructor
                · rintro ⟨k, g, l, c, _, hk, hg, hl, hc, hweq⟩
                  have hk2 : k < ic := by omega
                  refine ⟨st.countID + k, by omega, by omega, g, l, c, ?_, hl, hc, ?_⟩
                  · rw [← hri k hk2]; exact hg
                  · rw [hweq, hdata k hk2]
                · rintro ⟨pos, hp1, hp2, g, l, c, hg, hl, hc, hweq⟩
                  obtain ⟨k, rfl⟩ : ∃ k, pos = st.countID + k := ⟨pos - st.countID, by omega⟩
                  have hk2 : k < ic := by omega
                  refine ⟨k, g, l, c, by omega, by omega, ?_, hl, hc, ?_⟩
                  · rw [hri k hk2]; exact hg
                  · rw [hweq, hdata k hk2]

/-- The whole scatter loop: the receiving array changes by a sequence of
single writes, each inside the block of a broadcast id that the map knows; the
sequence does not depend on the content of the array. -/
theorem scatterLoop_writes (p : ScatterPlan α) (rs : List Nat) (st st2 : ScatterState α)
    (arr arr1 : List α) (h : scatterLoop p rs st arr = .ok (st2, arr1)) :
    ∃ W : List (Nat × α), applyWrites W arr = some arr1 ∧
      (∀ arr2 : List α, arr2.length = arr.length →
        ∃ r2, scatterLoop p rs st arr2 = .ok (st2, r2) ∧ applyWrites W arr2 = some r2) ∧
      st2.countID = st.countID + (rs.map (fun r => p.sendIDcounts.getD r 0)).sum ∧
      (∀ w ∈ W, ∃ pos, st.countID ≤ pos ∧ pos < st2.countID ∧ p.blockAt pos w.1) ∧
      ((∀ r ∈ rs, ∀ sc ic, p.sendcounts[r]? = some sc → p.sendIDcounts[r]? = some ic →
          sc = ic * p.sendStride) →
        st.counter = st.countID * p.sendStride →
        ∀ w, w ∈ W ↔ ∃ pos, st.countID ≤ pos ∧ pos < st2.countID ∧ p.writeAt pos w) := by
  induction rs generalizing st arr with
  | nil =>
    simp only [scatterLoop, Except.ok.injEq, Prod.mk.injEq] at h
    obtain ⟨rfl, rfl⟩ := h
    refine ⟨[], rfl, fun arr2 _ => ⟨arr2, rfl, rfl⟩, by simp, by simp, ?_⟩
    intro _ _ w
    simp only [List.not_mem_nil, false_iff]
    rintro ⟨pos, h1, h2, _⟩
    omega
  | cons r rs ih =>
    rw [scatterLoop] at h
    cases hroot : scatterRootStep p r st with
    | error e => rw [hroot] at h; cases h
    | ok st1 =>
      rw [hroot] at h
      simp only at h
      cases hrecv : scatterRecvStep p r st1 arr with
      | error e => rw [hrecv] at h; cases h
      | ok t =>
        obtain ⟨stm, arrm⟩ := t
        rw [hrecv] at h
        simp only at h
        obtain ⟨W1, sc, ic, hsc, hic, hW1, hind1, hcid, hcnt, hweak1, hstrong1⟩ :=
          scatterRound_writes p r st st1 stm arr arrm hroot hrecv
        obtain ⟨W2, hW2, hind2, hcid2, hweak2, hstrong2⟩ := ih stm arrm h
        have hgetD : p.sendIDcounts.getD r 0 = ic := by
          rw [List.getD_eq_getElem?_getD, hic]; rfl
        have hle : stm.countID ≤ st2.countID := by omega
        refine ⟨W1 ++ W2, ?_, ?_, ?_, ?_, ?_⟩
        · rw [applyWrites_append, hW1]
          exact hW2
        · intro arr2 hlen
          obtain ⟨rm, hrm, hwm⟩ := hind1 arr2 hlen
          obtain ⟨r2, hr2, hw2⟩ := hind2 rm
            (by rw [applyWrites_length hwm, applyWrites_length hW1, hlen])
          refine ⟨r2, ?_, ?_⟩
          · rw [scatterLoop, hroot]
            simp only
            rw [hrm]
            exact hr2
          · rw [applyWrites_append, hwm]
            exact hw2
        · rw [hcid2, hcid, List.map_cons, List.sum_cons, hgetD]
          omega
        · intro w hw
          rcases List.mem_append.1 hw with hw | hw
          · obtain ⟨pos, h1, h2, h3⟩ := hweak1 w hw
            exact ⟨pos, h1, by omega, h3⟩
          · obtain ⟨pos, h1, h2, h3⟩ := hweak2 w hw
            exact ⟨pos, by omega, h2, h3⟩
        · intro hcounts hinv w
          have hsceq : sc = ic * p.sendStride :=
            hcounts r (List.mem_cons_self _ _) sc ic hsc hic
          have hinv2 : stm.counter = stm.countID * p.sendStride := by
            rw [hcnt, hcid, hinv, hsceq, Nat.add_mul]
          rw [List.mem_append, hstrong1 hsceq hinv w,
            hstrong2 (fun r2 hr2 => hcounts r2 (List.mem_cons_of_mem _ hr2)) hinv2 w]
          constructor
          · rintro (⟨pos, h1, h2, h3⟩ | ⟨pos, h1, h2, h3⟩)
            · exact ⟨pos, h1, by omega, h3⟩
            · exact ⟨pos, by omega, h2, h3⟩
          · rintro ⟨pos, h1, h2, h3⟩
            by_cases hpos : pos < st.countID + ic
            · exact Or.inl ⟨pos, h1, hpos, h3⟩
            · exact Or.inr ⟨pos, by omega, h2, h3⟩

/-- The call `scatterData` on a rank other than the root: the receiving array
changes by a sequence of single writes that does not depend on its content;
every write lies in the block of a broadcast id known to the map, and when the
counts of every round agree with the send stride the writes are exactly the
components of the transformed values of the broadcast DOFs known to the
map. -/
theorem scatterData_writes [Inhabited α] (p : ScatterPlan α) (arr res : List α)
    (h : scatterData p arr = .ok res) :
    ∃ W : List (Nat × α), applyWrites W arr = some res ∧
      (∀ arr2 : List α, arr2.length = arr.length →
        ∃ r2, scatterData p arr2 = .ok r2 ∧ applyWrites W arr2 = some r2) ∧
      (∀ w ∈ W, ∃ pos, pos < p.nbIDs ∧ p.blockAt pos w.1) ∧
      ((∀ (r sc ic : Nat), p.sendcounts[r]? = some sc → p.sendIDcounts[r]? = some ic →
          sc = ic * p.sendStride) →
        ∀ w, w ∈ W ↔ ∃ pos, pos < p.nbIDs ∧ p.writeAt pos w) := by
  unfold scatterData at h
  cases hinit : scatterInit p with
  | error e => rw [hinit] at h; cases h
  | ok st0 =>
    rw [hinit] at h
    simp only at h
    cases hloop : scatterLoop p (List.range p.sendcounts.length) st0 arr with
    | error e => rw [hloop] at h; cases h
    | ok t =>
      obtain ⟨st2, arr1⟩ := t
      rw [hloop] at h
      simp only [Except.ok.injEq] at h
      subst h
      have h0 : st0.counter = 0 ∧ st0.countID = 0 := by
        unfold scatterInit at hinit
        simp only at hinit
        split at hinit
        · cases hinit
        · split at hinit
          · split at hinit
            · cases hinit
            · split at hinit
              · cases hinit
              · cases hinit
                exact ⟨rfl, rfl⟩
          · cases hinit
      obtain ⟨W, hW, hind, hcid, hweak, hstrong⟩ := scatterLoop_writes p _ st0 st2 arr arr1 hloop
      have hnb : st2.countID = p.nbIDs := by
        rw [hcid, h0.2]
        simp [ScatterPlan.nbIDs]
      refine ⟨W, hW, ?_, ?_, ?_⟩
      · intro arr2 hlen
        obtain ⟨r2, hr2, hw2⟩ := hind arr2 hlen
        refine ⟨r2, ?_, hw2⟩
        unfold scatterData
        rw [hinit]
        simp only
        rw [hr2]
      · intro w hw
        obtain ⟨pos, _, h2, h3⟩ := hweak w hw
        exact ⟨pos, by omega, h3⟩
      · intro hcounts w
        rw [hstrong (fun r _ sc ic => hcounts r sc ic) (by rw [h0.1, h0.2]; simp) w]
        constructor
        · rintro ⟨pos, _, h2, h3⟩
          exact ⟨pos, by omega, h3⟩
        · rintro ⟨pos, h2, h3⟩
          exact ⟨pos, by omega, by omega, h3⟩

end ScatterLoop

section ScatterClaims

variable {α : Type}

theorem lookup_enumFrom_swap (d : List Nat) (n g l : Nat)
    (h : ((d.enumFrom n).map (fun e => (e.2, e.1))).lookup g = some l) :
    n ≤ l ∧ d[l - n]? = some g := by
  induction d generalizing n with
  | nil => simp [List.enumFrom, List.lookup] at h
  | cons x xs ih =>
    simp only [List.enumFrom, List.map_cons, List.lookup] at h
    by_cases hx : g = x
    · subst hx
      simp only [beq_self_eq_true, Option.some.injEq] at h
      subst h
      simp
    · have hb : (g == x) = false := by simpa using hx
      rw [hb] at h
      obtain ⟨h1, h2⟩ := ih (n + 1) h
      refine ⟨by omega, ?_⟩
      obtain ⟨m, rfl⟩ : ∃ m, l = n + 1 + m := ⟨l - (n + 1), by omega⟩
      have e1 : n + 1 + m - (n + 1) = m := by omega
      have e2 : n + 1 + m - n = m + 1 := by omega
      rw [e1] at h2
      rw [e2, List.getElem?_cons_succ]
      exact h2

/-- In a map built from a DOF handle, the local id found for a global id is a
position of the handle that holds this global id. -/
theorem findLocalID_fillMap (d : List Nat) (g l : Nat)
    (h : findLocalID (fillMapGlobalToLocal d) g = some l) : d[l]? = some g := by
  unfold findLocalID fillMapGlobalToLocal List.enum at h
  simpa using (lookup_enumFrom_swap d 0 g l h).2

theorem mem_broadcastIDs (p : ScatterPlan α) (pos g : Nat) (hpos : pos < p.nbIDs)
    (hg : p.dofs[pos]? = some g) : g ∈ p.broadcastIDs := by
  unfold ScatterPlan.broadcastIDs
  apply List.getElem?_mem (n := pos)
  rw [List.getElem?_take]
  simp [hpos, hg]

/-- C2.  Scatter with `sendcounts[r] = sendIDcounts[r] * sendStride` for every
round and pairwise distinct global ids on the sender: after `scatterData` has
completed on a rank other than the root whose map was built from its DOF
handle, for every global id `g` that the map knows (`localID`) and that sits at
position `pos` of the DOF handle of the sender, `pos` below the sum of
`sendIDcounts`, the block `array[localID*recvStride .. +recvStride]` holds the
components of the transformer applied to
`senderArray[pos*sendStride .. +sendStride]`. -/
theorem scatterData_blocks [Inhabited α] (p : ScatterPlan α) (arr res : List α)
    (recvDofs : List Nat) (h : scatterData p arr = .ok res)
    (hcounts : ∀ (r sc ic : Nat), p.sendcounts[r]? = some sc → p.sendIDcounts[r]? = some ic →
      sc = ic * p.sendStride)
    (hdist : p.dofs.Nodup) (hmap : p.global2localIDs = fillMapGlobalToLocal recvDofs)
    (g pos localID : Nat) (hpos : pos < p.nbIDs) (hg : p.dofs[pos]? = some g)
    (hl : findLocalID p.global2localIDs g = some localID) :
    ∀ c, c < p.recvStride →
      res[localID * p.recvStride + c]? =
        some (p.transform ((p.dataToSend.drop (pos * p.sendStride)).take p.sendStride) c) := by
  intro c hc
  obtain ⟨W, hW, _, _, hstrong⟩ := scatterData_writes p arr res h
  have hchar := hstrong hcounts
  rw [applyWrites_getElem? hW]
  have hlast : lastWrite W (localID * p.recvStride + c) =
      some (p.transform ((p.dataToSend.drop (pos * p.sendStride)).take p.sendStride) c) := by
    apply lastWrite_of_forall
    · exact ⟨_, (hchar _).2 ⟨pos, hpos, g, localID, c, hg, hl, hc, rfl⟩, rfl⟩
    · intro w hw hwi
      obtain ⟨pos2, _, g2, l2, c2, hg2, hl2, hc2, rfl⟩ := (hchar w).1 hw
      simp only at hwi
      obtain ⟨rfl, rfl⟩ := stride_index_inj hc2 hc hwi
      rw [hmap] at hl hl2
      have e1 := findLocalID_fillMap _ _ _ hl
      have e2 := findLocalID_fillMap _ _ _ hl2
      rw [e1] at e2
      cases e2
      have hpp : pos2 = pos := by
        obtain ⟨hp1, hv1⟩ := List.getElem?_eq_some_iff.1 hg
        obtain ⟨hp2, hv2⟩ := List.getElem?_eq_some_iff.1 hg2
        exact (List.Nodup.getElem_inj_iff hdist).1 (hv2.trans hv1.symm)
      subst hpp
      rfl
  rw [hlast]

/-- Witness of C2: the scenario "scatter 1→3, stride 2" on the receiver that
owns the global ids 0 and 3; the global id 3 sits at position 3 of the handle of
the sender and has the local id 1. -/
theorem scatterData_blocks_witness :
    scatterData (scatterExample [0, 3]) [7, 7, 7, 7] = .ok [0, 1, 30, 31] ∧
    ([0, 1, 30, 31] : List Int)[1 * 2 + 0]? = some 30 ∧
    ([0, 1, 30, 31] : List Int)[1 * 2 + 1]? = some 31 :=
  ⟨by decide,
   scatterData_blocks (scatterExample [0, 3]) [7, 7, 7, 7] [0, 1, 30, 31] [0, 3] (by decide)
    (by
      intro r sc ic h1 h2
      have hr : r < 3 := (List.getElem?_eq_some_iff.1 h1).1
      interval_cases r <;> simp [scatterExample] at h1 h2 <;> subst h1 <;> subst h2 <;> rfl)
    (by decide) rfl 3 3 1 (by decide) (by decide) (by decide) 0 (by decide),
   scatterData_blocks (scatterExample [0, 3]) [7, 7, 7, 7] [0, 1, 30, 31] [0, 3] (by decide)
    (by
      intro r sc ic h1 h2
      have hr : r < 3 := (List.getElem?_eq_some_iff.1 h1).1
      interval_cases r <;> simp [scatterExample] at h1 h2 <;> subst h1 <;> subst h2 <;> rfl)
    (by decide) rfl 3 3 1 (by decide) (by decide) (by decide) 1 (by decide)⟩

/-- C6.  `scatterData` on a rank other than the root keeps the size of the
receiving array and changes it only inside the blocks
`[localID*recvStride, localID*recvStride + recvStride)` of the local ids that
the map gives for broadcast ids; a broadcast id that the map does not know
causes no write, so when the map knows none of the broadcast ids the array is
left as it was. -/
theorem scatterData_frame [Inhabited α] (p : ScatterPlan α) (arr res : List α)
    (h : scatterData p arr = .ok res) :
    res.length = arr.length ∧
    (∀ j, (∀ g ∈ p.broadcastIDs, ∀ l, findLocalID p.global2localIDs g = some l →
        ¬ (l * p.recvStride ≤ j ∧ j < l * p.recvStride + p.recvStride)) →
      res[j]? = arr[j]?) ∧
    ((∀ g ∈ p.broadcastIDs, findLocalID p.global2localIDs g = none) → res = arr) := by
  obtain ⟨W, hW, _, hweak, _⟩ := scatterData_writes p arr res h
  have hframe : ∀ j, (∀ g ∈ p.broadcastIDs, ∀ l, findLocalID p.global2localIDs g = some l →
      ¬ (l * p.recvStride ≤ j ∧ j < l * p.recvStride + p.recvStride)) →
      res[j]? = arr[j]? := by
    intro j hj
    rw [applyWrites_getElem? hW]
    have hnone : lastWrite W j = none := by
      rw [lastWrite_eq_none]
      intro w hw hwj
      obtain ⟨pos, hpos, g, l, c, hg, hl, hc, hi⟩ := hweak w hw
      apply hj g (mem_broadcastIDs p pos g hpos hg) l hl
      omega
    rw [hnone]
  refine ⟨applyWrites_length hW, hframe, ?_⟩
  intro hnone
  apply List.ext_getElem?
  intro j
  apply hframe
  intro g hg l hl
  rw [hnone g hg] at hl
  cases hl

/-- Witness of C6: a receiver whose map (global ids 8 and 9) knows none of the
broadcast ids 0..5; its array is left as it was. -/
theorem scatterData_frame_witness :
    scatterData (scatterExample [8, 9]) [7, 7, 7, 7] = .ok [7, 7, 7, 7] ∧
    ((∀ g ∈ (scatterExample [8, 9]).broadcastIDs,
        findLocalID (scatterExample [8, 9]).global2localIDs g = none) →
      ([7, 7, 7, 7] : List Int) = [7, 7, 7, 7]) :=
  ⟨by decide,
   (scatterData_frame (scatterExample [8, 9]) [7, 7, 7, 7] [7, 7, 7, 7] (by decide)).2.2⟩

/-- C7.  Idempotence of the receiver-side write of a plan: when the root
branch of `gatherData` has run on gathered buffers, running it again on its
own result with the same buffers gives the same array, also when ids repeat;
and when `scatterData` has run on a rank other than the root with a
transformer that is a function of its input vector, running it again on its
own result with the same sender data gives the same array. -/
theorem transfer_idempotent :
    (∀ (α : Type) (recvIDs : List Nat) (recvbuf arr res : List α) (tot : Nat),
      gatherRoot arr recvIDs recvbuf tot = .ok res →
      gatherRoot res recvIDs recvbuf tot = .ok res) ∧
    (∀ (α : Type) [Inhabited α] (p : ScatterPlan α) (arr res : List α),
      scatterData p arr = .ok res → scatterData p res = .ok res) := by
  constructor
  · intro α recvIDs recvbuf arr res tot h
    unfold gatherRoot at h ⊢
    split at h
    · rename_i hlen
      obtain ⟨h1, h2, h3⟩ := (gatherRootLoop_ok_iff _ _ _ _ _ _).1 h
      rw [if_pos (by rw [applyWrites_length h3]; exact hlen)]
      exact (gatherRootLoop_ok_iff _ _ _ _ _ _).2 ⟨h1, h2, applyWrites_idem h3⟩
    · cases h
  · intro α _ p arr res h
    obtain ⟨W, hW, hind, _, _⟩ := scatterData_writes p arr res h
    obtain ⟨r2, hr2, hw2⟩ := hind res (applyWrites_length hW)
    rw [applyWrites_idem hW] at hw2
    cases hw2
    exact hr2

/-- Witness of C7: a gather whose ids repeat, and the scatter of the scenario
"scatter 1→3, stride 2". -/
theorem transfer_idempotent_witness :
    gatherRoot [8, 0, 9] [2, 0, 2] [7, 8, (9 : Int)] 3 = .ok [8, 0, 9] ∧
    scatterData (scatterExample [0, 3]) [0, 1, 30, 31] = .ok [0, 1, 30, 31] :=
  ⟨transfer_idempotent.1 Int [2, 0, 2] [7, 8, 9] [0, 0, 0] [8, 0, 9] 3 (by decide),
   transfer_idempotent.2 Int (scatterExample [0, 3]) [7, 7, 7, 7] [0, 1, 30, 31] (by decide)⟩

end ScatterClaims

section GatherLayout

theorem take_succ_sum (l : List Nat) (r : Nat) (hr : r < l.length) :
    (l.take (r + 1)).sum = (l.take r).sum + l.getD r 0 := by
  induction l generalizing r with
  | nil => simp at hr
  | cons c cs ih =>
    cases r with
    | zero => simp
    | succ r =>
      simp only [List.length_cons] at hr
      simp only [List.take_succ_cons, List.sum_cons, List.getD_cons_succ]
      rw [ih r (by omega)]
      omega

theorem take_sum_mono (l : List Nat) (r1 r2 : Nat) (h : r1 ≤ r2) :
    (l.take r1).sum ≤ (l.take r2).sum := by
  induction l generalizing r1 r2 with
  | nil => simp
  | cons c cs ih =>
    cases r1 with
    | zero => simp
    | succ r1 =>
      cases r2 with
      | zero => omega
      | succ r2 =>
        simp only [List.take_succ_cons, List.sum_cons]
        have := ih r1 r2 (by omega)
        omega

theorem int_take_succ_sum (l : List Int) (r : Nat) (hr : r < l.length) :
    (l.take (r + 1)).sum = (l.take r).sum + l.getD r 0 := by
  induction l generalizing r with
  | nil => simp at hr
  | cons c cs ih =>
    cases r with
    | zero => simp
    | succ r =>
      simp only [List.length_cons] at hr
      simp only [List.take_succ_cons, List.sum_cons, List.getD_cons_succ]
      rw [ih r (by omega)]
      omega

theorem int_take_sum_mono (l : List Int) (hpos : ∀ c ∈ l, 0 ≤ c) (r1 r2 : Nat) (h : r1 ≤ r2) :
    (l.take r1).sum ≤ (l.take r2).sum := by
  induction l generalizing r1 r2 with
  | nil => simp
  | cons c cs ih =>
    have hc0 : 0 ≤ c := hpos c (by simp)
    have hcs : ∀ x ∈ cs, 0 ≤ x := fun x hx => hpos x (by simp [hx])
    cases r1 with
    | zero =>
      simp only [List.take_zero, List.sum_nil]
      exact List.sum_nonneg (fun x hx => hpos x (List.mem_of_mem_take hx))
    | succ r1 =>
      cases r2 with
      | zero => omega
      | succ r2 =>
        simp only [List.take_succ_cons, List.sum_cons]
        have := ih hcs r1 r2 (by omega)
        omega

theorem int_take_sum_le (l : List Int) (hpos : ∀ c ∈ l, 0 ≤ c) (r : Nat) :
    (l.take r).sum ≤ l.sum := by
  by_cases h : r ≤ l.length
  · have := int_take_sum_mono l hpos r l.length h
    simpa using this
  · rw [List.take_of_length_le (by omega)]

theorem int_sum_block_cover (l : List Int) (x : Int) (h0 : 0 ≤ x) (hx : x < l.sum) :
    ∃ r, r < l.length ∧ (l.take r).sum ≤ x ∧ x < (l.take r).sum + l.getD r 0 := by
  induction l generalizing x with
  | nil => simp at hx; omega
  | cons c cs ih =>
    by_cases hc : x < c
    · exact ⟨0, by simp, by simpa using h0, by simpa using hc⟩
    · simp only [List.sum_cons] at hx
      obtain ⟨r, h1, h2, h3⟩ := ih (x - c) (by omega) (by omega)
      refine ⟨r + 1, by simpa using h1, ?_, ?_⟩
      · simp only [List.take_succ_cons, List.sum_cons]
        omega
      · simp only [List.take_succ_cons, List.sum_cons, List.getD_cons_succ]
        omega

/-- C16, counterexample.  With `recvcounts = (2147483647, 1, 1)`, three
non-negative `int` counts, rank 2 has a positive count and the sum of the
counts before it is 2147483648, but the code stores `displs[2] = -2147483648`,
and the sum formed by `std::accumulate` leaves the range of `int`, for a
`CFuint` of 32 and of 64 bits. -/
theorem gather_layout_overflow_counterexample :
    gatherDispls 32 [2147483647, 1, 1] = .ok ([0, 2147483647, -2147483648], 2147483649) ∧
    gatherDispls 64 [2147483647, 1, 1] = .ok ([0, 2147483647, -2147483648], 2147483649) ∧
    (0 : Int) < ([2147483647, 1, 1] : List Int).getD 2 0 ∧
    ([0, 2147483647, -2147483648] : List Int)[2]? ≠
      some ((([2147483647, 1, 1] : List Int).take 2).sum) ∧
    accumulate [2147483647, 1, 1] 0 = .error .intOverflow ∧
    gatherLayout 32 [2147483647, 1, 1] = .error .intOverflow ∧
    gatherLayout 64 [2147483647, 1, 1] = .error .intOverflow := by
  decide

/-- C16, amended.  Gather receive layout: for every non-empty vector of
non-negative counts whose sum is at most `INT_MAX`, and a `CFuint` of at least
32 bits, the displacement code ends normally, `totRecvcount` is the sum of all
the counts (so the assertion against `std::accumulate` holds), for every rank
`r` with `recvcounts[r] > 0` the displacement `displs[r]` is the sum of the
counts of the ranks before `r`, and the blocks
`[displs[r], displs[r] + recvcounts[r])` of the ranks with positive count lie
inside `[0, totRecvcount)`, cover it, and are pairwise disjoint. -/
theorem gather_layout (w : Nat) (hw : 32 ≤ w) (recvcounts : List Int)
    (hne : recvcounts ≠ []) (hnonneg : ∀ c ∈ recvcounts, 0 ≤ c)
    (hsum : recvcounts.sum ≤ INT_MAX) :
    ∃ displs tot, gatherLayout w recvcounts = .ok (displs, tot) ∧
      (tot : Int) = recvcounts.sum ∧
      (∀ r, r < recvcounts.length → 0 < recvcounts.getD r 0 →
        displs[r]? = some ((recvcounts.take r).sum)) ∧
      (∀ r (x : Int), r < recvcounts.length → 0 < recvcounts.getD r 0 →
        displs.getD r 0 ≤ x → x < displs.getD r 0 + recvcounts.getD r 0 →
        0 ≤ x ∧ x < tot) ∧
      (∀ x : Int, 0 ≤ x → x < tot → ∃ r, r < recvcounts.length ∧ 0 < recvcounts.getD r 0 ∧
        displs.getD r 0 ≤ x ∧ x < displs.getD r 0 + recvcounts.getD r 0) ∧
      (∀ r1 r2 (x : Int), r1 < recvcounts.length → r2 < recvcounts.length →
        0 < recvcounts.getD r1 0 → 0 < recvcounts.getD r2 0 →
        displs.getD r1 0 ≤ x → x < displs.getD r1 0 + recvcounts.getD r1 0 →
        displs.getD r2 0 ≤ x → x < displs.getD r2 0 + recvcounts.getD r2 0 → r1 = r2) := by
  obtain ⟨displs, tot, hd, htot, hlen, hval⟩ :=
    gatherDispls_range w hw recvcounts hne hnonneg hsum
  have hpos : ∀ r, r < recvcounts.length → 0 < recvcounts.getD r 0 →
      displs.getD r 0 = (recvcounts.take r).sum := by
    intro r hr hp
    rw [List.getD_eq_getElem?_getD, hval r hr, if_pos hp]
    rfl
  have hs0 : 0 ≤ recvcounts.sum := List.sum_nonneg hnonneg
  have htake0 : ∀ r, 0 ≤ (recvcounts.take r).sum := fun r =>
    List.sum_nonneg (fun x hx => hnonneg x (List.mem_of_mem_take hx))
  refine ⟨displs, tot, ?_, htot, ?_, ?_, ?_, ?_⟩
  · unfold gatherLayout
    rw [hd]
    simp only
    rw [accumulate_spec recvcounts 0 hnonneg (le_refl 0) (by omega)]
    simp only
    have hconv : toCFuint w (0 + recvcounts.sum) = tot := by
      rw [toCFuint_of_range w hw _ (by omega) (by omega)]
      omega
    rw [if_pos hconv.symm]
  · intro r hr hp
    rw [hval r hr, if_pos hp]
  · intro r x hr hp h1 h2
    rw [hpos r hr hp] at h1 h2
    have := int_take_succ_sum recvcounts r hr
    have := int_take_sum_le recvcounts hnonneg (r + 1)
    have := htake0 r
    omega
  · intro x hx0 hx
    obtain ⟨r, hr, h1, h2⟩ := int_sum_block_cover recvcounts x hx0 (by omega)
    have hp : 0 < recvcounts.getD r 0 := by omega
    exact ⟨r, hr, hp, by rw [hpos r hr hp]; exact h1, by rw [hpos r hr hp]; exact h2⟩
  · intro r1 r2 x hr1 hr2 hp1 hp2 a1 a2 b1 b2
    rw [hpos r1 hr1 hp1] at a1 a2
    rw [hpos r2 hr2 hp2] at b1 b2
    have s1 := int_take_succ_sum recvcounts r1 hr1
    have s2 := int_take_succ_sum recvcounts r2 hr2
    rcases Nat.lt_trichotomy r1 r2 with h | h | h
    · have := int_take_sum_mono recvcounts hnonneg (r1 + 1) r2 (by omega)
      omega
    · exact h
    · have := int_take_sum_mono recvcounts hnonneg (r2 + 1) r1 (by omega)
      omega

/-- Witness of C16, amended: two senders with 6 and 3 values, an idle rank
between them, and the receiver root with count zero, with a `CFuint` of 64
bits. -/
theorem gather_layout_witness :
    ∃ displs tot, gatherLayout 64 [6, 0, 3, 0] = .ok (displs, tot) ∧
      (tot : Int) = ([6, 0, 3, 0] : List Int).sum ∧
      (∀ r, r < ([6, 0, 3, 0] : List Int).length → 0 < ([6, 0, 3, 0] : List Int).getD r 0 →
        displs[r]? = some ((([6, 0, 3, 0] : List Int).take r).sum)) ∧
      (∀ r (x : Int), r < ([6, 0, 3, 0] : List Int).length →
        0 < ([6, 0, 3, 0] : List Int).getD r 0 →
        displs.getD r 0 ≤ x → x < displs.getD r 0 + ([6, 0, 3, 0] : List Int).getD r 0 →
        0 ≤ x ∧ x < tot) ∧
      (∀ x : Int, 0 ≤ x → x < tot → ∃ r, r < ([6, 0, 3, 0] : List Int).length ∧
        0 < ([6, 0, 3, 0] : List Int).getD r 0 ∧
        displs.getD r 0 ≤ x ∧ x < displs.getD r 0 + ([6, 0, 3, 0] : List Int).getD r 0) ∧
      (∀ r1 r2 (x : Int), r1 < ([6, 0, 3, 0] : List Int).length →
        r2 < ([6, 0, 3, 0] : List Int).length →
        0 < ([6, 0, 3, 0] : List Int).getD r1 0 → 0 < ([6, 0, 3, 0] : List Int).getD r2 0 →
        displs.getD r1 0 ≤ x → x < displs.getD r1 0 + ([6, 0, 3, 0] : List Int).getD r1 0 →
        displs.getD r2 0 ≤ x → x < displs.getD r2 0 + ([6, 0, 3, 0] : List Int).getD r2 0 →
        r1 = r2) :=
  gather_layout 64 (by decide) [6, 0, 3, 0] (by decide) (by decide) (by decide)

end GatherLayout

section RootProcess

theorem foldl_max_int_ge (l : List Int) (a : Int) : a ≤ l.foldl max a := by
  induction l generalizing a with
  | nil => simp
  | cons x xs ih => exact le_trans (le_max_left a x) (ih (max a x))

theorem foldl_max_int_mem_le (l : List Int) (a x : Int) (hx : x ∈ l) : x ≤ l.foldl max a := by
  induction l generalizing a with
  | nil => simp at hx
  | cons y ys ih =>
    rcases List.mem_cons.1 hx with rfl | h
    · exact le_trans (le_max_right a x) (foldl_max_int_ge ys (max a x))
    · exact ih (max a y) h

theorem foldl_max_int_mem (l : List Int) (a : Int) : l.foldl max a = a ∨ l.foldl max a ∈ l := by
  induction l generalizing a with
  | nil => simp
  | cons y ys ih =>
    simp only [List.foldl_cons, List.mem_cons]
    rcases ih (max a y) with h | h
    · rw [h]
      rcases max_choice a y with h2 | h2
      · exact Or.inl h2
      · exact Or.inr (Or.inl h2)
    · exact Or.inr (Or.inr h)

theorem sendRoot_eq (group nsp : List Nat) (k : Nat) :
    (inNamespace group nsp k ∧ sendRoot group nsp k = (k : Int)) ∨
    (¬ inNamespace group nsp k ∧ sendRoot group nsp k = -1) := by
  unfold sendRoot inNamespace
  cases h : group[k]? with
  | none => simp
  | some w =>
    by_cases hw : w ∈ nsp
    · simp [hw]
    · simp [hw]

/-- The value reduced by `getRootProcess`: it is the `sendroot` of some rank of
the group, and no `sendroot` of a rank of the group exceeds it. -/
theorem reducedRoot_spec (group nsp : List Nat) (grank : Nat) (hg : grank < group.length) :
    (∃ j, j < group.length ∧
      (((List.range group.length).filter (fun k => k != grank)).map
        (sendRoot group nsp)).foldl max (sendRoot group nsp grank) = sendRoot group nsp j) ∧
    (∀ k, k < group.length → sendRoot group nsp k ≤
      (((List.range group.length).filter (fun k => k != grank)).map
        (sendRoot group nsp)).foldl max (sendRoot group nsp grank)) := by
  constructor
  · rcases foldl_max_int_mem (((List.range group.length).filter (fun k => k != grank)).map
      (sendRoot group nsp)) (sendRoot group nsp grank) with h | h
    · exact ⟨grank, hg, h⟩
    · obtain ⟨j, hj, hje⟩ := List.mem_map.1 h
      have := (List.mem_filter.1 hj).1
      exact ⟨j, List.mem_range.1 this, hje.symm⟩
  · intro k hk
    by_cases hkg : k = grank
    · subst hkg
      exact foldl_max_int_ge _ _
    · apply foldl_max_int_mem_le
      apply List.mem_map_of_mem
      rw [List.mem_filter]
      exact ⟨List.mem_range.2 hk, by simpa using hkg⟩

/-- C14.  On every rank of the group, `getRootProcess` returns the largest
rank in the group among the ranks that belong to the namespace; when exactly
one rank of the group belongs to the namespace it returns the rank of that
one; every value it returns is the rank of a member of the namespace, and the
assertion `root >= 0` fails, the reduced value being the sentinel -1, exactly
when no rank of the group belongs to the namespace. -/
theorem getRootProcess_spec (group nsp : List Nat) (grank : Nat)
    (hg : grank < group.length) :
    (∀ k, inNamespace group nsp k → (∀ j, inNamespace group nsp j → j ≤ k) →
      getRootProcess group nsp grank = .ok (k : Int)) ∧
    (∀ k, inNamespace group nsp k → (∀ j, inNamespace group nsp j → j = k) →
      getRootProcess group nsp grank = .ok (k : Int)) ∧
    (∀ root, getRootProcess group nsp grank = .ok root →
      ∃ k, inNamespace group nsp k ∧ root = (k : Int)) ∧
    (getRootProcess group nsp grank = .error (.assertion 512) ↔
      ∀ k, ¬ inNamespace group nsp k) ∧
    ((∀ k, ¬ inNamespace group nsp k) →
      (((List.range group.length).filter (fun k => k != grank)).map
        (sendRoot group nsp)).foldl max (sendRoot group nsp grank) = -1) := by
  obtain ⟨⟨j, hj, hje⟩, hmax⟩ := reducedRoot_spec group nsp grank hg
  have hlargest : ∀ k, inNamespace group nsp k → (∀ j, inNamespace group nsp j → j ≤ k) →
      getRootProcess group nsp grank = .ok (k : Int) := by
    intro k hk hle
    have hklt : k < group.length := by
      obtain ⟨w, hw, _⟩ := hk
      exact (List.getElem?_eq_some_iff.1 hw).1
    have hge := hmax k hklt
    have hkv : sendRoot group nsp k = (k : Int) := by
      rcases sendRoot_eq group nsp k with h | h
      · exact h.2
      · exact absurd hk h.1
    have hroot : (((List.range group.length).filter (fun k => k != grank)).map
        (sendRoot group nsp)).foldl max (sendRoot group nsp grank) = (k : Int) := by
      apply le_antisymm
      · rw [hje]
        rcases sendRoot_eq group nsp j with h | h
        · rw [h.2]
          exact_mod_cast hle j h.1
        · rw [h.2]
          omega
      · rw [← hkv]; exact hge
    unfold getRootProcess
    simp only [hroot]
    rw [if_pos (by omega)]
  have hnone : (∀ k, ¬ inNamespace group nsp k) →
      (((List.range group.length).filter (fun k => k != grank)).map
        (sendRoot group nsp)).foldl max (sendRoot group nsp grank) = -1 := by
    intro hno
    rw [hje]
    rcases sendRoot_eq group nsp j with h | h
    · exact absurd h.1 (hno j)
    · exact h.2
  have hret : ∀ root, getRootProcess group nsp grank = .ok root →
      ∃ k, inNamespace group nsp k ∧ root = (k : Int) := by
    intro root h
    unfold getRootProcess at h
    simp only at h
    split at h
    · rename_i hpos
      simp only [Except.ok.injEq] at h
      rw [hje] at hpos h
      rcases sendRoot_eq group nsp j with h2 | h2
      · exact ⟨j, h2.1, by rw [← h, h2.2]⟩
      · rw [h2.2] at hpos
        omega
    · cases h
  refine ⟨hlargest, ?_, hret, ?_, hnone⟩
  · intro k hk huniq
    exact hlargest k hk (fun j hj2 => by rw [huniq j hj2])
  · constructor
    · intro herr k hk
      have hklt : k < group.length := by
        obtain ⟨w, hw, _⟩ := hk
        exact (List.getElem?_eq_some_iff.1 hw).1
      have hge := hmax k hklt
      rcases sendRoot_eq group nsp k with h | h
      · rw [h.2] at hge
        unfold getRootProcess at herr
        simp only at herr
        rw [if_pos (by omega)] at herr
        cases herr
      · exact h.1 hk
    · intro hno
      unfold getRootProcess
      simp only [hnone hno]
      rfl

/-- Witness of C14: a group of the world ranks 3, 7, 8, 9 in which only the
world rank 8, at position 2, belongs to the namespace; seen from position 0. -/
theorem getRootProcess_spec_witness :
    getRootProcess [3, 7, 8, 9] [8, 12] 0 = .ok 2 ∧
    getRootProcess [3, 7, 8, 9] [1, 12] 0 = .error (.assertion 512) :=
  ⟨(getRootProcess_spec [3, 7, 8, 9] [8, 12] 0 (by decide)).2.1 2 ⟨8, by decide, by decide⟩
      (by
        rintro j ⟨w, hw, hm⟩
        have hj : j < 4 := (List.getElem?_eq_some_iff.1 hw).1
        interval_cases j <;> simp at hw <;> subst hw <;> simp at hm
        rfl),
   (getRootProcess_spec [3, 7, 8, 9] [1, 12] 0 (by decide)).2.2.2.1.2
      (by
        rintro k ⟨w, hw, hm⟩
        have hk : k < 4 := (List.getElem?_eq_some_iff.1 hw).1
        interval_cases k <;> simp at hw <;> subst hw <;> simp at hm)⟩

end RootProcess

section Configure

theorem resolveTransformer_ok (registered : List String) (hid : "Identity" ∈ registered)
    (name : String) :
    resolveTransformer registered name =
      .ok (if name ∈ registered then name else "Identity") := by
  unfold resolveTransformer getProvider
  by_cases h : name ∈ registered
  · simp [h]
  · simp [h, hid]

theorem resolveTransformers_ok (registered : List String) (hid : "Identity" ∈ registered)
    (names : List String) :
    resolveTransformers registered names =
      .ok (names.map (fun name => if name ∈ registered then name else "Identity")) := by
  induction names with
  | nil => rfl
  | cons name rest ih =>
    rw [resolveTransformers, resolveTransformer_ok registered hid, ih]
    rfl

theorem resolveTransformers_error (registered : List String) (names : List String) (e : Fault)
    (h : resolveTransformers registered names = .error e) : e = .noSuchValue := by
  induction names with
  | nil => cases h
  | cons name rest ih =>
    rw [resolveTransformers] at h
    cases h1 : resolveTransformer registered name with
    | error e1 =>
      rw [h1] at h
      simp only [Except.error.injEq] at h
      subst h
      unfold resolveTransformer getProvider at h1
      split at h1
      · cases h1
      · split at h1
        · cases h1
        · rename_i e2 he2
          split at he2
          · cases he2
          · simp only [Except.error.injEq] at he2 h1
            rw [← h1, ← he2]
    | ok r1 =>
      rw [h1] at h
      simp only at h
      cases h2 : resolveTransformers registered rest with
      | error e2 =>
        rw [h2] at h
        simp only [Except.error.injEq] at h
        subst h
        exact ih h2
      | ok r2 => rw [h2] at h; cases h

/-- C11.  The size check of `configure` fails exactly when the number of
`SocketsConnType` entries differs from the number of `SocketsSendRecv`
entries, so it never fails when the two lengths are equal; and with the
identity transformer registered in the factory, `configure` as a whole fails
exactly when the two lengths differ. -/
theorem configure_size_check
    (registered socketsSendRecv socketsConnType sendToRecvVecTransStr : List String) :
    (configure registered socketsSendRecv socketsConnType sendToRecvVecTransStr =
        .error (.assertion 105) ↔ socketsConnType.length ≠ socketsSendRecv.length) ∧
    ("Identity" ∈ registered →
      ((∃ e, configure registered socketsSendRecv socketsConnType sendToRecvVecTransStr =
          .error e) ↔ socketsConnType.length ≠ socketsSendRecv.length)) := by
  constructor
  · constructor
    · intro h
      intro hne
      replace hne : ¬ socketsConnType.length ≠ socketsSendRecv.length := not_not.2 hne
      unfold configure at h
      rw [if_neg hne] at h
      have := resolveTransformers_error _ _ _ h
      cases this
    · intro hne
      unfold configure
      rw [if_pos hne]
  · intro hid
    constructor
    · rintro ⟨e, h⟩
      intro hne
      replace hne : ¬ socketsConnType.length ≠ socketsSendRecv.length := not_not.2 hne
      unfold configure configureTransformers at h
      rw [if_neg hne, resolveTransformers_ok registered hid] at h
      cases h
    · intro hne
      exact ⟨_, by unfold configure; rw [if_pos hne]⟩

/-- Witness of C11: two transfers and one connectivity type; and two of
each. -/
theorem configure_size_check_witness :
    (∃ e, configure ["Identity", "Euler2DConsToPrim"] ["a_x>b_y", "a_u>b_v"] ["State"] [] =
      .error e) ∧
    configure ["Identity", "Euler2DConsToPrim"] ["a_x>b_y", "a_u>b_v"] ["State", "Node"] [] =
      .ok ["Identity", "Identity"] :=
  ⟨((configure_size_check ["Identity", "Euler2DConsToPrim"] ["a_x>b_y", "a_u>b_v"] ["State"]
      []).2 (by decide)).2 (by decide),
   by decide⟩

/-- C12.  With the identity transformer registered in the factory, the
resolution of the transformers in `configure` raises no error: a configured
name that is registered is kept and the others are replaced by `"Identity"`,
whose transformer is then created; a configuration with an unregistered
name, such as `"Bogus"`, gives the same result as the configuration with
`"Identity"` in its place; and an empty list of names resolves to one
`"Identity"` per entry of `SocketsSendRecv`. -/
theorem configure_transformer_resolution (registered : List String)
    (hid : "Identity" ∈ registered) (socketsSendRecv socketsConnType : List String) :
    (∀ names : List String, names ≠ [] →
      configureTransformers registered socketsSendRecv.length names =
        .ok (names.map (fun name => if name ∈ registered then name else "Identity"))) ∧
    (∀ (names : List String) (i : Nat) (name : String), names[i]? = some name →
      name ∉ registered →
      configure registered socketsSendRecv socketsConnType names =
        configure registered socketsSendRecv socketsConnType (names.set i "Identity")) ∧
    configureTransformers registered socketsSendRecv.length [] =
      .ok (List.replicate socketsSendRecv.length "Identity") := by
  have hne : ∀ names : List String, names ≠ [] →
      configureTransformers registered socketsSendRecv.length names =
        .ok (names.map (fun name => if name ∈ registered then name else "Identity")) := by
    intro names hnames
    unfold configureTransformers
    rw [if_neg (by simpa using hnames), resolveTransformers_ok registered hid]
  refine ⟨hne, ?_, ?_⟩
  · intro names i name hi hname
    have hlt : i < names.length := (List.getElem?_eq_some_iff.1 hi).1
    have h1 : names ≠ [] := by
      intro h; rw [h] at hlt; simp at hlt
    have h2 : names.set i "Identity" ≠ [] := by
      intro h
      have := congrArg List.length h
      rw [List.length_set, List.length_nil] at this
      omega
    unfold configure
    split
    · rfl
    · rw [hne names h1, hne _ h2]
      congr 1
      apply List.ext_getElem?
      intro j
      rw [List.getElem?_map, List.getElem?_map, List.getElem?_set]
      by_cases hj : i = j
      · subst hj
        simp [hi, hname, hid, hlt]
      · simp [hj]
  · unfold configureTransformers
    rw [if_pos (show ([] : List String).length = 0 from rfl),
      resolveTransformers_ok registered hid]
    simp [hid]

/-- Witness of C12: the name `"Bogus"` is not registered. -/
theorem configure_transformer_resolution_witness :
    configure ["Identity", "Euler2DConsToPrim"] ["a_x>b_y", "a_u>b_v"] ["State", "Node"]
        ["Euler2DConsToPrim", "Bogus"] =
      configure ["Identity", "Euler2DConsToPrim"] ["a_x>b_y", "a_u>b_v"] ["State", "Node"]
        (["Euler2DConsToPrim", "Bogus"].set 1 "Identity") ∧
    configure ["Identity", "Euler2DConsToPrim"] ["a_x>b_y", "a_u>b_v"] ["State", "Node"]
        ["Euler2DConsToPrim", "Bogus"] = .ok ["Euler2DConsToPrim", "Identity"] :=
  ⟨(configure_transformer_resolution ["Identity", "Euler2DConsToPrim"] (by decide)
      ["a_x>b_y", "a_u>b_v"] ["State", "Node"]).2.1 ["Euler2DConsToPrim", "Bogus"] 1 "Bogus"
      (by decide) (by decide),
   by decide⟩

end Configure

section MapBuild

theorem scatterMapRuns_nonempty (plans : List RecvSide) (calls : List Nat)
    (m : List (Nat × Nat)) (hm : m ≠ []) :
    scatterMapRuns plans calls m =
      calls.filterMap (fun j => (plans[j]?).map (fun _ => (⟨j, 0, m⟩ : MapRun))) := by
  have hbuild : ∀ pl : RecvSide, scatterMapBuild pl m = (m, 0) := by
    intro pl
    unfold scatterMapBuild
    have : ¬ m.length = 0 := by simpa using hm
    simp [this]
  induction calls with
  | nil => rfl
  | cons i calls ih =>
    rw [scatterMapRuns]
    cases hp : plans[i]? with
    | none => simp [hp, ih]
    | some pl => simp [hp, hbuild pl, ih]

theorem scatterMapRuns_idle (plans : List RecvSide) (pre rest : List Nat)
    (hpre : ∀ j ∈ pre, ∀ q, plans[j]? = some q → q.inRecv = false) :
    scatterMapRuns plans (pre ++ rest) [] =
      pre.filterMap (fun j => (plans[j]?).map (fun _ => (⟨j, 0, []⟩ : MapRun))) ++
        scatterMapRuns plans rest [] := by
  induction pre with
  | nil => rfl
  | cons i pre ih =>
    have ih2 := ih (fun j hj => hpre j (List.mem_cons_of_mem _ hj))
    rw [List.cons_append, scatterMapRuns]
    cases hp : plans[i]? with
    | none => simp [hp, ih2]
    | some pl =>
      have hin := hpre i (List.mem_cons_self _ _) pl hp
      have hb : scatterMapBuild pl [] = ([], 0) := by
        unfold scatterMapBuild
        simp [hin]
      simp [hp, hb, ih2]

theorem scatterMapBuild_first (pl : RecvSide) (hrecv : pl.inRecv = true)
    (hconn : pl.connType = "State" ∨ pl.connType = "Node") :
    scatterMapBuild pl [] = (fillMapGlobalToLocal pl.dofs, 1) := by
  unfold scatterMapBuild
  rcases hconn with h | h
  · simp [hrecv, h]
  · simp [hrecv, h]

/-- C13, counterexample.  Two scatter plans on a rank that receives in both,
with the handles `(10, 11)` and `(20, 21, 22)`, executed twice: the map is
built once, during the first scatter of plan 0; `fillMapGlobalToLocal` is never
called for plan 1, and every scatter of plan 1 runs with the map of the handle
of plan 0. -/
theorem scatterMap_per_plan_counterexample :
    buildCount (scatterMapRuns [⟨true, "State", [10, 11]⟩, ⟨true, "State", [20, 21, 22]⟩]
      [0, 1, 0, 1] []) 1 = 0 ∧
    scatterMapRuns [⟨true, "State", [10, 11]⟩, ⟨true, "State", [20, 21, 22]⟩] [0, 1, 0, 1] [] =
      [⟨0, 1, fillMapGlobalToLocal [10, 11]⟩, ⟨1, 0, fillMapGlobalToLocal [10, 11]⟩,
       ⟨0, 0, fillMapGlobalToLocal [10, 11]⟩, ⟨1, 0, fillMapGlobalToLocal [10, 11]⟩] ∧
    fillMapGlobalToLocal [10, 11] ≠ fillMapGlobalToLocal [20, 21, 22] := by
  decide

/-- C13, amended.  On one rank, over any sequence of calls of `scatterData`
that starts with the map empty, in which the receiving handles are not empty
and the connectivity types are `"State"` or `"Node"`: `fillMapGlobalToLocal`
runs exactly once, in the first call in which the rank belongs to the
receiving namespace, for the DOF handle of the plan of that call; it runs in no
other call, and every later call, of this plan or of another one, runs with
this same map.  Hence, for every plan, the build runs at most once: once for the
plan of that first call, never for any other plan. -/
theorem scatterMap_built_once (plans : List RecvSide)
    (hvalid : ∀ pl ∈ plans, pl.inRecv = true →
      (pl.connType = "State" ∨ pl.connType = "Node") ∧ pl.dofs ≠ [])
    (pre post : List Nat) (i : Nat) (pl : RecvSide)
    (hpre : ∀ j ∈ pre, ∀ q, plans[j]? = some q → q.inRecv = false)
    (hi : plans[i]? = some pl) (hrecv : pl.inRecv = true) :
    scatterMapRuns plans (pre ++ i :: post) [] =
        pre.filterMap (fun j => (plans[j]?).map (fun _ => (⟨j, 0, []⟩ : MapRun))) ++
          (⟨i, 1, fillMapGlobalToLocal pl.dofs⟩ : MapRun) ::
            post.filterMap (fun j => (plans[j]?).map
              (fun _ => (⟨j, 0, fillMapGlobalToLocal pl.dofs⟩ : MapRun))) ∧
    buildCount (scatterMapRuns plans (pre ++ i :: post) []) i = 1 ∧
    ∀ k, k ≠ i → buildCount (scatterMapRuns plans (pre ++ i :: post) []) k = 0 := by
  obtain ⟨hconn, hdofs⟩ := hvalid pl (List.getElem?_mem hi) hrecv
  have hne : fillMapGlobalToLocal pl.dofs ≠ [] := by
    intro h
    have := congrArg List.length h
    simp [fillMapGlobalToLocal] at this
    exact hdofs this
  have hlog : scatterMapRuns plans (pre ++ i :: post) [] =
      pre.filterMap (fun j => (plans[j]?).map (fun _ => (⟨j, 0, []⟩ : MapRun))) ++
        (⟨i, 1, fillMapGlobalToLocal pl.dofs⟩ : MapRun) ::
          post.filterMap (fun j => (plans[j]?).map
            (fun _ => (⟨j, 0, fillMapGlobalToLocal pl.dofs⟩ : MapRun))) := by
    rw [scatterMapRuns_idle plans pre (i :: post) hpre, scatterMapRuns]
    simp only [hi, scatterMapBuild_first pl hrecv hconn]
    rw [scatterMapRuns_nonempty plans post _ hne]
  have hzero : ∀ (m : List (Nat × Nat)) (l : List Nat) (k : Nat),
      buildCount (l.filterMap (fun j => (plans[j]?).map (fun _ => (⟨j, 0, m⟩ : MapRun)))) k
        = 0 := by
    intro m l k
    unfold buildCount
    apply List.sum_eq_zero
    intro x hx
    obtain ⟨run, hrun, rfl⟩ := List.mem_map.1 hx
    have hmem := (List.mem_filter.1 hrun).1
    obtain ⟨j, _, hj⟩ := List.mem_filterMap.1 hmem
    cases hq : plans[j]? with
    | none => simp [hq] at hj
    | some q =>
      simp only [hq, Option.map_some', Option.some.injEq] at hj
      rw [← hj]
  have hsplit : ∀ (l1 l2 : List MapRun) (k : Nat),
      buildCount (l1 ++ l2) k = buildCount l1 k + buildCount l2 k := by
    intro l1 l2 k
    unfold buildCount
    rw [List.filter_append, List.map_append, List.sum_append]
  refine ⟨hlog, ?_, ?_⟩
  · rw [hlog, hsplit, hzero]
    have : buildCount ((⟨i, 1, fillMapGlobalToLocal pl.dofs⟩ : MapRun) ::
        post.filterMap (fun j => (plans[j]?).map
          (fun _ => (⟨j, 0, fillMapGlobalToLocal pl.dofs⟩ : MapRun)))) i =
        1 + buildCount (post.filterMap (fun j => (plans[j]?).map
          (fun _ => (⟨j, 0, fillMapGlobalToLocal pl.dofs⟩ : MapRun)))) i := by
      unfold buildCount
      simp
    rw [this, hzero]
  · intro k hk
    rw [hlog, hsplit, hzero]
    have : buildCount ((⟨i, 1, fillMapGlobalToLocal pl.dofs⟩ : MapRun) ::
        post.filterMap (fun j => (plans[j]?).map
          (fun _ => (⟨j, 0, fillMapGlobalToLocal pl.dofs⟩ : MapRun)))) k =
        buildCount (post.filterMap (fun j => (plans[j]?).map
          (fun _ => (⟨j, 0, fillMapGlobalToLocal pl.dofs⟩ : MapRun)))) k := by
      unfold buildCount
      have hik : (i == k) = false := by simpa using fun h => hk h.symm
      simp [List.filter_cons, hik]
    rw [this, hzero]

/-- Witness of C13, amended: the rank sends in plan 0 and receives in the plans
1 and 2; two executions of the three plans. -/
theorem scatterMap_built_once_witness :
    scatterMapRuns [⟨false, "State", [1, 2]⟩, ⟨true, "State", [10, 11]⟩,
        ⟨true, "Node", [20, 21, 22]⟩] ([0] ++ 1 :: [2, 0, 1, 2]) [] =
      [⟨0, 0, []⟩, ⟨1, 1, fillMapGlobalToLocal [10, 11]⟩, ⟨2, 0, fillMapGlobalToLocal [10, 11]⟩,
       ⟨0, 0, fillMapGlobalToLocal [10, 11]⟩, ⟨1, 0, fillMapGlobalToLocal [10, 11]⟩,
       ⟨2, 0, fillMapGlobalToLocal [10, 11]⟩] ∧
    buildCount (scatterMapRuns [⟨false, "State", [1, 2]⟩, ⟨true, "State", [10, 11]⟩,
        ⟨true, "Node", [20, 21, 22]⟩] ([0] ++ 1 :: [2, 0, 1, 2]) []) 1 = 1 :=
  ⟨by decide,
   (scatterMap_built_once [⟨false, "State", [1, 2]⟩, ⟨true, "State", [10, 11]⟩,
      ⟨true, "Node", [20, 21, 22]⟩] (by decide) [0] [2, 0, 1, 2] 1 ⟨true, "State", [10, 11]⟩
      (by decide) (by decide) rfl).2.1⟩

end MapBuild

section ScatterRoot

variable {α : Type}

theorem scatterFillData_cases (data : List α) (n s counter : Nat) (buf : List α)
    (hs : s + n ≤ buf.length) :
    (∃ buf2, scatterFillData data n s counter buf = .ok (counter + n, buf2) ∧
      buf2.length = buf.length) ∨
    (scatterFillData data n s counter buf = .error .outOfBounds ∧
      data.length < counter + n) := by
  induction n generalizing s counter buf with
  | zero => exact Or.inl ⟨buf, rfl, rfl⟩
  | succ n ih =>
    rw [scatterFillData]
    have hlt : s < buf.length := by omega
    simp only [hlt, if_true]
    cases hv : data[counter]? with
    | none =>
      have := List.getElem?_eq_none_iff.1 hv
      exact Or.inr ⟨rfl, by omega⟩
    | some v =>
      simp only
      rcases ih (s + 1) (counter + 1) (buf.set s v) (by simp; omega) with ⟨b2, h1, h2⟩ | ⟨h1, h2⟩
      · refine Or.inl ⟨b2, ?_, by simpa using h2⟩
        rw [h1]
        congr 2
        omega
      · exact Or.inr ⟨h1, by omega⟩

theorem scatterFillData_assert (data : List α) (n s counter : Nat) (buf : List α)
    (h1 : s ≤ buf.length) (h2 : buf.length < s + n)
    (h3 : counter + (buf.length - s) ≤ data.length) :
    scatterFillData data n s counter buf = .error (.assertion 420) := by
  induction n generalizing s counter buf with
  | zero => omega
  | succ n ih =>
    rw [scatterFillData]
    by_cases hlt : s < buf.length
    · simp only [hlt, if_true]
      cases hv : data[counter]? with
      | none =>
        have := List.getElem?_eq_none_iff.1 hv
        omega
      | some v =>
        simp only
        apply ih
        · simp; omega
        · simp; omega
        · simp; omega
    · simp [hlt]

theorem scatterFillIDs_total (dofs : List Nat) (n s countID : Nat) (buf : List Nat)
    (hs : s + n ≤ buf.length) (hd : countID + n ≤ dofs.length) :
    ∃ buf2, scatterFillIDs dofs n s countID buf = .ok (countID + n, buf2) ∧
      buf2.length = buf.length := by
  induction n generalizing s countID buf with
  | zero => exact ⟨buf, rfl, rfl⟩
  | succ n ih =>
    rw [scatterFillIDs]
    have hlt : countID < dofs.length := by omega
    rw [List.getElem?_eq_getElem hlt]
    simp only
    have hs2 : s < buf.length := by omega
    simp only [hs2, if_true]
    obtain ⟨b2, h1, h2⟩ := ih (s + 1) (countID + 1) (buf.set s dofs[countID]) (by simp; omega)
      (by omega)
    refine ⟨b2, ?_, by simpa using h2⟩
    rw [h1]
    congr 2
    omega

theorem scatterStride_pos {sendcounts sendIDcounts : List Nat} {r sc ic : Nat}
    (h1 : sendcounts[r]? = some sc) (h2 : sendIDcounts[r]? = some ic) (hic : 0 < ic)
    (hle : ic ≤ sc) : scatterStride sendcounts sendIDcounts r = .ok (sc, ic, sc / ic) := by
  unfold scatterStride
  rw [h1, h2]
  simp only
  rw [if_neg (by omega), if_pos (show sc / ic ≥ 1 from Nat.div_pos hle hic)]

/-- One round of the root whose counts fit: it ends normally with the cursors
advanced by the two counts, unless the read of `dataToSend` leaves the
array. -/
theorem scatterRootStep_cases (p : ScatterPlan α) (r : Nat) (st : ScatterState α)
    (sc ic : Nat) (h1 : p.sendcounts[r]? = some sc) (h2 : p.sendIDcounts[r]? = some ic)
    (hic : 0 < ic) (hle : ic ≤ sc) (hb : sc ≤ st.sendbuf.length)
    (hib : ic ≤ st.sendIDs.length) (hd : st.countID + ic ≤ p.dofs.length) :
    (∃ st1, scatterRootStep p r st = .ok st1 ∧ st1.counter = st.counter + sc ∧
      st1.countID = st.countID + ic ∧ st1.sendbuf.length = st.sendbuf.length ∧
      st1.sendIDs.length = st.sendIDs.length) ∨
    (scatterRootStep p r st = .error .outOfBounds ∧
      p.dataToSend.length < st.counter + sc) := by
  unfold scatterRootStep
  rw [scatterStride_pos h1 h2 hic hle]
  simp only
  rcases scatterFillData_cases p.dataToSend sc 0 st.counter st.sendbuf (by omega) with
    ⟨b2, hf, hl⟩ | ⟨hf, hl⟩
  · rw [hf]
    simp only
    obtain ⟨i2, hf2, hl2⟩ := scatterFillIDs_total p.dofs ic 0 st.countID st.sendIDs (by omega) hd
    rw [hf2]
    exact Or.inl ⟨_, rfl, rfl, rfl, hl, hl2⟩
  · rw [hf]
    exact Or.inr ⟨rfl, hl⟩

theorem getElem?_getD_of_lt (l : List Nat) (r : Nat) (h : r < l.length) :
    l[r]? = some (l.getD r 0) := by
  rw [List.getD_eq_getElem?_getD, List.getElem?_eq_getElem h]
  rfl

theorem scatterRootLoop_append (p : ScatterPlan α) (l1 l2 : List Nat) (st : ScatterState α) :
    scatterRootLoop p (l1 ++ l2) st =
      match scatterRootLoop p l1 st with
      | .error e => .error e
      | .ok st1 => scatterRootLoop p l2 st1 := by
  induction l1 generalizing st with
  | nil => rfl
  | cons r rs ih =>
    rw [List.cons_append, scatterRootLoop, scatterRootLoop]
    cases scatterRootStep p r st with
    | error e => rfl
    | ok st1 => exact ih st1

/-- The rounds `a, ..., a+k-1` of the root, all with counts that fit: they end
normally with the cursors at the sums of the counts, unless a read of
`dataToSend` leaves the array. -/
theorem scatterRootLoop_cases (p : ScatterPlan α) (k a : Nat) (st : ScatterState α)
    (hlen : p.sendIDcounts.length = p.sendcounts.length) (hinv : RootInv p a st)
    (hak : a + k ≤ p.sendcounts.length) (hok : ∀ q, a ≤ q → q < a + k → p.roundOK q)
    (hd : (p.sendIDcounts.take (a + k)).sum ≤ p.dofs.length) :
    (∃ st2, scatterRootLoop p (List.range' a k) st = .ok st2 ∧ RootInv p (a + k) st2) ∨
    (scatterRootLoop p (List.range' a k) st = .error .outOfBounds ∧
      p.dataToSend.length < (p.sendcounts.take (a + k)).sum) := by
  induction k generalizing a st with
  | zero => exact Or.inl ⟨st, rfl, hinv⟩
  | succ k ih =>
    rw [List.range'_succ, scatterRootLoop]
    obtain ⟨h1, h2, h3, h4⟩ := hinv
    obtain ⟨o1, o2, o3, o4⟩ := hok a le_rfl (by omega)
    have ha : a < p.sendcounts.length := by omega
    have t1 := take_succ_sum p.sendcounts a ha
    have t2 := take_succ_sum p.sendIDcounts a (by omega)
    have m1 := take_sum_mono p.sendcounts (a + 1) (a + (k + 1)) (by omega)
    have m2 := take_sum_mono p.sendIDcounts (a + 1) (a + (k + 1)) (by omega)
    rcases scatterRootStep_cases p a st _ _ (getElem?_getD_of_lt _ a ha)
      (getElem?_getD_of_lt _ a (by omega)) o1 o2 (by omega) (by omega) (by omega) with
      ⟨st1, hs, c1, c2, c3, c4⟩ | ⟨hs, hshort⟩
    · rw [hs]
      simp only
      have hstep := ih (a + 1) st1 ⟨by omega, by omega, by omega, by omega⟩ (by omega)
        (fun q hq1 hq2 => hok q (by omega) (by omega))
        (by rw [show a + 1 + k = a + (k + 1) by omega]; exact hd)
      rw [show a + 1 + k = a + (k + 1) by omega] at hstep
      exact hstep
    · rw [hs]
      exact Or.inr ⟨rfl, by omega⟩

theorem scatterInit_ok [Inhabited α] (p : ScatterPlan α) (hn : 1 ≤ p.sendcounts.length)
    (hlen : p.sendIDcounts.length = p.sendcounts.length)
    (hlast : p.roundOK (p.sendcounts.length - 1)) :
    ∃ st0, scatterInit p = .ok st0 ∧ RootInv p 0 st0 := by
  obtain ⟨o1, o2, _, _⟩ := hlast
  unfold scatterInit
  simp only
  rw [if_neg (by omega), getElem?_getD_of_lt p.sendcounts _ (by omega),
    getElem?_getD_of_lt p.sendIDcounts _ (by omega)]
  simp only
  rw [if_neg (by omega), if_neg (by omega)]
  exact ⟨_, rfl, by simp [RootInv]⟩

theorem range_split (n r : Nat) (hr : r < n) :
    List.range n = List.range' 0 r ++ r :: List.range' (r + 1) (n - r - 1) := by
  rw [List.range_eq_range', ← List.range'_succ]
  have := List.range'_append_1 0 r (n - r - 1 + 1)
  rw [Nat.zero_add] at this
  rw [this]
  congr 1
  omega

/-- The rounds before `r` of the root, all with counts that fit and with
enough data: the state at the start of round `r`. -/
theorem scatterRoot_before [Inhabited α] (p : ScatterPlan α) (hn : 1 ≤ p.sendcounts.length)
    (hlen : p.sendIDcounts.length = p.sendcounts.length) (r : Nat)
    (hr : r < p.sendcounts.length) (hlast : p.roundOK (p.sendcounts.length - 1))
    (hok : ∀ q, q < r → p.roundOK q) (hd : (p.sendIDcounts.take r).sum ≤ p.dofs.length)
    (hdata : (p.sendcounts.take r).sum ≤ p.dataToSend.length) :
    ∃ st, RootInv p r st ∧
      scatterRoot p = match scatterRootStep p r st with
        | .error e => .error e
        | .ok st1 => scatterRootLoop p (List.range' (r + 1) (p.sendcounts.length - r - 1)) st1 := by
  obtain ⟨st0, hinit, hinv0⟩ := scatterInit_ok p hn hlen hlast
  have hpre := scatterRootLoop_cases p r 0 st0 hlen hinv0 (by omega)
    (fun q _ hq => hok q (by omega)) (by simpa using hd)
  simp only [Nat.zero_add] at hpre
  rcases hpre with ⟨st, hloop, hinv⟩ | ⟨_, hshort⟩
  · refine ⟨st, hinv, ?_⟩
    unfold scatterRoot
    rw [hinit]
    simp only
    rw [range_split _ r hr, scatterRootLoop_append, hloop]
    simp only
    rw [scatterRootLoop]
  · omega

/-- C15, counterexample.  With one rank and `sendIDcounts = (0)` the assertion
`sendIDs.size() > 0` of line 406 fails before the loop, so no stride is
computed and nothing is divided by zero.  With `sendcounts = (1, 9, 4)` and
`sendIDcounts = (2, 2, 2)` the count of rank 1 exceeds that of the last rank,
but the run stops in round 0 at the assertion `stride >= 1` of line 414, not
at `s < sendbuf.size()`. -/
theorem scatterRoot_faults_counterexample :
    (∃ r, r < 1 ∧ [0].getD r 0 = 0) ∧
    scatterRoot (rootExample [4] [0]) = .error (.assertion 406) ∧
    scatterRoot (rootExample [4] [0]) ≠ .error .divisionByZero ∧
    (∃ r, r < 3 ∧ [1, 9, 4].getD r 0 > [1, 9, 4].getD 2 0) ∧
    scatterRoot (rootExample [1, 9, 4] [2, 2, 2]) = .error (.assertion 414) ∧
    scatterRoot (rootExample [1, 9, 4] [2, 2, 2]) ≠ .error (.assertion 420) := by
  have h1 : scatterRoot (rootExample [4] [0]) = .error (.assertion 406) := rfl
  have h2 : scatterRoot (rootExample [1, 9, 4] [2, 2, 2]) = .error (.assertion 414) := rfl
  refine ⟨⟨0, by decide, rfl⟩, h1, ?_, ⟨1, by decide, by decide⟩, h2, ?_⟩
  · rw [h1]
    intro h
    cases h
  · rw [h2]
    intro h
    cases h

/-- C15, amended.  The scratch buffers of `scatterData` are sized from the
counts of the last rank.  (1) When for every rank `r` `sendIDcounts[r] > 0`,
`sendcounts[r] >= sendIDcounts[r]`, `sendcounts[r] <= sendcounts[nbRanks-1]`,
`sendIDcounts[r] <= sendIDcounts[nbRanks-1]`, and the sum of `sendIDcounts` does
not exceed the size of the DOF handle of the sender, the run of the root never
divides by zero and no assertion fails: the only access that can go wrong is
the read of `dataToSend`, which no assertion guards, and when the sum of
`sendcounts` does not exceed the size of that array the run ends normally.
(2) When the last rank and the ranks before `r` meet these conditions with
enough DOFs and data, and rank `r` has a positive number of ids, at least as
many values as ids, and more values than the last rank, the assertion
`s < sendbuf.size()` fails.  (3) Under the same conditions on the last rank and
on the ranks before `r`, `sendIDcounts[r] = 0` makes the stride computation
divide by zero.  (4) When the last rank has values but `sendIDcounts[nbRanks-1]`
is 0, the assertion `sendIDs.size() > 0` fails before the loop. -/
theorem scatterRoot_safety [Inhabited α] (p : ScatterPlan α) (hn : 1 ≤ p.sendcounts.length)
    (hlen : p.sendIDcounts.length = p.sendcounts.length) :
    ((∀ r, r < p.sendcounts.length → p.roundOK r) →
      p.sendIDcounts.sum ≤ p.dofs.length →
      (∀ e, scatterRoot p = .error e → e = .outOfBounds) ∧
      (p.sendcounts.sum ≤ p.dataToSend.length → ∃ st, scatterRoot p = .ok st)) ∧
    (∀ r, r < p.sendcounts.length → p.roundOK (p.sendcounts.length - 1) →
      (∀ q, q < r → p.roundOK q) →
      (p.sendIDcounts.take r).sum ≤ p.dofs.length →
      0 < p.sendIDcounts.getD r 0 → p.sendIDcounts.getD r 0 ≤ p.sendcounts.getD r 0 →
      p.sendcounts.getD (p.sendcounts.length - 1) 0 < p.sendcounts.getD r 0 →
      (p.sendcounts.take r).sum + p.sendcounts.getD (p.sendcounts.length - 1) 0 ≤
        p.dataToSend.length →
      scatterRoot p = .error (.assertion 420)) ∧
    (∀ r, r < p.sendcounts.length → p.roundOK (p.sendcounts.length - 1) →
      (∀ q, q < r → p.roundOK q) →
      (p.sendIDcounts.take r).sum ≤ p.dofs.length →
      (p.sendcounts.take r).sum ≤ p.dataToSend.length →
      p.sendIDcounts.getD r 0 = 0 →
      scatterRoot p = .error .divisionByZero) ∧
    (0 < p.sendcounts.getD (p.sendcounts.length - 1) 0 →
      p.sendIDcounts.getD (p.sendcounts.length - 1) 0 = 0 →
      scatterRoot p = .error (.assertion 406)) := by
  refine ⟨?_, ?_, ?_, ?_⟩
  · intro hok hd
    obtain ⟨st0, hinit, hinv0⟩ := scatterInit_ok p hn hlen (hok _ (by omega))
    have hall := scatterRootLoop_cases p p.sendcounts.length 0 st0 hlen hinv0 (by omega)
      (fun q _ hq => hok q (by omega))
      (by rw [Nat.zero_add, ← hlen, List.take_length]; exact hd)
    simp only [Nat.zero_add, List.take_length] at hall
    have hroot : scatterRoot p = scatterRootLoop p (List.range' 0 p.sendcounts.length) st0 := by
      unfold scatterRoot
      rw [hinit, List.range_eq_range']
    rw [hroot]
    rcases hall with ⟨st2, hloop, _⟩ | ⟨hloop, hshort⟩
    · rw [hloop]
      exact ⟨fun e he => (by cases he), fun _ => ⟨st2, rfl⟩⟩
    · rw [hloop]
      refine ⟨fun e he => ?_, fun hdata => by omega⟩
      cases he
      rfl
  · intro r hr hlast hok hd hic hle hbig hdata
    obtain ⟨st, ⟨i1, i2, i3, i4⟩, hrun⟩ := scatterRoot_before p hn hlen r hr hlast hok hd
      (by omega)
    rw [hrun]
    have hstep : scatterRootStep p r st = .error (.assertion 420) := by
      unfold scatterRootStep
      rw [scatterStride_pos (getElem?_getD_of_lt _ r hr) (getElem?_getD_of_lt _ r (by omega))
        hic hle]
      simp only
      rw [scatterFillData_assert p.dataToSend _ 0 st.counter st.sendbuf (by omega) (by omega)
        (by omega)]
    rw [hstep]
  · intro r hr hlast hok hd hdata hzero
    obtain ⟨st, _, hrun⟩ := scatterRoot_before p hn hlen r hr hlast hok hd hdata
    rw [hrun]
    have hstep : scatterRootStep p r st = .error .divisionByZero := by
      unfold scatterRootStep scatterStride
      rw [getElem?_getD_of_lt _ r hr, getElem?_getD_of_lt _ r (by omega), hzero]
      simp
    rw [hstep]
  · intro hpos hzero
    unfold scatterRoot scatterInit
    simp only
    rw [if_neg (by omega), getElem?_getD_of_lt p.sendcounts _ (by omega),
      getElem?_getD_of_lt p.sendIDcounts _ (by omega), hzero]
    simp only
    rw [if_neg (by omega)]
    simp

/-- Witness of C15, amended: counts `(4, 4, 4)` and `(2, 2, 2)` run through;
with `sendcounts = (4, 6, 4)` rank 1 has more values than the last rank and
the assertion of line 420 fails; with `sendIDcounts = (2, 0, 2)` round 1
divides by zero; with the single rank of `sendIDcounts = (0)` the assertion of
line 406 fails. -/
theorem scatterRoot_safety_witness :
    (∃ st, scatterRoot (rootExample [4, 4, 4] [2, 2, 2]) = .ok st) ∧
    scatterRoot (rootExample [4, 6, 4] [2, 2, 2]) = .error (.assertion 420) ∧
    scatterRoot (rootExample [4, 4, 4] [2, 0, 2]) = .error .divisionByZero ∧
    scatterRoot (rootExample [4] [0]) = .error (.assertion 406) :=
  ⟨((scatterRoot_safety (rootExample [4, 4, 4] [2, 2, 2]) (by decide) rfl).1
      (by decide) (by decide)).2 (by decide),
   (scatterRoot_safety (rootExample [4, 6, 4] [2, 2, 2]) (by decide) rfl).2.1 1
      (by decide) (by decide) (by decide) (by decide) (by decide) (by decide) (by decide)
      (by decide),
   (scatterRoot_safety (rootExample [4, 4, 4] [2, 0, 2]) (by decide) rfl).2.2.1 1
      (by decide) (by decide) (by decide) (by decide) (by decide) rfl,
   (scatterRoot_safety (rootExample [4] [0]) (by decide) rfl).2.2.2 (by decide) rfl⟩

end ScatterRoot

end StdConcurrentDataTransfer
